import Mathlib

/-!
Verification of the `iocdi` dependency-injection container (Go).

The Go sources (`internal.go`, `initializer.go`, `hooks.go`) are shallowly
embedded: `reflect.Type` becomes `GoType`, runtime values with a heap of
struct objects become `GoVal`/`Heap`, the container's maps become
association lists (Go map iteration order is unspecified; the lists fix one
order, which is sound for every claim whose conclusion is order-robust),
and the two depth-first traversals become fuelled recursions whose fuel is
large enough for every terminating Go run.  The process-global literal
provider and the reflection metadata (struct field tables, interface
satisfaction, `Initializer` implementations) are parameters.
-/

namespace Iocdi

/-- The kinds of `reflect.Type` this package manipulates: `string`, a second
scalar (`int`) standing for "any non-string simple kind", pointers, named
struct types and named interface types.  Named Go types compare by identity,
which structural equality on this syntax reproduces. -/
inductive GoType where
  | stringT : GoType
  | intT : GoType
  | ptrT (elem : GoType) : GoType
  | structT (name : String) : GoType
  | ifaceT (name : String) : GoType
deriving DecidableEq, Repr

/-- One struct field as seen by reflection: name, exportedness, the value of
its `di.inject` tag (`none` when the tag is absent), and its type. -/
structure FieldDecl where
  fname : String
  exported : Bool
  tag : Option String
  ftype : GoType
deriving DecidableEq, Repr

/-- Reflection metadata: the field table of every named struct type, which
types implement which named interface (`t.Implements(iface)`), and whether
`*S` implements the `Initializer` hook contract and with which result
(`none` = does not implement; `some none` = `Initialize` returns nil;
`some (some e)` = `Initialize` returns an error with text `e`). -/
structure TypeEnv where
  fieldsOf : String → List FieldDecl
  impl : GoType → String → Bool
  initHook : String → Option (Option String)

/-- Runtime values.  Struct objects live in a heap (`Obj` list); a pointer
carries its element type and the address of the pointee, a struct value
carries the address of the cell holding its (exclusively owned) content.
`nilPtrV` is a typed nil pointer. -/
inductive GoVal where
  | strV (s : String) : GoVal
  | intV (n : Int) : GoVal
  | ptrV (elem : GoType) (addr : Nat) : GoVal
  | nilPtrV (elem : GoType) : GoVal
  | structV (name : String) (addr : Nat) : GoVal
deriving DecidableEq, Repr

/-- A heap cell: one struct object.  A field absent from `flds` still holds
its zero value (never observed by the container). -/
structure Obj where
  tyName : String
  flds : List (String × GoVal)
deriving DecidableEq, Repr

abbrev Heap := List Obj

/-- The dynamic type of a value (`reflect.ValueOf(v).Type()`). -/
def GoVal.typeOf : GoVal → GoType
  | .strV _ => .stringT
  | .intV _ => .intT
  | .ptrV e _ => .ptrT e
  | .nilPtrV e => .ptrT e
  | .structV n _ => .structT n

/-- Association-list lookup (Go map read). -/
def lookupA {α : Type} (k : String) : List (String × α) → Option α
  | [] => none
  | (k', v) :: rest => if k' = k then some v else lookupA k rest

/-- Association-list insert/overwrite (Go map write). -/
def insertA {α : Type} (k : String) (v : α) : List (String × α) → List (String × α)
  | [] => [(k, v)]
  | (k', v') :: rest => if k' = k then (k, v) :: rest else (k', v') :: insertA k v rest

/-- Update field `fname` of the object at `a` (no-op on a dangling address,
which the container never produces). -/
def setObjField (h : Heap) (a : Nat) (fname : String) (v : GoVal) : Heap :=
  match h.get? a with
  | some o => h.set a ⟨o.tyName, insertA fname v o.flds⟩
  | none => h

/-- `strings.ToLower`.  (Char-wise ASCII lowering; kernel-reducible, unlike
`String.toLower`, and adequate for Go identifiers.) -/
def goLower (s : String) : String := ⟨s.data.map Char.toLower⟩

/-- `constants.go`. -/
def emptyString : String := ""

def pathSep : String := " -> "

/-- Errors.  The named sentinel errors of `errors.go` are constructors; every
`fmt.Errorf`-built error is carried as its rendered text; `crash` models a
reflection panic (unreachable from the public API in well-formed states). -/
inductive GoError where
  | beanIdEmpty
  | beanTypeNil
  | beanNil
  | beanTypeNotSupported
  | registrationClosed
  | fuelOut
  | crash (s : String)
  | msg (s : String)
deriving DecidableEq, Repr

/-- Rendered error text (`err.Error()`), used by claims about messages. -/
def GoError.text : GoError → String
  | .beanIdEmpty => "beanID parameter is empty"
  | .beanTypeNil => "beanType parameter is nil"
  | .beanNil => "bean parameter is nil"
  | .beanTypeNotSupported => "beanType is not supported"
  | .registrationClosed => "container already built; registration is closed"
  | .fuelOut => "recursion fuel exhausted"
  | .crash s => s
  | .msg s => s

/-- Rendering of a type by `%v` (the exact text is irrelevant to the claims). -/
def typeText : GoType → String
  | .stringT => "string"
  | .intT => "int"
  | .ptrT e => "*" ++ typeText e
  | .structT n => "iocdi." ++ n
  | .ifaceT n => "iocdi." ++ n

/-- A bean descriptor (`bean` in `internal.go`; `instance` is a Lean keyword,
hence `inst`).  `inst = none` is Go's nil `any`. -/
structure Bean where
  id : String
  beanType : GoType
  inst : Option GoVal
  singleton : Bool
  hasDependencies : Bool
  dependencies : List String
deriving DecidableEq, Repr

/-- Go's zero `bean` value, produced by a map read of an absent key.  The
placeholder `beanType` stands for Go's nil `reflect.Type`; it is never
consulted because every key the code reads this way is present. -/
def zeroBean : Bean :=
  { id := "", beanType := .stringT, inst := none, singleton := false
    hasDependencies := false, dependencies := [] }

/-- The container.  The mutexes guard concurrency only and carry no
sequential meaning; `built` is the `atomic.Bool`.  The ambient Go heap is
carried here so registration and build can allocate. -/
structure Container where
  built : Bool
  requiredDependency : List (String × GoType)
  registeredBeans : List (String × Bean)
  heap : Heap
deriving DecidableEq, Repr

/-- `New()`. -/
def newContainer : Container :=
  { built := false, requiredDependency := [], registeredBeans := [], heap := [] }

/-- One step of the field scan of `checkForDependency`: a field with a
`di.inject` tag (lowercased) of pointer-to-struct, string or interface type
is recorded in the required-dependency map and in the bean's dependency
list.  Unexported or untagged fields and other field types are skipped. -/
def scanField (acc : List (String × GoType) × Bool × List String)
    (f : FieldDecl) : List (String × GoType) × Bool × List String :=
  let (rd, has, ids) := acc
  match f.tag with
  | none => (rd, has, ids)
  | some t =>
    let tagName := goLower t
    if f.exported then
      match f.ftype with
      | .ptrT (.structT m) => (insertA tagName (.structT m) rd, true, ids ++ [tagName])
      | .stringT => (insertA tagName .stringT rd, true, ids ++ [tagName])
      | .ifaceT i => (insertA tagName (.ifaceT i) rd, true, ids ++ [tagName])
      | _ => (rd, has, ids)
    else (rd, has, ids)

/-- `checkForDependency`.  Both registration paths normalize their argument
to a pointer before calling it, so the argument is always a pointer type
here; a pointer to a non-struct yields no dependencies.  (A bare struct
argument would make the Go code panic on `beanType.Elem()`; it is
unreachable and mapped to the no-dependency result.) -/
def checkForDependency (env : TypeEnv) (rd : List (String × GoType)) (beanType : GoType) :
    List (String × GoType) × Bool × List String :=
  match beanType with
  | .ptrT (.structT n) => (env.fieldsOf n).foldl scanField (rd, false, [])
  | _ => (rd, false, [])

/-- `Register`.  The `beanType?` argument is `Option` to model Go's nil
`reflect.Type`.  Struct kinds are normalized to pointer-to-struct; pointer
kinds are accepted as-is (even pointers to non-structs); all other kinds are
rejected. -/
def Container.register (env : TypeEnv) (c : Container) (beanID : String)
    (beanType? : Option GoType) : Except GoError Container :=
  if beanID = emptyString then .error .beanIdEmpty
  else match beanType? with
  | none => .error .beanTypeNil
  | some beanType0 =>
    if c.built then .error .registrationClosed
    else
      let beanID := goLower beanID
      match (match beanType0 with
             | .ptrT e => some (GoType.ptrT e)
             | .structT n => some (GoType.ptrT (.structT n))
             | _ => none) with
      | none => .error .beanTypeNotSupported
      | some beanType =>
        let (rd, hasDeps, deps) := checkForDependency env c.requiredDependency beanType
        let b : Bean :=
          { id := beanID, beanType := beanType, inst := none, singleton := false
            hasDependencies := hasDeps, dependencies := deps }
        .ok { c with requiredDependency := rd
                     registeredBeans := insertA beanID b c.registeredBeans }

/-- `RegisterInstance`.  A struct value is copied into a freshly allocated
cell so the stored instance is uniformly a pointer. -/
def Container.registerInstance (env : TypeEnv) (c : Container) (beanID : String)
    (inst? : Option GoVal) : Except GoError Container :=
  if beanID = emptyString then .error .beanIdEmpty
  else match inst? with
  | none => .error .beanNil
  | some inst0 =>
    if c.built then .error .registrationClosed
    else
      let beanID := goLower beanID
      let (inst, heap) :=
        match inst0 with
        | .structV n a =>
          let o := (c.heap.get? a).getD (Obj.mk n [])
          (GoVal.ptrV (.structT n) c.heap.length, c.heap ++ [Obj.mk n o.flds])
        | v => (v, c.heap)
      let beanType := inst.typeOf
      let (rd, hasDeps, deps) := checkForDependency env c.requiredDependency beanType
      let b : Bean :=
        { id := beanID, beanType := beanType, inst := some inst, singleton := true
          hasDependencies := hasDeps, dependencies := deps }
      .ok { c with requiredDependency := rd
                   registeredBeans := insertA beanID b c.registeredBeans
                   heap := heap }

/-- `createInstance`: allocate a zero-valued instance and return a pointer
to it.  `Build` only calls it under a pointer-to-struct guard; the Go
pointer-to-non-struct branch (which would allocate a non-struct cell) is
unreachable there and collapsed into the unsupported error. -/
def createInstance (h : Heap) : GoType → Except GoError (GoVal × Heap)
  | .ptrT (.structT n) => .ok (.ptrV (.structT n) h.length, h ++ [Obj.mk n []])
  | .structT n => .ok (.ptrV (.structT n) h.length, h ++ [Obj.mk n []])
  | t => .error (.msg ("beanType is not supported: " ++ typeText t))

/-- Go assignability as used by `reflect.Value.Set`: identical type, or a
concrete type assigned into an interface it implements. -/
def assignable (env : TypeEnv) (v : GoVal) (t : GoType) : Bool :=
  v.typeOf = t ||
    (match t with
     | .ifaceT i => env.impl v.typeOf i
     | _ => false)

/-- `fv.Set(depVal)`: store the dependency value itself into the field.
Setting an invalid (`none`) or non-assignable value panics in Go, modelled
by `crash`; the container's flow never reaches those cases. -/
def setShared (env : TypeEnv) (h : Heap) (raddr : Nat) (fname : String)
    (fieldType : GoType) (dv? : Option GoVal) : Except GoError Heap :=
  match dv? with
  | none => .error (.crash "reflect: Set using zero Value argument")
  | some dv =>
    if assignable env dv fieldType then .ok (setObjField h raddr fname dv)
    else .error (.crash "reflect: Set of mismatched type")

/-- One iteration of the field loop of `injectIntoStruct`, for the field
`sf` of the struct object at `raddr`.  Mirrors the Go cascade: tag must be
present, non-empty and (lowercased) equal to the dependency's id, the field
must be settable (exported); then exact type match (with the fresh
allocation special case for pointers to field-less structs), interface
satisfaction, pointer-from-value, value-from-pointer, pointer-from-pointer;
otherwise the field is left untouched. -/
def injectField (env : TypeEnv) (dep : Bean) (raddr : Nat) (sf : FieldDecl)
    (h : Heap) : Except GoError Heap :=
  let tagVal0 := sf.tag.getD emptyString
  if tagVal0 = emptyString then .ok h
  else
    let tagVal := goLower tagVal0
    if tagVal ≠ dep.id then .ok h
    else if ¬ sf.exported then .ok h
    else
      let fieldType := sf.ftype
      let depType := dep.beanType
      if fieldType = depType then
        match depType with
        | .ptrT (.structT m) =>
          if (env.fieldsOf m).length = 0 then
            .ok (setObjField (h ++ [Obj.mk m []]) raddr sf.fname (.ptrV (.structT m) h.length))
          else setShared env h raddr sf.fname fieldType dep.inst
        | _ => setShared env h raddr sf.fname fieldType dep.inst
      else
        match fieldType, depType with
        | .ifaceT i, _ =>
          match dep.inst with
          | none => .error (.crash "reflect: Type on zero Value")
          | some dv =>
            if env.impl dv.typeOf i then .ok (setObjField h raddr sf.fname dv)
            else .ok h
        | .ptrT fe, .structT m =>
          -- field *T, dependency T: allocate, copy the value in, assign
          if fe = GoType.structT m then
            match dep.inst with
            | some (.structV m' a) =>
              if m' = m then
                .ok (setObjField (h ++ [Obj.mk m ((h.get? a).getD (Obj.mk m [])).flds])
                      raddr sf.fname (.ptrV (.structT m) h.length))
              else .error (.crash "reflect: Set of mismatched type")
            | _ => .error (.crash "reflect: Set using zero Value argument")
          else .ok h
        | .structT m, .ptrT de =>
          -- field T, dependency *T: dereference and copy the value in
          if de = GoType.structT m then
            match dep.inst with
            | some (.ptrV de' a) =>
              if de' = GoType.structT m then
                .ok (setObjField (h ++ [Obj.mk m ((h.get? a).getD (Obj.mk m [])).flds])
                      raddr sf.fname (.structV m h.length))
              else .error (.crash "reflect: Set of mismatched type")
            | _ => .error (.crash "reflect: Set using zero Value argument")
          else .ok h
        | .ptrT fe, .ptrT de =>
          if fe = de then setShared env h raddr sf.fname fieldType dep.inst
          else .ok h
        | _, _ => .ok h

/-- The field loop of `injectIntoStruct`. -/
def injectFields (env : TypeEnv) (dep : Bean) (raddr : Nat) :
    List FieldDecl → Heap → Except GoError Heap
  | [], h => .ok h
  | sf :: rest, h =>
    match injectField env dep raddr sf h with
    | .error e => .error e
    | .ok h' => injectFields env dep raddr rest h'

/-- `strings.Join(l, pathSep)`. -/
def sepJoin : List String → String
  | [] => emptyString
  | [x] => x
  | x :: y :: rest => x ++ pathSep ++ sepJoin (y :: rest)

/-- `injectIntoStruct`.  The chain guard fires when the dependency's id is
already on the traversal path; a receiver whose instance is not a pointer
to a struct object is rejected; a receiver that is a plain struct value has
no settable fields, so the loop is a no-op. -/
def injectIntoStruct (env : TypeEnv) (h : Heap) (receiver dep : Bean)
    (chain : List String) : Except GoError Heap :=
  if dep.id ∈ chain then
    .error (.msg ("dependency cycle detected: " ++ sepJoin chain ++ pathSep ++ dep.id))
  else
    match receiver.inst with
    | some (.ptrV (.structT n) a) => injectFields env dep a (env.fieldsOf n) h
    | some (.structV _ _) => .ok h
    | _ =>
      .error (.msg ("injectIntoStruct: receiver bean \x27" ++ receiver.id ++
        "\x27 is not a struct"))

/-- The result of one invocation of the literal provider hook:
`(value, found, err)`. -/
structure PRes where
  value : Option GoVal
  found : Bool
  err : Option String

/-- The `LiteralProvider` callback.  The global `atomic.Value` slot of
`hooks.go` is a parameter: `none` models no (or a nil) installed provider. -/
abbrev Provider := String → GoType → PRes

/-- `joinPath` (the closure inside `injectDependencies`). -/
def joinPath (p : List String) (last : String) : String :=
  let s := sepJoin p
  if last ≠ emptyString then
    (if 0 < s.length then s ++ pathSep ++ last else s ++ last)
  else s

/-- The mutable state of `injectDependencies`: the bean registry (literal
synthesis adds to it), the heap (field injection writes to it), the DFS
bookkeeping, and a log of literal-provider invocations (instrumentation;
the Go code has no such log, it records which calls the hook receives). -/
structure InjSt where
  beans : List (String × Bean)
  heap : Heap
  visited : List String
  onPath : List String
  path : List String
  calls : List (String × GoType)
deriving DecidableEq, Repr

/-- Dependency lookup with literal-provider fallback: the head of the loop
body of `visit` in `injectDependencies`.  `recvId` is `bn.id`, used in the
error texts. -/
def resolveDep (lp : Option Provider) (rd : List (String × GoType))
    (recvId depId : String) (st : InjSt) : InjSt × Except GoError Bean :=
  let notFound : GoError :=
    .msg ("injectDependencies: dependency bean \x27" ++ depId ++ "\x27 for \x27" ++
      recvId ++ "\x27 receiver bean not found")
  match lookupA depId st.beans with
  | some depBean => (st, .ok depBean)
  | none =>
    match lookupA depId rd with
    | some expectedType =>
      if expectedType = GoType.stringT then
        match lp with
        | some p =>
          let r := p depId expectedType
          let st' := { st with calls := st.calls ++ [(depId, expectedType)] }
          match r.err with
          | some e =>
            (st', .error (.msg ("injectDependencies: literal provider error for \x27" ++
              depId ++ "\x27: " ++ e)))
          | none =>
            if r.found then
              let depBean : Bean :=
                { id := depId, beanType := expectedType, inst := r.value
                  singleton := false, hasDependencies := false, dependencies := [] }
              ({ st' with beans := insertA depId depBean st'.beans }, .ok depBean)
            else (st', .error notFound)
        | none => (st, .error notFound)
      else (st, .error notFound)
    | none => (st, .error notFound)

/-- The dependency loop inside `visit` (`for _, depBeanID := range
bn.dependencies`): resolve, recurse (through `recur`, the fuelled visit one
level down), check the dependency is instantiated, inject into the
receiver, reload the receiver.  The receiver value is re-read from the
registry at the start of each iteration, which coincides with Go's read at
the end of the previous one (the receiver's entry never changes inside the
loop). -/
def visitDeps (env : TypeEnv) (lp : Option Provider) (rd : List (String × GoType))
    (recur : String → InjSt → InjSt × Option GoError) :
    String → List String → InjSt → InjSt × Option GoError
  | _, [], st => (st, none)
  | id, depId :: rest, st =>
    let bn := (lookupA id st.beans).getD zeroBean
    match resolveDep lp rd bn.id depId st with
    | (st', .error e) => (st', some e)
    | (st', .ok depBean) =>
      match recur depId st' with
      | (st'', some e) => (st'', some e)
      | (st'', none) =>
        if depBean.inst = none then
          (st'', some (.msg ("injectDependencies: dependency bean \x27" ++ depId ++
            "\x27 for \x27" ++ bn.id ++ "\x27 receiver bean not instantiated")))
        else
          match injectIntoStruct env st''.heap bn depBean st''.path with
          | .error e => (st'', some (.msg ("injectDependencies: " ++ e.text)))
          | .ok h' => visitDeps env lp rd recur id rest { st'' with heap := h' }

/-- The body of `visit` from `injectDependencies` (one level; `recur`
performs the recursive visits). -/
def visitStep (env : TypeEnv) (lp : Option Provider) (rd : List (String × GoType))
    (recur : String → InjSt → InjSt × Option GoError) (id : String) (st : InjSt) :
    InjSt × Option GoError :=
  match lookupA id st.beans with
  | none =>
    (st, some (.msg ("injectDependencies: receiver bean \x27" ++ id ++ "\x27 not found")))
  | some bn =>
    if id ∈ st.onPath then
      (st, some (.msg ("dependency cycle detected: " ++ joinPath st.path id)))
    else if id ∈ st.visited then (st, none)
    else
      let st1 := { st with onPath := st.onPath ++ [id], path := st.path ++ [id] }
      match (if bn.hasDependencies then
               if bn.inst = none then
                 (st1, some (GoError.msg ("injectDependencies: receiver bean \x27" ++
                   bn.id ++ "\x27 is nil")))
               else visitDeps env lp rd recur id bn.dependencies st1
             else (st1, none)) with
      | (st2, some e) => (st2, some e)
      | (st2, none) =>
        ({ st2 with onPath := st2.onPath.erase id, path := st2.path.dropLast
                    visited := st2.visited ++ [id] }, none)

/-- `visit` from `injectDependencies`, fuelled (structurally, so it
computes definitionally).  The fuel passed by `Container.build` exceeds the
depth of any Go run, so `fuelOut` never escapes (proved where needed). -/
def visitD (env : TypeEnv) (lp : Option Provider) (rd : List (String × GoType)) :
    Nat → String → InjSt → InjSt × Option GoError
  | 0, _, st => (st, some .fuelOut)
  | fuel+1, id, st => visitStep env lp rd (fun i s => visitD env lp rd fuel i s) id st

/-- The top-level loop of `injectDependencies` over the registered ids. -/
def injectAll (env : TypeEnv) (lp : Option Provider) (rd : List (String × GoType))
    (fuel : Nat) : List String → InjSt → InjSt × Option GoError
  | [], st => (st, none)
  | id :: ids, st =>
    match visitD env lp rd fuel id st with
    | (st', some e) => (st', some e)
    | (st', none) => injectAll env lp rd fuel ids st'

/-- The type-compatibility test of `Build`'s pre-instantiation loop. -/
def checkCompat (env : TypeEnv) (required registered : GoType) : Bool :=
  match required with
  | .structT n =>
    match registered with
    | .ptrT e => e = GoType.structT n
    | _ => false
  | .ifaceT i => env.impl registered i
  | _ => registered = required

/-- `Build`'s first loop: every required dependency must resolve to a
compatible registered bean, except a missing string dependency when a
literal provider is installed, whose resolution is deferred to injection. -/
def precheck (env : TypeEnv) (lp : Option Provider) (beans : List (String × Bean)) :
    List (String × GoType) → Option GoError
  | [] => none
  | (beanID, requiredType) :: rest =>
    match lookupA beanID beans with
    | none =>
      if requiredType = GoType.stringT ∧ lp.isSome then precheck env lp beans rest
      else some (.msg ("bean `" ++ beanID ++ "` is required but not registered"))
    | some regBean =>
      if checkCompat env requiredType regBean.beanType then precheck env lp beans rest
      else some (.msg ("bean \x27" ++ beanID ++ "\x27 type mismatch: required " ++
        typeText requiredType ++ ", registered " ++ typeText regBean.beanType))

/-- `Build`'s instantiation loop over a snapshot of the registry: every
bean with a nil instance and a pointer-to-struct type receives a fresh
zero-valued instance and becomes a singleton. -/
def instantiateAll : List Bean → List (String × Bean) → Heap → List (String × Bean) × Heap
  | [], beans, h => (beans, h)
  | bn :: rest, beans, h =>
    if bn.inst ≠ none then instantiateAll rest beans h
    else
      match bn.beanType with
      | .ptrT (.structT n) =>
        let bn' := { bn with inst := some (GoVal.ptrV (.structT n) h.length)
                             singleton := true }
        instantiateAll rest (insertA bn.id bn' beans) (h ++ [Obj.mk n []])
      | _ => instantiateAll rest beans h

/-- The bookkeeping of `Build`'s second (initializer-ordering) DFS. -/
structure OrdSt where
  visited : List String
  onPath : List String
  order : List String
deriving DecidableEq, Repr

/-- The dependency loop of the initializer-ordering DFS. -/
def visit2Deps (beans : List (String × Bean))
    (recur : String → OrdSt → OrdSt × Option GoError) :
    String → List String → OrdSt → OrdSt × Option GoError
  | _, [], st => (st, none)
  | id, dep :: rest, st =>
    match lookupA dep beans with
    | none =>
      (st, some (.msg ("initializer order: dependency \x27" ++ dep ++
        "\x27 required by \x27" ++ id ++ "\x27 not registered")))
    | some _ =>
      match recur dep st with
      | (st', some e) => (st', some e)
      | (st', none) => visit2Deps beans recur id rest st'

/-- The body of the `visit` of `Build`'s initializer-ordering DFS.  Note it
tests `visited` before `onPath`, unlike the injection DFS. -/
def visit2Step (beans : List (String × Bean))
    (recur : String → OrdSt → OrdSt × Option GoError) (id : String) (st : OrdSt) :
    OrdSt × Option GoError :=
  if id ∈ st.visited then (st, none)
  else if id ∈ st.onPath then
    (st, some (.msg ("initializer order: dependency cycle detected at \x27" ++ id ++ "\x27")))
  else
    let st1 := { st with onPath := st.onPath ++ [id] }
    let bn := (lookupA id beans).getD zeroBean
    match (if bn.hasDependencies then visit2Deps beans recur id bn.dependencies st1
           else (st1, none)) with
    | (st2, some e) => (st2, some e)
    | (st2, none) =>
      ({ st2 with onPath := st2.onPath.erase id, visited := st2.visited ++ [id]
                  order := st2.order ++ [id] }, none)

/-- The `visit` of the ordering DFS, fuelled structurally. -/
def visit2 (beans : List (String × Bean)) : Nat → String → OrdSt → OrdSt × Option GoError
  | 0, _, st => (st, some .fuelOut)
  | fuel+1, id, st => visit2Step beans (fun i s => visit2 beans fuel i s) id st

/-- The top-level loop of the ordering DFS over the registered ids. -/
def orderAll (beans : List (String × Bean)) (fuel : Nat) :
    List String → OrdSt → OrdSt × Option GoError
  | [], st => (st, none)
  | id :: ids, st =>
    match visit2 beans fuel id st with
    | (st', some e) => (st', some e)
    | (st', none) => orderAll beans fuel ids st'

/-- `Build`'s final loop: in topological order, invoke `Initialize` on every
bean whose (pointer-to-struct) instance implements the hook; abort on the
first failure, wrapping the error with the bean's identifier.  The returned
list logs the invocations (instrumentation). -/
def runInits (env : TypeEnv) (beans : List (String × Bean)) :
    List String → List String → List String × Option GoError
  | [], log => (log, none)
  | id :: rest, log =>
    let bn := (lookupA id beans).getD zeroBean
    match bn.inst with
    | none => runInits env beans rest log
    | some v =>
      match v with
      | .ptrV (.structT n) _ =>
        match env.initHook n with
        | none => runInits env beans rest log
        | some (some e) =>
          (log ++ [id], some (.msg ("initializer for bean \x27" ++ id ++ "\x27 failed: " ++ e)))
        | some none => runInits env beans rest (log ++ [id])
      | _ => runInits env beans rest log

/-- The outcome of `Build`: the container after the call, the returned
error, and the instrumentation logs (provider queries, hook invocations). -/
structure BuildOut where
  c : Container
  err : Option GoError
  calls : List (String × GoType)
  inits : List String
deriving DecidableEq, Repr

/-- The body of `Build` past the idempotence guard: precheck, instantiate,
inject, order, run initializers.  On failure every mutation already
performed (instances allocated, literal beans synthesized, fields injected)
is kept, and only success sets the `built` flag. -/
def Container.buildCore (env : TypeEnv) (lp : Option Provider) (c : Container) : BuildOut :=
    match precheck env lp c.registeredBeans c.requiredDependency with
    | some e => ⟨c, some e, [], []⟩
    | none =>
      let ih := instantiateAll (c.registeredBeans.map Prod.snd) c.registeredBeans c.heap
      let fuel := ih.1.length + c.requiredDependency.length + 1
      let st0 : InjSt := ⟨ih.1, ih.2, [], [], [], []⟩
      match injectAll env lp c.requiredDependency fuel (ih.1.map Prod.fst) st0 with
      | (st, some e) =>
        ⟨{ c with registeredBeans := st.beans, heap := st.heap }, some e, st.calls, []⟩
      | (st, none) =>
        let beans2 := st.beans
        match orderAll beans2 (beans2.length + 1) (beans2.map Prod.fst) ⟨[], [], []⟩ with
        | (_, some e) =>
          ⟨{ c with registeredBeans := beans2, heap := st.heap }, some e, st.calls, []⟩
        | (ost, none) =>
          match runInits env beans2 ost.order [] with
          | (log, some e) =>
            ⟨{ c with registeredBeans := beans2, heap := st.heap }, some e, st.calls, log⟩
          | (log, none) =>
            ⟨{ c with built := true, registeredBeans := beans2, heap := st.heap },
              none, st.calls, log⟩

/-- `Build`: a no-op once the container is built, the full finalization
sequence otherwise. -/
def Container.build (env : TypeEnv) (lp : Option Provider) (c : Container) : BuildOut :=
  if c.built then ⟨c, none, [], []⟩ else c.buildCore env lp

/-- `ResolveSafe`: lowercase the id, build on first use, look the bean up
and fail on an absent bean or a nil instance. -/
def Container.resolveSafe (env : TypeEnv) (lp : Option Provider) (c : Container)
    (beanID : String) : Container × Except GoError GoVal :=
  if beanID = emptyString then (c, .error .beanIdEmpty)
  else
    let beanID := goLower beanID
    let built := if c.built then (c, (none : Option GoError)) else
      let out := c.build env lp
      (out.c, out.err)
    match built with
    | (c', some e) => (c', .error e)
    | (c', none) =>
      match lookupA beanID c'.registeredBeans with
      | none => (c', .error (.msg ("bean \x27" ++ beanID ++ "\x27 not found")))
      | some bn =>
        match bn.inst with
        | none => (c', .error (.msg ("bean \x27" ++ beanID ++ "\x27 is not initialized")))
        | some v => (c', .ok v)

/-! ### Association-list lemmas -/

theorem lookupA_insertA_self {α : Type} (k : String) (v : α) (l : List (String × α)) :
    lookupA k (insertA k v l) = some v := by
  induction l with
  | nil => simp [insertA, lookupA]
  | cons hd tl ih =>
    obtain ⟨k', v'⟩ := hd
    by_cases h : k' = k
    · simp [insertA, h, lookupA]
    · simp [insertA, h, lookupA, ih]

theorem lookupA_insertA_ne {α : Type} {j k : String} (h : j ≠ k) (v : α)
    (l : List (String × α)) : lookupA k (insertA j v l) = lookupA k l := by
  induction l with
  | nil => simp [insertA, lookupA, h]
  | cons hd tl ih =>
    obtain ⟨k', v'⟩ := hd
    by_cases h2 : k' = j
    · subst h2
      simp [insertA, lookupA, h, Ne.symm h]
    · by_cases h3 : k' = k
      · subst h3
        simp [insertA, lookupA, h2]
      · simp [insertA, lookupA, h2, h3, ih]

theorem lookupA_mem {α : Type} {k : String} {v : α} {l : List (String × α)} :
    lookupA k l = some v → (k, v) ∈ l := by
  induction l with
  | nil => intro h; simp [lookupA] at h
  | cons hd tl ih =>
    obtain ⟨k', v'⟩ := hd
    intro h
    by_cases hk : k' = k
    · subst hk
      simp [lookupA] at h
      subst h
      exact List.mem_cons_self _ _
    · simp [lookupA, hk] at h
      exact List.mem_cons_of_mem _ (ih h)

theorem mem_lookupA_of_nodup {α : Type} {k : String} {v : α} {l : List (String × α)}
    (hnd : (l.map Prod.fst).Nodup) (hm : (k, v) ∈ l) : lookupA k l = some v := by
  induction l with
  | nil => simp at hm
  | cons hd tl ih =>
    obtain ⟨k', v'⟩ := hd
    simp only [List.map_cons, List.nodup_cons] at hnd
    rcases List.mem_cons.mp hm with heq | htl
    · injection heq with h1 h2
      subst h1
      subst h2
      simp [lookupA]
    · have hk : k' ≠ k := by
        intro he
        subst he
        exact hnd.1 (List.mem_map_of_mem Prod.fst htl)
      simp [lookupA, hk]
      exact ih hnd.2 htl

/-- `ptrStructB t` holds when `t` is a pointer to a named struct. -/
def ptrStructB : GoType → Bool
  | .ptrT (.structT _) => true
  | _ => false

/-! ### Shared helper lemmas about `build` -/

/-- `buildCore` never touches the `built` flag except on full success. -/
theorem buildCoreErrBuilt (env : TypeEnv) (lp : Option Provider) (c : Container) :
    (c.buildCore env lp).err ≠ none → (c.buildCore env lp).c.built = c.built := by
  unfold Container.buildCore
  split
  · intro _; rfl
  · simp only []
    split
    · intro _; rfl
    · split
      · intro _; rfl
      · split
        · intro _; rfl
        · intro hne; exact absurd rfl hne

/-- A failing `build` leaves the `built` flag clear. -/
theorem buildErrLeavesOpen (env : TypeEnv) (lp : Option Provider) (c : Container) :
    (c.build env lp).err ≠ none → (c.build env lp).c.built = false := by
  intro hne
  cases hcb : c.built with
  | true =>
    exfalso
    apply hne
    simp [Container.build, hcb]
  | false =>
    simp only [Container.build, hcb, Bool.false_eq_true, if_false] at hne ⊢
    rw [buildCoreErrBuilt env lp c hne, hcb]

/-- Registration by a pointer type succeeds on an open container. -/
theorem registerOpenPtrOk (env : TypeEnv) (c : Container) (id : String) (e : GoType)
    (hb : c.built = false) (hid : id ≠ emptyString) :
    ∃ c', c.register env id (some (.ptrT e)) = .ok c' := by
  rcases hcd : checkForDependency env c.requiredDependency (.ptrT e) with ⟨rd, has, deps⟩
  exact ⟨{ built := c.built, requiredDependency := rd,
           registeredBeans := insertA (goLower id)
             { id := (goLower id), beanType := .ptrT e, inst := none, singleton := false,
               hasDependencies := has, dependencies := deps } c.registeredBeans,
           heap := c.heap },
         by simp [Container.register, hid, hb, hcd]⟩

/-- A trivial reflection environment (no struct has fields, nothing
implements anything, no initializer hooks). -/
def env0 : TypeEnv :=
  { fieldsOf := fun _ => [], impl := fun _ _ => false, initHook := fun _ => none }

/-! ### C8 -/

/-- C8 counterexample input: building the empty container succeeds and
closes it. -/
def closedBuild : BuildOut := newContainer.build env0 none

/-- C8 counterexample: the claim says *any* `register`/`registerInstance`
call after a successful `build()` returns the "registration closed" error;
but a call with an empty identifier on the closed container returns the
empty-identifier usage error instead (the empty-id check precedes the
closed check). -/
theorem c8_counterexample :
    closedBuild.err = none ∧ closedBuild.c.built = true ∧
    closedBuild.c.register env0 emptyString (some (.structT "T")) = .error .beanIdEmpty ∧
    closedBuild.c.registerInstance env0 emptyString (some (.strV "s")) =
      .error .beanIdEmpty ∧
    GoError.beanIdEmpty ≠ GoError.registrationClosed :=
  ⟨rfl, rfl, rfl, rfl, by decide⟩

/-- C8 (amended): once `built` is set, any `register`/`registerInstance`
call whose arguments pass the usage checks (non-empty id, non-nil
type/instance) returns the registration-closed error — and, the embedding
being functional, no mutated container is produced; a `build()` that
returns an error leaves `built` clear, so a subsequent registration with
valid arguments succeeds. -/
theorem c8_amended (env : TypeEnv) (lp : Option Provider) (c : Container)
    (id : String) (ty : GoType) (v : GoVal) :
    (c.built = true → id ≠ emptyString →
      c.register env id (some ty) = .error .registrationClosed ∧
      c.registerInstance env id (some v) = .error .registrationClosed) ∧
    ((c.build env lp).err ≠ none → (c.build env lp).c.built = false) ∧
    ((c.build env lp).err ≠ none → id ≠ emptyString → ∀ e,
      ∃ c', (c.build env lp).c.register env id (some (.ptrT e)) = .ok c') := by
  refine ⟨?_, buildErrLeavesOpen env lp c, ?_⟩
  · intro hb hid
    constructor
    · simp [Container.register, hid, hb]
    · simp [Container.registerInstance, hid, hb]
  · intro hne hid e
    exact registerOpenPtrOk env _ id e (buildErrLeavesOpen env lp c hne) hid

/-- C8 witness: a concrete closed container rejects a valid registration
with the closed error, and a concretely failing build leaves the container
open for a subsequent successful registration. -/
theorem c8_witness :
    closedBuild.c.register env0 "late" (some (.structT "T")) = .error .registrationClosed ∧
    closedBuild.c.registerInstance env0 "late" (some (.strV "s")) =
      .error .registrationClosed := by
  have h := c8_amended env0 none closedBuild.c "late" (.structT "T") (.strV "s")
  exact h.1 (by rfl) (by decide)

/-! ### C9 -/

/-- C9: while the container is open, a second `register` or
`registerInstance` call on an identifier that is already registered (after
lowercasing) returns no error and silently overwrites the earlier
descriptor: the registry afterwards holds exactly the later call's type,
instance, singleton flag and dependency list.  (`register` is stated for
any pointer type, `registerInstance` for any non-struct-value instance;
struct values are first normalized to pointers and then overwrite in the
same way.) -/
theorem c9_silent_overwrite (env : TypeEnv) (c : Container) (id : String)
    (b0 : Bean) (e : GoType) (v : GoVal)
    (hb : c.built = false) (hid : id ≠ emptyString)
    (_hreg : lookupA (goLower id) c.registeredBeans = some b0)
    (hv : ∀ n a, v ≠ .structV n a) :
    (∃ c', c.register env id (some (.ptrT e)) = .ok c' ∧
      lookupA (goLower id) c'.registeredBeans = some
        { id := (goLower id), beanType := .ptrT e, inst := none, singleton := false,
          hasDependencies := (checkForDependency env c.requiredDependency (.ptrT e)).2.1,
          dependencies := (checkForDependency env c.requiredDependency (.ptrT e)).2.2 }) ∧
    (∃ c', c.registerInstance env id (some v) = .ok c' ∧
      lookupA (goLower id) c'.registeredBeans = some
        { id := (goLower id), beanType := v.typeOf, inst := some v, singleton := true,
          hasDependencies := (checkForDependency env c.requiredDependency v.typeOf).2.1,
          dependencies := (checkForDependency env c.requiredDependency v.typeOf).2.2 }) := by
  constructor
  · rcases hcd : checkForDependency env c.requiredDependency (.ptrT e) with ⟨rd, has, deps⟩
    refine ⟨{ built := c.built, requiredDependency := rd,
              registeredBeans := insertA (goLower id)
                { id := (goLower id), beanType := .ptrT e, inst := none, singleton := false,
                  hasDependencies := has, dependencies := deps } c.registeredBeans,
              heap := c.heap }, ?_, ?_⟩
    · simp [Container.register, hid, hb, hcd]
    · simp only [hcd]
      exact lookupA_insertA_self ..
  · cases v with
    | structV n a => exact absurd rfl (hv n a)
    | strV s =>
      rcases hcd : checkForDependency env c.requiredDependency GoType.stringT with ⟨rd, has, deps⟩
      refine ⟨{ built := c.built, requiredDependency := rd,
                registeredBeans := insertA (goLower id)
                  { id := (goLower id), beanType := .stringT, inst := some (.strV s),
                    singleton := true, hasDependencies := has, dependencies := deps }
                  c.registeredBeans,
                heap := c.heap }, ?_, ?_⟩
      · simp [Container.registerInstance, hid, hb, GoVal.typeOf, hcd]
      · simp only [GoVal.typeOf, hcd]
        exact lookupA_insertA_self ..
    | intV i =>
      rcases hcd : checkForDependency env c.requiredDependency GoType.intT with ⟨rd, has, deps⟩
      refine ⟨{ built := c.built, requiredDependency := rd,
                registeredBeans := insertA (goLower id)
                  { id := (goLower id), beanType := .intT, inst := some (.intV i),
                    singleton := true, hasDependencies := has, dependencies := deps }
                  c.registeredBeans,
                heap := c.heap }, ?_, ?_⟩
      · simp [Container.registerInstance, hid, hb, GoVal.typeOf, hcd]
      · simp only [GoVal.typeOf, hcd]
        exact lookupA_insertA_self ..
    | ptrV et a =>
      rcases hcd : checkForDependency env c.requiredDependency (GoType.ptrT et) with ⟨rd, has, deps⟩
      refine ⟨{ built := c.built, requiredDependency := rd,
                registeredBeans := insertA (goLower id)
                  { id := (goLower id), beanType := .ptrT et, inst := some (.ptrV et a),
                    singleton := true, hasDependencies := has, dependencies := deps }
                  c.registeredBeans,
                heap := c.heap }, ?_, ?_⟩
      · simp [Container.registerInstance, hid, hb, GoVal.typeOf, hcd]
      · simp only [GoVal.typeOf, hcd]
        exact lookupA_insertA_self ..
    | nilPtrV et =>
      rcases hcd : checkForDependency env c.requiredDependency (GoType.ptrT et) with ⟨rd, has, deps⟩
      refine ⟨{ built := c.built, requiredDependency := rd,
                registeredBeans := insertA (goLower id)
                  { id := (goLower id), beanType := .ptrT et, inst := some (.nilPtrV et),
                    singleton := true, hasDependencies := has, dependencies := deps }
                  c.registeredBeans,
                heap := c.heap }, ?_, ?_⟩
      · simp [Container.registerInstance, hid, hb, GoVal.typeOf, hcd]
      · simp only [GoVal.typeOf, hcd]
        exact lookupA_insertA_self ..

/-- A concrete open container with one registered bean, for witnesses. -/
def oneBeanC : Container :=
  match newContainer.register env0 "dup" (some (.ptrT (.structT "A"))) with
  | .ok c => c
  | .error _ => newContainer

/-- C9 witness: re-registering "dup" (first as `*A`, again as `*B` and as a
string instance) succeeds and the registry holds the second descriptor. -/
theorem c9_witness :
    oneBeanC.built = false ∧
    lookupA "dup" oneBeanC.registeredBeans = some
      { id := "dup", beanType := .ptrT (.structT "A"), inst := none, singleton := false,
        hasDependencies := false, dependencies := [] } ∧
    (∃ c', oneBeanC.register env0 "dup" (some (.ptrT (.structT "B"))) = .ok c' ∧
      lookupA "dup" c'.registeredBeans = some
        { id := "dup", beanType := .ptrT (.structT "B"), inst := none, singleton := false,
          hasDependencies := (checkForDependency env0 oneBeanC.requiredDependency
            (.ptrT (.structT "B"))).2.1,
          dependencies := (checkForDependency env0 oneBeanC.requiredDependency
            (.ptrT (.structT "B"))).2.2 }) := by
  refine ⟨by decide, by decide, ?_⟩
  have h := c9_silent_overwrite env0 oneBeanC "dup"
    { id := "dup", beanType := .ptrT (.structT "A"), inst := none, singleton := false,
      hasDependencies := false, dependencies := [] }
    (.structT "B") (.strV "x") (by decide) (by decide) (by decide)
    (fun n a => by simp)
  have e : goLower "dup" = "dup" := by decide
  rw [e] at h
  exact h.1

/-! ### C10 -/

/-- Reflection environment for the C10 scenario: struct `S` has a string
field tagged `w` and a self-referential pointer field tagged `s`. -/
def envC10 : TypeEnv :=
  { fieldsOf := fun n =>
      if n = "S" then
        [⟨"W", true, some "w", .stringT⟩, ⟨"Me", true, some "s", .ptrT (.structT "S")⟩]
      else []
    impl := fun _ _ => false, initHook := fun _ => none }

/-- A literal provider that supplies `"/ws"` for the id `w`. -/
def provC10 : Provider := fun id _ =>
  if id = "w" then ⟨some (.strV "/ws"), true, none⟩ else ⟨none, false, none⟩

/-- Container with only the self-cyclic bean `s` registered. -/
def contC10 : Container :=
  match newContainer.register envC10 "s" (some (.ptrT (.structT "S"))) with
  | .ok c => c
  | .error _ => newContainer

def outC10 : BuildOut := contC10.build envC10 (some provC10)

/-- C10: a failing `build()` leaves `built` clear (so the next `build()`
call re-runs the whole finalization sequence instead of the built no-op),
but does not roll back registry mutations: in the concrete scenario the
build fails with a cycle error, yet the ephemeral literal bean `w`
(absent before the call), the zero-valued instance allocated for `s`, and
the already-injected field value all remain in the returned state. -/
theorem c10_failed_build_state :
    (∀ (env : TypeEnv) (lp : Option Provider) (c : Container),
      (c.build env lp).err ≠ none →
        (c.build env lp).c.built = false ∧
        ∀ (env' : TypeEnv) (lp' : Option Provider),
          ((c.build env lp).c).build env' lp' = ((c.build env lp).c).buildCore env' lp') ∧
    outC10.err = some (.msg "dependency cycle detected: s -> s") ∧
    outC10.c.built = false ∧
    lookupA "w" contC10.registeredBeans = none ∧
    lookupA "w" outC10.c.registeredBeans = some
      { id := "w", beanType := .stringT, inst := some (.strV "/ws"), singleton := false,
        hasDependencies := false, dependencies := [] } ∧
    (∃ b, lookupA "s" contC10.registeredBeans = some b ∧ b.inst = none) ∧
    lookupA "s" outC10.c.registeredBeans = some
      { id := "s", beanType := .ptrT (.structT "S"), inst := some (.ptrV (.structT "S") 0),
        singleton := true, hasDependencies := true, dependencies := ["w", "s"] } ∧
    outC10.c.heap = [Obj.mk "S" [("W", .strV "/ws")]] := by
  refine ⟨?_, by decide, by decide, by decide, by decide, ?_, by decide, by decide⟩
  · intro env lp c hne
    have hopen := buildErrLeavesOpen env lp c hne
    refine ⟨hopen, fun env' lp' => ?_⟩
    generalize hX : (Container.build env lp c).c = X at hopen ⊢
    simp [Container.build, hopen]
  · exact ⟨{ id := "s", beanType := .ptrT (.structT "S"), inst := none, singleton := false,
             hasDependencies := true, dependencies := ["w", "s"] }, by decide, by decide⟩

/-- C10 witness: the general part applied to the concrete failing build. -/
theorem c10_witness :
    outC10.c.built = false ∧
    outC10.c.build envC10 (some provC10) = outC10.c.buildCore envC10 (some provC10) := by
  have h := (c10_failed_build_state.1 envC10 (some provC10) contC10 (by decide))
  exact ⟨h.1, h.2 envC10 (some provC10)⟩

/-! ### Registry evolution during injection

During `injectDependencies` the registry only ever grows, and only by
synthesized literal beans; entries that are present keep their exact value,
and every literal-provider query concerns an identifier that had no
registered bean at the moment of the query. -/

/-- `Growth a b`: the injection state evolved from `a` to `b` obeying the
three registry-evolution facts above. -/
def Growth (a b : InjSt) : Prop :=
  (∀ k, (lookupA k a.beans).isSome → lookupA k b.beans = lookupA k a.beans) ∧
  (∀ k bn, lookupA k b.beans = some bn → lookupA k a.beans = some bn ∨
     (lookupA k a.beans = none ∧ bn.id = k ∧ bn.beanType = .stringT ∧
      bn.hasDependencies = false ∧ bn.dependencies = [])) ∧
  (∃ nc, b.calls = a.calls ++ nc ∧ ∀ p ∈ nc, lookupA p.1 a.beans = none)

theorem Growth.refl (a : InjSt) : Growth a a :=
  ⟨fun _ _ => Eq.refl _, fun _ _ h => Or.inl h, ⟨[], by simp⟩⟩

theorem Growth.trans {a b c : InjSt} (h1 : Growth a b) (h2 : Growth b c) : Growth a c := by
  obtain ⟨p1, q1, nc1, hc1, hn1⟩ := h1
  obtain ⟨p2, q2, nc2, hc2, hn2⟩ := h2
  refine ⟨?_, ?_, ⟨nc1 ++ nc2, ?_, ?_⟩⟩
  · intro k hk
    have hb := p1 k hk
    have : (lookupA k b.beans).isSome := by rw [hb]; exact hk
    rw [p2 k this, hb]
  · intro k bn h
    rcases q2 k bn h with hmid | ⟨habs, hsh⟩
    · rcases q1 k bn hmid with hfst | ⟨habs, hsh⟩
      · exact Or.inl hfst
      · exact Or.inr ⟨habs, hsh⟩
    · right
      refine ⟨?_, hsh⟩
      cases hak : lookupA k a.beans with
      | none => rfl
      | some v =>
        exfalso
        have := p1 k (by rw [hak]; rfl)
        rw [habs] at this
        exact Option.noConfusion (hak ▸ this)
  · rw [hc2, hc1, List.append_assoc]
  · intro p hp
    rcases List.mem_append.mp hp with h1m | h2m
    · exact hn1 p h1m
    · cases hak : lookupA p.1 a.beans with
      | none => rfl
      | some v =>
        exfalso
        have := p1 p.1 (by rw [hak]; rfl)
        rw [hn2 p h2m] at this
        exact Option.noConfusion (hak ▸ this)

/-- The beans and calls of an injection state evolve by `Growth` across
`resolveDep`, whatever the outcome. -/
theorem growth_resolveDep (lp : Option Provider) (rd : List (String × GoType))
    (rid did : String) (st : InjSt) : Growth st (resolveDep lp rd rid did st).1 := by
  unfold resolveDep
  cases hdb : lookupA did st.beans with
  | some depBean => exact Growth.refl st
  | none =>
    cases hrd : lookupA did rd with
    | none => exact Growth.refl st
    | some expectedType =>
      simp only []
      split
      · -- expectedType is string
        rename_i hstr
        subst hstr
        cases lp with
        | none => exact Growth.refl st
        | some p =>
          simp only []
          have hcalls : ∀ q, q ∈ [(did, GoType.stringT)] → lookupA q.1 st.beans = none := by
            intro q hq
            obtain rfl := List.mem_singleton.mp hq
            exact hdb
          split
          · exact ⟨fun _ _ => Eq.refl _, fun _ _ h => Or.inl h,
              ⟨[(did, .stringT)], rfl, hcalls⟩⟩
          · split
            · refine ⟨?_, ?_, ⟨[(did, .stringT)], rfl, hcalls⟩⟩
              · intro k hk
                have hne : did ≠ k := by
                  intro he
                  have h2 : lookupA k st.beans = none := by rw [← he]; exact hdb
                  rw [h2] at hk
                  exact Bool.noConfusion hk
                exact lookupA_insertA_ne hne _ _
              · intro k bn hl
                by_cases hke : did = k
                · subst hke
                  rw [lookupA_insertA_self] at hl
                  cases hl
                  exact Or.inr ⟨hdb, rfl, rfl, rfl, rfl⟩
                · rw [lookupA_insertA_ne hke _ _] at hl
                  exact Or.inl hl
            · exact ⟨fun _ _ => Eq.refl _, fun _ _ h => Or.inl h,
                ⟨[(did, .stringT)], rfl, hcalls⟩⟩
      · exact Growth.refl st

/-- `Growth` across the dependency loop, given it across the recursive
visit. -/
theorem growth_visitDeps (env : TypeEnv) (lp : Option Provider)
    (rd : List (String × GoType)) (recur : String → InjSt → InjSt × Option GoError)
    (hrec : ∀ i s, Growth s (recur i s).1) :
    ∀ (deps : List String) (id : String) (st : InjSt),
      Growth st (visitDeps env lp rd recur id deps st).1 := by
  intro deps
  induction deps with
  | nil => intro id st; exact Growth.refl st
  | cons d rest ih =>
    intro id st
    unfold visitDeps
    simp only []
    have g1 := growth_resolveDep lp rd ((lookupA id st.beans).getD zeroBean).id d st
    generalize hres : resolveDep lp rd ((lookupA id st.beans).getD zeroBean).id d st = res
      at g1 ⊢
    obtain ⟨st', r⟩ := res
    cases r with
    | error e => exact g1
    | ok depBean =>
      simp only []
      have g2 := hrec d st'
      generalize hrec2 : recur d st' = res2 at g2 ⊢
      obtain ⟨st'', e2⟩ := res2
      cases e2 with
      | some e => exact g1.trans g2
      | none =>
        simp only []
        by_cases hni : depBean.inst = none
        · rw [if_pos hni]
          exact g1.trans g2
        · rw [if_neg hni]
          generalize hinj : injectIntoStruct env st''.heap
            ((lookupA id st.beans).getD zeroBean) depBean st''.path = ir
          cases ir with
          | error e => exact g1.trans g2
          | ok h' =>
            have g3 : Growth st'' { st'' with heap := h' } :=
              ⟨fun _ _ => Eq.refl _, fun _ _ h => Or.inl h, ⟨[], by simp⟩⟩
            exact (g1.trans g2).trans (g3.trans (ih id { st'' with heap := h' }))

/-- `Growth` across one visit step. -/
theorem growth_visitStep (env : TypeEnv) (lp : Option Provider)
    (rd : List (String × GoType)) (recur : String → InjSt → InjSt × Option GoError)
    (hrec : ∀ i s, Growth s (recur i s).1) (id : String) (st : InjSt) :
    Growth st (visitStep env lp rd recur id st).1 := by
  unfold visitStep
  cases hbn : lookupA id st.beans with
  | none => exact Growth.refl st
  | some bn =>
    simp only []
    by_cases h1 : id ∈ st.onPath
    · rw [if_pos h1]
      exact Growth.refl st
    · rw [if_neg h1]
      by_cases h2 : id ∈ st.visited
      · rw [if_pos h2]
        exact Growth.refl st
      · rw [if_neg h2]
        have g0 : Growth st { st with onPath := st.onPath ++ [id], path := st.path ++ [id] } :=
          ⟨fun _ _ => Eq.refl _, fun _ _ h => Or.inl h, ⟨[], by simp⟩⟩
        have key : Growth { st with onPath := st.onPath ++ [id], path := st.path ++ [id] }
            ((if bn.hasDependencies then
                if bn.inst = none then
                  ({ st with onPath := st.onPath ++ [id], path := st.path ++ [id] },
                   some (GoError.msg ("injectDependencies: receiver bean \x27" ++
                     bn.id ++ "\x27 is nil")))
                else visitDeps env lp rd recur id bn.dependencies
                  { st with onPath := st.onPath ++ [id], path := st.path ++ [id] }
              else ({ st with onPath := st.onPath ++ [id], path := st.path ++ [id] },
                    none)) : InjSt × Option GoError).1 := by
          by_cases hd : bn.hasDependencies = true
          · rw [if_pos hd]
            by_cases hni : bn.inst = none
            · rw [if_pos hni]
              exact Growth.refl _
            · rw [if_neg hni]
              exact growth_visitDeps env lp rd recur hrec bn.dependencies id _
          · rw [if_neg hd]
            exact Growth.refl _
        generalize hm : ((if bn.hasDependencies then
                if bn.inst = none then
                  ({ st with onPath := st.onPath ++ [id], path := st.path ++ [id] },
                   some (GoError.msg ("injectDependencies: receiver bean \x27" ++
                     bn.id ++ "\x27 is nil")))
                else visitDeps env lp rd recur id bn.dependencies
                  { st with onPath := st.onPath ++ [id], path := st.path ++ [id] }
              else ({ st with onPath := st.onPath ++ [id], path := st.path ++ [id] },
                    none)) : InjSt × Option GoError) = res at key ⊢
        obtain ⟨st2, e2⟩ := res
        cases e2 with
        | some e => exact g0.trans key
        | none =>
          have g2 : Growth st2 ({ st2 with onPath := st2.onPath.erase id, path := st2.path.dropLast, visited := st2.visited ++ [id] }) :=
            ⟨fun _ _ => Eq.refl _, fun _ _ h => Or.inl h, ⟨[], by simp⟩⟩
          exact (g0.trans key).trans g2

/-- `Growth` across the fuelled visit. -/
theorem growth_visitD (env : TypeEnv) (lp : Option Provider)
    (rd : List (String × GoType)) :
    ∀ (fuel : Nat) (id : String) (st : InjSt), Growth st (visitD env lp rd fuel id st).1 := by
  intro fuel
  induction fuel with
  | zero => intro id st; exact Growth.refl st
  | succ f ih =>
    intro id st
    exact growth_visitStep env lp rd _ (fun i s => ih i s) id st

/-- `Growth` across the whole injection pass. -/
theorem growth_injectAll (env : TypeEnv) (lp : Option Provider)
    (rd : List (String × GoType)) (fuel : Nat) :
    ∀ (ids : List String) (st : InjSt), Growth st (injectAll env lp rd fuel ids st).1 := by
  intro ids
  induction ids with
  | nil => intro st; exact Growth.refl st
  | cons id rest ih =>
    intro st
    unfold injectAll
    rcases hv : visitD env lp rd fuel id st with ⟨st', e⟩
    have g1 : Growth st st' := by
      have := growth_visitD env lp rd fuel id st
      rwa [hv] at this
    cases e with
    | some e => exact g1
    | none => exact g1.trans (ih st')

/-! ### The instantiation stage -/

/-- After the instantiation loop no bean reachable by lookup is a nil
pointer-to-struct, provided every such bean is in the processed snapshot
and registry keys match descriptor ids. -/
theorem instantiateAll_fills (vs : List Bean) :
    ∀ (beans : List (String × Bean)) (h : Heap),
      (∀ k b, lookupA k beans = some b → b.id = k) →
      (∀ k b, lookupA k beans = some b → b.inst = none → ptrStructB b.beanType = true →
        b ∈ vs) →
      ∀ k b, lookupA k (instantiateAll vs beans h).1 = some b →
        b.inst = none → ptrStructB b.beanType = true → False := by
  induction vs with
  | nil =>
    intro beans h _ hP k b hl hni hps
    exact absurd (hP k b hl hni hps) (List.not_mem_nil b)
  | cons bn rest ih =>
    intro beans h hwf hP
    unfold instantiateAll
    by_cases hbni : bn.inst ≠ none
    · rw [if_pos hbni]
      apply ih beans h hwf
      intro k b hl hni hps
      rcases List.mem_cons.mp (hP k b hl hni hps) with rfl | hr
      · exact absurd hni hbni
      · exact hr
    · rw [if_neg hbni]
      have hbn0 : bn.inst = none := by simpa using hbni
      have tailTransfer : (∀ k b, lookupA k beans = some b → b.inst = none →
          ptrStructB b.beanType = true → b.beanType ≠ bn.beanType ∨ b ≠ bn → b ∈ rest) := by
        intro k b hl hni hps hne
        rcases List.mem_cons.mp (hP k b hl hni hps) with rfl | hr
        · rcases hne with hne | hne
          · exact absurd rfl hne
          · exact absurd rfl hne
        · exact hr
      cases hbt : bn.beanType with
      | ptrT e =>
        cases e with
        | structT n =>
          -- the bean receives a fresh zero-valued instance and is re-stored
          simp only []
          apply ih (insertA bn.id
              { id := bn.id, beanType := .ptrT (.structT n),
                inst := some (GoVal.ptrV (.structT n) h.length), singleton := true,
                hasDependencies := bn.hasDependencies, dependencies := bn.dependencies }
              beans) (h ++ [Obj.mk n []])
          · intro k b hl
            by_cases hk : bn.id = k
            · subst hk
              rw [lookupA_insertA_self] at hl
              cases hl
              rfl
            · rw [lookupA_insertA_ne hk] at hl
              exact hwf k b hl
          · intro k b hl hni hps
            by_cases hk : bn.id = k
            · subst hk
              rw [lookupA_insertA_self] at hl
              cases hl
              simp at hni
            · rw [lookupA_insertA_ne hk] at hl
              rcases List.mem_cons.mp (hP k b hl hni hps) with rfl | hr
              · exact absurd (hwf k b hl) hk
              · exact hr
        | stringT =>
          apply ih beans h hwf
          intro k b hl hni hps
          rcases List.mem_cons.mp (hP k b hl hni hps) with rfl | hr
          · rw [hbt] at hps
            simp [ptrStructB] at hps
          · exact hr
        | intT =>
          apply ih beans h hwf
          intro k b hl hni hps
          rcases List.mem_cons.mp (hP k b hl hni hps) with rfl | hr
          · rw [hbt] at hps
            simp [ptrStructB] at hps
          · exact hr
        | ptrT e2 =>
          apply ih beans h hwf
          intro k b hl hni hps
          rcases List.mem_cons.mp (hP k b hl hni hps) with rfl | hr
          · rw [hbt] at hps
            simp [ptrStructB] at hps
          · exact hr
        | ifaceT n2 =>
          apply ih beans h hwf
          intro k b hl hni hps
          rcases List.mem_cons.mp (hP k b hl hni hps) with rfl | hr
          · rw [hbt] at hps
            simp [ptrStructB] at hps
          · exact hr
      | stringT =>
        apply ih beans h hwf
        intro k b hl hni hps
        rcases List.mem_cons.mp (hP k b hl hni hps) with rfl | hr
        · rw [hbt] at hps
          simp [ptrStructB] at hps
        · exact hr
      | intT =>
        apply ih beans h hwf
        intro k b hl hni hps
        rcases List.mem_cons.mp (hP k b hl hni hps) with rfl | hr
        · rw [hbt] at hps
          simp [ptrStructB] at hps
        · exact hr
      | structT n =>
        apply ih beans h hwf
        intro k b hl hni hps
        rcases List.mem_cons.mp (hP k b hl hni hps) with rfl | hr
        · rw [hbt] at hps
          simp [ptrStructB] at hps
        · exact hr
      | ifaceT n =>
        apply ih beans h hwf
        intro k b hl hni hps
        rcases List.mem_cons.mp (hP k b hl hni hps) with rfl | hr
        · rw [hbt] at hps
          simp [ptrStructB] at hps
        · exact hr

/-- The instantiation loop never touches a registry entry whose instance is
already set. -/
theorem instantiateAll_preserves (vs : List Bean) :
    ∀ (beans : List (String × Bean)) (h : Heap),
      (∀ v ∈ vs, lookupA v.id beans = some v) →
      (vs.map Bean.id).Nodup →
      ∀ k b, lookupA k beans = some b → b.inst ≠ none →
        lookupA k (instantiateAll vs beans h).1 = some b := by
  induction vs with
  | nil =>
    intro beans h _ _ k b hl _
    exact hl
  | cons bn rest ih =>
    intro beans h hvs hnd k b hl hbne
    simp only [List.map_cons, List.nodup_cons] at hnd
    unfold instantiateAll
    by_cases hbni : bn.inst ≠ none
    · rw [if_pos hbni]
      exact ih beans h (fun v hv => hvs v (List.mem_cons_of_mem _ hv)) hnd.2 k b hl hbne
    · rw [if_neg hbni]
      have hbn0 : bn.inst = none := by simpa using hbni
      have hkne : bn.id ≠ k := by
        intro he
        subst he
        have := hvs bn (List.mem_cons_self _ _)
        rw [this] at hl
        cases hl
        exact hbne hbn0
      have hincase : ∀ (bn' : Bean) (h' : Heap),
          (∀ v ∈ rest, lookupA v.id (insertA bn.id bn' beans) = some v) →
          lookupA k (instantiateAll rest (insertA bn.id bn' beans) h').1 = some b := by
        intro bn' h' hvs'
        apply ih (insertA bn.id bn' beans) h' hvs' hnd.2 k b _ hbne
        rw [lookupA_insertA_ne hkne]
        exact hl
      have hvs' : ∀ (bn' : Bean), ∀ v ∈ rest, lookupA v.id (insertA bn.id bn' beans) = some v := by
        intro bn' v hv
        have hvne : bn.id ≠ v.id := by
          intro he
          exact hnd.1 (he ▸ List.mem_map_of_mem Bean.id hv)
        rw [lookupA_insertA_ne hvne]
        exact hvs v (List.mem_cons_of_mem _ hv)
      cases hbt : bn.beanType with
      | ptrT e =>
        cases e with
        | structT n => exact hincase _ _ (hvs' _)
        | stringT => exact ih beans h (fun v hv => hvs v (List.mem_cons_of_mem _ hv)) hnd.2 k b hl hbne
        | intT => exact ih beans h (fun v hv => hvs v (List.mem_cons_of_mem _ hv)) hnd.2 k b hl hbne
        | ptrT e2 => exact ih beans h (fun v hv => hvs v (List.mem_cons_of_mem _ hv)) hnd.2 k b hl hbne
        | ifaceT n2 => exact ih beans h (fun v hv => hvs v (List.mem_cons_of_mem _ hv)) hnd.2 k b hl hbne
      | stringT => exact ih beans h (fun v hv => hvs v (List.mem_cons_of_mem _ hv)) hnd.2 k b hl hbne
      | intT => exact ih beans h (fun v hv => hvs v (List.mem_cons_of_mem _ hv)) hnd.2 k b hl hbne
      | structT n => exact ih beans h (fun v hv => hvs v (List.mem_cons_of_mem _ hv)) hnd.2 k b hl hbne
      | ifaceT n => exact ih beans h (fun v hv => hvs v (List.mem_cons_of_mem _ hv)) hnd.2 k b hl hbne

/-- Inversion of a successful first `build`: every phase succeeded, and the
resulting container is the injected state with the `built` flag set. -/
theorem buildSuccInv (env : TypeEnv) (lp : Option Provider) (c : Container)
    (hb : c.built = false) (hsucc : (c.build env lp).err = none) :
    precheck env lp c.registeredBeans c.requiredDependency = none ∧
    ∃ st ost log,
      injectAll env lp c.requiredDependency
          ((instantiateAll (c.registeredBeans.map Prod.snd) c.registeredBeans c.heap).1.length +
            c.requiredDependency.length + 1)
          ((instantiateAll (c.registeredBeans.map Prod.snd) c.registeredBeans c.heap).1.map
            Prod.fst)
          ⟨(instantiateAll (c.registeredBeans.map Prod.snd) c.registeredBeans c.heap).1,
            (instantiateAll (c.registeredBeans.map Prod.snd) c.registeredBeans c.heap).2,
            [], [], [], []⟩ = (st, none) ∧
      orderAll st.beans (st.beans.length + 1) (st.beans.map Prod.fst) ⟨[], [], []⟩ = (ost, none) ∧
      runInits env st.beans ost.order [] = (log, none) ∧
      (c.build env lp).c = ({ c with built := true, registeredBeans := st.beans, heap := st.heap }) ∧
      (c.build env lp).inits = log ∧
      (c.build env lp).calls = st.calls := by
  have hbb : c.build env lp = c.buildCore env lp := by
    simp [Container.build, hb]
  rw [hbb] at hsucc ⊢
  unfold Container.buildCore at hsucc ⊢
  cases hpre : precheck env lp c.registeredBeans c.requiredDependency with
  | some e =>
    rw [hpre] at hsucc
    simp at hsucc
  | none =>
    rw [hpre] at hsucc
    refine ⟨rfl, ?_⟩
    simp only [] at hsucc ⊢
    generalize hinj : injectAll env lp c.requiredDependency
        ((instantiateAll (c.registeredBeans.map Prod.snd) c.registeredBeans c.heap).1.length +
          c.requiredDependency.length + 1)
        ((instantiateAll (c.registeredBeans.map Prod.snd) c.registeredBeans c.heap).1.map
          Prod.fst)
        ⟨(instantiateAll (c.registeredBeans.map Prod.snd) c.registeredBeans c.heap).1,
          (instantiateAll (c.registeredBeans.map Prod.snd) c.registeredBeans c.heap).2,
          [], [], [], []⟩ = ip at hsucc ⊢
    obtain ⟨st, ie⟩ := ip
    cases ie with
    | some e => simp at hsucc
    | none =>
      simp only [] at hsucc ⊢
      generalize hord : orderAll st.beans (st.beans.length + 1) (st.beans.map Prod.fst)
          ⟨[], [], []⟩ = op at hsucc ⊢
      obtain ⟨ost, oe⟩ := op
      cases oe with
      | some e => simp at hsucc
      | none =>
        simp only [] at hsucc
        generalize hri : runInits env st.beans ost.order [] = rp at hsucc ⊢
        obtain ⟨log, re⟩ := rp
        cases re with
        | some e => simp at hsucc
        | none =>
          refine ⟨st, ost, log, rfl, hord, hri, ?_, ?_, ?_⟩ <;>
          · simp only []
            rw [hri]

theorem lookupA_singleton {α : Type} {k k' : String} {v b : α}
    (h : lookupA k [(k', v)] = some b) : k' = k ∧ b = v := by
  simp only [lookupA] at h
  by_cases hk : k' = k
  · rw [if_pos hk] at h
    cases h
    exact ⟨hk, rfl⟩
  · rw [if_neg hk] at h
    exact absurd h (by simp [lookupA])

/-- With distinct keys that match descriptor ids, every snapshot value is
found by looking its id up. -/
theorem snapshot_lookup {l : List (String × Bean)}
    (hwf : ∀ k b, lookupA k l = some b → b.id = k)
    (hnd : (l.map Prod.fst).Nodup) :
    ∀ v ∈ l.map Prod.snd, lookupA v.id l = some v := by
  intro v hv
  obtain ⟨p, hp, hpe⟩ := List.mem_map.mp hv
  obtain ⟨k', v'⟩ := p
  simp only [] at hpe
  subst hpe
  have hl : lookupA k' l = some v' := mem_lookupA_of_nodup hnd hp
  rw [hwf k' v' hl]
  exact hl

/-- Under the same assumptions the snapshot ids are exactly the keys. -/
theorem snapshot_ids_nodup {l : List (String × Bean)}
    (hwf : ∀ k b, lookupA k l = some b → b.id = k)
    (hnd : (l.map Prod.fst).Nodup) :
    ((l.map Prod.snd).map Bean.id).Nodup := by
  have he : (l.map Prod.snd).map Bean.id = l.map Prod.fst := by
    rw [List.map_map]
    apply List.map_congr_left
    intro p hp
    obtain ⟨k', v'⟩ := p
    exact hwf k' v' (mem_lookupA_of_nodup hnd hp)
  rw [he]
  exact hnd

/-! ### C2 -/

/-- C2 counterexample input: a pointer-to-non-struct registration. -/
def contC2 : Container :=
  match newContainer.register env0 "x" (some (.ptrT .stringT)) with
  | .ok c => c
  | .error _ => newContainer

/-- C2 counterexample: `Register` accepts any pointer kind, so `x` can be
registered as `*string`; `build()` succeeds (the instantiation loop only
fills pointer-to-struct beans, injection and initialization skip it), yet
the stored descriptor keeps a nil instance — a registration sequence for
which `build()` returns success while a registered descriptor's instance is
still nil. -/
theorem c2_counterexample :
    (contC2.build env0 none).err = none ∧
    (contC2.build env0 none).c.built = true ∧
    lookupA "x" (contC2.build env0 none).c.registeredBeans = some
      { id := "x", beanType := .ptrT .stringT, inst := none, singleton := false,
        hasDependencies := false, dependencies := [] } :=
  ⟨by decide, by decide, by decide⟩

/-- C2 (amended): after a successful finalizing `build()`, every registered
bean whose descriptor type is a pointer-to-struct has a non-nil instance,
and every bean that already had an instance keeps its exact descriptor; a
bean registered by type as a pointer to a non-struct may keep a nil
instance with `build()` still succeeding, so the claim as stated fails. -/
theorem c2_amended (env : TypeEnv) (lp : Option Provider) (c : Container)
    (hb : c.built = false)
    (hwf : ∀ k b, lookupA k c.registeredBeans = some b → b.id = k)
    (hnd : (c.registeredBeans.map Prod.fst).Nodup)
    (hsucc : (c.build env lp).err = none) :
    (∀ k b, lookupA k (c.build env lp).c.registeredBeans = some b →
      ptrStructB b.beanType = true → b.inst ≠ none) ∧
    (∀ k b, lookupA k c.registeredBeans = some b → b.inst ≠ none →
      lookupA k (c.build env lp).c.registeredBeans = some b) := by
  obtain ⟨hpre, st, ost, log, hinj, hord, hri, hc, hinits, hcalls⟩ :=
    buildSuccInv env lp c hb hsucc
  have hg := growth_injectAll env lp c.requiredDependency
    ((instantiateAll (c.registeredBeans.map Prod.snd) c.registeredBeans c.heap).1.length +
      c.requiredDependency.length + 1)
    ((instantiateAll (c.registeredBeans.map Prod.snd) c.registeredBeans c.heap).1.map Prod.fst)
    ⟨(instantiateAll (c.registeredBeans.map Prod.snd) c.registeredBeans c.heap).1,
      (instantiateAll (c.registeredBeans.map Prod.snd) c.registeredBeans c.heap).2,
      [], [], [], []⟩
  rw [hinj] at hg
  constructor
  · intro k b hl hps hni
    rw [hc] at hl
    simp only [] at hl
    rcases hg.2.1 k b hl with h0 | ⟨_, _, hstr, _⟩
    · exact instantiateAll_fills (c.registeredBeans.map Prod.snd) c.registeredBeans c.heap hwf
        (fun k' b' hl' _ _ => List.mem_map_of_mem Prod.snd (lookupA_mem hl')) k b h0 hni hps
    · rw [hstr] at hps
      simp [ptrStructB] at hps
  · intro k b hl hbne
    rw [hc]
    simp only []
    have h1 : lookupA k
        (instantiateAll (c.registeredBeans.map Prod.snd) c.registeredBeans c.heap).1 = some b :=
      instantiateAll_preserves (c.registeredBeans.map Prod.snd) c.registeredBeans c.heap
        (snapshot_lookup hwf hnd) (snapshot_ids_nodup hwf hnd) k b hl hbne
    have h2 := hg.1 k (by rw [h1]; rfl)
    rw [h2, h1]

/-- The descriptor stored by `oneBeanC`. -/
def dupBean0 : Bean :=
  { id := "dup", beanType := .ptrT (.structT "A"), inst := none, singleton := false,
    hasDependencies := false, dependencies := [] }

/-- The descriptor the finalized container holds for `dup`. -/
def dupBuilt : Bean :=
  { id := "dup", beanType := .ptrT (.structT "A"), inst := some (.ptrV (.structT "A") 0),
    singleton := true, hasDependencies := false, dependencies := [] }

/-- C2 witness: the single-bean container `oneBeanC` builds successfully and
the amended theorem yields the non-nil instance of its pointer-to-struct
bean. -/
theorem c2_witness :
    lookupA "dup" (oneBeanC.build env0 none).c.registeredBeans = some dupBuilt ∧
    dupBuilt.inst ≠ none := by
  have hwf : ∀ k b, lookupA k oneBeanC.registeredBeans = some b → b.id = k := by
    intro k b h
    have he : oneBeanC.registeredBeans = [("dup", dupBean0)] := by decide
    rw [he] at h
    obtain ⟨hk, rfl⟩ := lookupA_singleton h
    rw [← hk]
    rfl
  have hnd : (oneBeanC.registeredBeans.map Prod.fst).Nodup := by
    have he : oneBeanC.registeredBeans.map Prod.fst = ["dup"] := by decide
    rw [he]
    simp
  have h := c2_amended env0 none oneBeanC (by decide) hwf hnd (by decide)
  exact ⟨by decide, h.1 "dup" dupBuilt (by decide) (by decide)⟩

/-! ### C3 -/

/-- Reflection environment for the C3 scenario: `R` has a field tagged
`DepX` (mixed case) of type `*D`; `D` has one unexported field. -/
def envC3 : TypeEnv :=
  { fieldsOf := fun n =>
      if n = "R" then [⟨"F", true, some "DepX", .ptrT (.structT "D")⟩]
      else if n = "D" then [⟨"pad", false, none, .intT⟩]
      else []
    impl := fun _ _ => false, initHook := fun _ => none }

/-- Register the receiver and the dependency, the latter under `DEPX` —
a different capitalization than the annotation `DepX`. -/
def contC3 : Container :=
  match newContainer.register envC3 "r" (some (.ptrT (.structT "R"))) with
  | .ok c =>
    match c.register envC3 "DEPX" (some (.ptrT (.structT "D"))) with
    | .ok c => c
    | .error _ => newContainer
  | .error _ => newContainer

/-- C3 counterexample: the registration identifier `DEPX` and the
annotation `DepX` differ before lowercasing, yet they are consistent: the
build succeeds and wires the field (both sides are lowercased to `depx`).
The claim that the pre-lowercased strings must agree is false on the
code. -/
theorem c3_counterexample :
    ("DEPX" : String) ≠ "DepX" ∧ goLower "DEPX" = goLower "DepX" ∧
    (contC3.build envC3 none).err = none ∧
    (contC3.build envC3 none).c.heap.get? 0 =
      some (Obj.mk "R" [("F", .ptrV (.structT "D") 1)]) ∧
    (∃ b, lookupA "depx" (contC3.build envC3 none).c.registeredBeans = some b ∧
      b.inst = some (.ptrV (.structT "D") 1)) := by
  refine ⟨by decide, by decide, by decide, by decide, ?_⟩
  exact ⟨{ id := "depx", beanType := .ptrT (.structT "D"),
           inst := some (.ptrV (.structT "D") 1), singleton := true,
           hasDependencies := false, dependencies := [] }, by decide, by decide⟩

/-- C3 (amended): identifiers are stored and looked up in canonical
lowercase, and wiring matches the lowercased registration identifier
against the lowercased annotation: agreement after lowercasing is what is
required, so a registration and an annotation differing only in letter case
are consistent.  Concretely: registration stores the descriptor under the
lowercased identifier; a field whose lowercased annotation differs from the
dependency's (lowercased) id is never assigned. -/
theorem c3_amended (env : TypeEnv) (c : Container) (id : String) (e : GoType)
    (dep : Bean) (raddr : Nat) (sf : FieldDecl) (h : Heap)
    (hb : c.built = false) (hid : id ≠ emptyString) :
    (∃ c', c.register env id (some (.ptrT e)) = .ok c' ∧
      ∃ b, lookupA (goLower id) c'.registeredBeans = some b ∧ b.id = goLower id) ∧
    (goLower (sf.tag.getD emptyString) ≠ dep.id →
      injectField env dep raddr sf h = .ok h) := by
  constructor
  · rcases hcd : checkForDependency env c.requiredDependency (.ptrT e) with ⟨rd, has, deps⟩
    refine ⟨{ built := c.built, requiredDependency := rd,
              registeredBeans := insertA (goLower id)
                { id := goLower id, beanType := .ptrT e, inst := none, singleton := false,
                  hasDependencies := has, dependencies := deps } c.registeredBeans,
              heap := c.heap }, ?_, ?_⟩
    · simp [Container.register, hid, hb, hcd]
    · exact ⟨_, lookupA_insertA_self .., rfl⟩
  · intro hne
    unfold injectField
    by_cases h0 : sf.tag.getD emptyString = emptyString
    · rw [if_pos h0]
    · rw [if_neg h0]
      simp only []
      rw [if_pos hne]

/-- C3 witness: the amended statement applied to a concrete mixed-case
registration and a concrete non-matching field. -/
theorem c3_witness :
    (∃ c', newContainer.register env0 "MiXeD" (some (.ptrT (.structT "T"))) = .ok c' ∧
      ∃ b, lookupA (goLower "MiXeD") c'.registeredBeans = some b ∧ b.id = goLower "MiXeD") ∧
    injectField env0 dupBean0 0 ⟨"F", true, some "other", .stringT⟩ [] = .ok [] := by
  have h := c3_amended env0 newContainer "MiXeD" (.structT "T") dupBean0 0
    ⟨"F", true, some "other", .stringT⟩ [] (by decide) (by decide)
  exact ⟨h.1, h.2 (by decide)⟩

/-! ### C5 -/

/-- An entry of the required-dependency map that `Build`'s precheck loop
passes over without failing. -/
def entryOk (env : TypeEnv) (lp : Option Provider) (beans : List (String × Bean))
    (p : String × GoType) : Prop :=
  match lookupA p.1 beans with
  | some b => checkCompat env p.2 b.beanType = true
  | none => p.2 = GoType.stringT ∧ lp.isSome

theorem precheck_append (env : TypeEnv) (lp : Option Provider)
    (beans : List (String × Bean)) :
    ∀ (pre rest : List (String × GoType)), (∀ p ∈ pre, entryOk env lp beans p) →
      precheck env lp beans (pre ++ rest) = precheck env lp beans rest := by
  intro pre
  induction pre with
  | nil => intro rest _; rfl
  | cons p pre ih =>
    intro rest hok
    obtain ⟨k, t⟩ := p
    have hk := hok (k, t) (List.mem_cons_self _ _)
    unfold entryOk at hk
    simp only [List.cons_append]
    conv_lhs => unfold precheck
    cases hl : lookupA k beans with
    | some b =>
      rw [hl] at hk
      simp only [] at hk ⊢
      rw [if_pos hk]
      exact ih rest (fun q hq => hok q (List.mem_cons_of_mem _ hq))
    | none =>
      rw [hl] at hk
      simp only [] at hk ⊢
      rw [if_pos hk]
      exact ih rest (fun q hq => hok q (List.mem_cons_of_mem _ hq))

/-- A precheck failure is returned by `build` unchanged. -/
theorem buildPrecheckErr (env : TypeEnv) (lp : Option Provider) (c : Container)
    (e : GoError) (hb : c.built = false)
    (hpre : precheck env lp c.registeredBeans c.requiredDependency = some e) :
    (c.build env lp).err = some e := by
  simp [Container.build, hb, Container.buildCore, hpre]

/-- C5: the compatibility test of the pre-instantiation check is exactly
the claim's three-way characterization (struct expectation ⇒ pointer to
exactly that struct; interface expectation ⇒ implementation; any other
expectation ⇒ type identity), an incompatible first entry fails `build()`
with the type-mismatch error, and a missing bean whose expected type is
non-string or with no provider installed fails `build()` immediately with
the required-bean-not-registered error naming the identifier. -/
theorem c5_precheck (env : TypeEnv) (lp : Option Provider) (c : Container)
    (id : String) (rt : GoType) (b : Bean)
    (pre post : List (String × GoType)) (hb : c.built = false)
    (hrd : c.requiredDependency = pre ++ (id, rt) :: post)
    (hok : ∀ p ∈ pre, entryOk env lp c.registeredBeans p) :
    (∀ n reg, checkCompat env (.structT n) reg = true ↔ reg = .ptrT (.structT n)) ∧
    (∀ i reg, checkCompat env (.ifaceT i) reg = true ↔ env.impl reg i = true) ∧
    (∀ req reg, (∀ n, req ≠ GoType.structT n) → (∀ i, req ≠ GoType.ifaceT i) →
      (checkCompat env req reg = true ↔ reg = req)) ∧
    (lookupA id c.registeredBeans = none → ¬(rt = GoType.stringT ∧ lp.isSome) →
      (c.build env lp).err =
        some (.msg ("bean `" ++ id ++ "` is required but not registered"))) ∧
    (lookupA id c.registeredBeans = some b → checkCompat env rt b.beanType = false →
      (c.build env lp).err = some (.msg ("bean \x27" ++ id ++ "\x27 type mismatch: required " ++
        typeText rt ++ ", registered " ++ typeText b.beanType))) := by
  refine ⟨?_, ?_, ?_, ?_, ?_⟩
  · intro n reg
    cases reg with
    | ptrT e =>
      simp only [checkCompat]
      constructor
      · intro h
        have : e = GoType.structT n := by
          simpa using h
        rw [this]
      · intro h
        cases h
        simp
    | stringT => simp [checkCompat]
    | intT => simp [checkCompat]
    | structT m => simp [checkCompat]
    | ifaceT i => simp [checkCompat]
  · intro i reg
    exact Iff.rfl
  · intro req reg hns hni
    cases req with
    | structT n => exact absurd rfl (hns n)
    | ifaceT i => exact absurd rfl (hni i)
    | stringT => simp [checkCompat]
    | intT => simp [checkCompat]
    | ptrT e => simp [checkCompat]
  · intro hmiss hnf
    apply buildPrecheckErr env lp c _ hb
    rw [hrd, precheck_append env lp c.registeredBeans pre _ hok]
    unfold precheck
    rw [hmiss, if_neg hnf]
  · intro hfound hbad
    apply buildPrecheckErr env lp c _ hb
    rw [hrd, precheck_append env lp c.registeredBeans pre _ hok]
    unfold precheck
    rw [hfound]
    simp only []
    rw [if_neg (by simp [hbad])]

/-- Container for the C5 witness: only the receiver `r` is registered, so
`depx` is required (a struct expectation) but missing. -/
def contC5 : Container :=
  match newContainer.register envC3 "r" (some (.ptrT (.structT "R"))) with
  | .ok c => c
  | .error _ => newContainer

/-- C5 witness: on the concrete container the missing struct-typed
dependency fails the build with the naming error, and the characterizations
evaluate on concrete types. -/
theorem c5_witness :
    (contC5.build envC3 none).err =
      some (.msg ("bean `" ++ "depx" ++ "` is required but not registered")) ∧
    (checkCompat envC3 (.structT "D") (.ptrT (.structT "D")) = true) ∧
    (checkCompat envC3 GoType.stringT GoType.stringT = true) := by
  have h := c5_precheck envC3 none contC5 "depx" (.structT "D") zeroBean [] []
    (by decide) (by decide) (by simp)
  refine ⟨h.2.2.2.1 (by decide) (by decide), ?_, ?_⟩
  · exact (h.1 "D" (.ptrT (.structT "D"))).mpr rfl
  · exact (h.2.2.1 GoType.stringT GoType.stringT (fun n => by simp) (fun i => by simp)).mpr rfl

/-! ### C4 -/

theorem lookupA_insertA_isSome {α : Type} (j k : String) (v : α) (l : List (String × α))
    (h : (lookupA k l).isSome) : (lookupA k (insertA j v l)).isSome := by
  by_cases hj : j = k
  · subst hj
    rw [lookupA_insertA_self]
    rfl
  · rw [lookupA_insertA_ne hj]
    exact h

/-- The instantiation loop never removes a key. -/
theorem instantiateAll_presence (vs : List Bean) :
    ∀ (beans : List (String × Bean)) (h : Heap) (k : String),
      (lookupA k beans).isSome → (lookupA k (instantiateAll vs beans h).1).isSome := by
  induction vs with
  | nil => intro beans h k hk; exact hk
  | cons bn rest ih =>
    intro beans h k hk
    unfold instantiateAll
    by_cases hbni : bn.inst ≠ none
    · rw [if_pos hbni]
      exact ih beans h k hk
    · rw [if_neg hbni]
      cases hbt : bn.beanType with
      | ptrT e =>
        cases e with
        | structT n =>
          simp only []
          exact ih _ _ k (lookupA_insertA_isSome bn.id k _ beans hk)
        | stringT => exact ih beans h k hk
        | intT => exact ih beans h k hk
        | ptrT e2 => exact ih beans h k hk
        | ifaceT i => exact ih beans h k hk
      | stringT => exact ih beans h k hk
      | intT => exact ih beans h k hk
      | structT n => exact ih beans h k hk
      | ifaceT i => exact ih beans h k hk

/-- Every literal-provider query issued by `build` concerns an identifier
with no registered bean at the start of the injection phase. -/
theorem buildCalls (env : TypeEnv) (lp : Option Provider) (c : Container)
    (hb : c.built = false) :
    ∀ q ∈ (c.build env lp).calls,
      lookupA q.1
        (instantiateAll (c.registeredBeans.map Prod.snd) c.registeredBeans c.heap).1 = none := by
  have hbb : c.build env lp = c.buildCore env lp := by
    simp [Container.build, hb]
  rw [hbb]
  unfold Container.buildCore
  cases hpre : precheck env lp c.registeredBeans c.requiredDependency with
  | some e =>
    intro q hq
    simp at hq
  | none =>
    simp only []
    have hg := growth_injectAll env lp c.requiredDependency
      ((instantiateAll (c.registeredBeans.map Prod.snd) c.registeredBeans c.heap).1.length +
        c.requiredDependency.length + 1)
      ((instantiateAll (c.registeredBeans.map Prod.snd) c.registeredBeans c.heap).1.map Prod.fst)
      ⟨(instantiateAll (c.registeredBeans.map Prod.snd) c.registeredBeans c.heap).1,
        (instantiateAll (c.registeredBeans.map Prod.snd) c.registeredBeans c.heap).2,
        [], [], [], []⟩
    generalize hinj : injectAll env lp c.requiredDependency
        ((instantiateAll (c.registeredBeans.map Prod.snd) c.registeredBeans c.heap).1.length +
          c.requiredDependency.length + 1)
        ((instantiateAll (c.registeredBeans.map Prod.snd) c.registeredBeans c.heap).1.map
          Prod.fst)
        ⟨(instantiateAll (c.registeredBeans.map Prod.snd) c.registeredBeans c.heap).1,
          (instantiateAll (c.registeredBeans.map Prod.snd) c.registeredBeans c.heap).2,
          [], [], [], []⟩ = ip at hg ⊢
    obtain ⟨st, ie⟩ := ip
    obtain ⟨nc, hnc, hprops⟩ := hg.2.2
    simp only [] at hnc
    have hcalls : ∀ q ∈ st.calls,
        lookupA q.1
          (instantiateAll (c.registeredBeans.map Prod.snd) c.registeredBeans c.heap).1 = none := by
      intro q hq
      rw [hnc] at hq
      rw [List.nil_append] at hq
      exact hprops q hq
    cases ie with
    | some e => exact hcalls
    | none =>
      simp only []
      generalize hord : orderAll st.beans (st.beans.length + 1) (st.beans.map Prod.fst)
          ⟨[], [], []⟩ = op
      obtain ⟨ost, oe⟩ := op
      cases oe with
      | some e => exact hcalls
      | none =>
        simp only []
        generalize hri : runInits env st.beans ost.order [] = rp
        obtain ⟨log, re⟩ := rp
        cases re with
        | some e => exact hcalls
        | none => exact hcalls

/-- Reflection environment for the C4 scenarios: `Config` has a string
field tagged `WorkingDir`. -/
def envC4 : TypeEnv :=
  { fieldsOf := fun n =>
      if n = "Config" then [⟨"WorkingDir", true, some "WorkingDir", .stringT⟩] else []
    impl := fun _ _ => false, initHook := fun _ => none }

/-- Only the receiver is registered; `workingdir` must come from the
provider. -/
def contC4 : Container :=
  match newContainer.register envC4 "ServiceBeanConfig" (some (.ptrT (.structT "Config"))) with
  | .ok c => c
  | .error _ => newContainer

/-- Receiver plus a registered `workingdir` string instance. -/
def contC4reg : Container :=
  match contC4.registerInstance envC4 "workingdir" (some (.strV "/var")) with
  | .ok c => c
  | .error _ => newContainer

def provGood : Provider := fun i _ =>
  if i = "workingdir" then ⟨some (.strV "/ws"), true, none⟩ else ⟨none, false, none⟩

def provFalse : Provider := fun _ _ => ⟨none, false, none⟩

def provErr : Provider := fun _ _ => ⟨none, false, some "boom"⟩

/-- A provider that reports found with a nil value. -/
def provNil : Provider := fun i _ =>
  if i = "workingdir" then ⟨none, true, none⟩ else ⟨none, false, none⟩

/-- C4 counterexample: a provider returning `(nil, true, nil)` for the
missing string dependency does have an ephemeral descriptor synthesized and
registered, but injection does not succeed with that value: `build()` fails
with the not-instantiated error.  So "(3) found=true ... injection succeeds
using that value" is false as stated for a nil value. -/
theorem c4_counterexample :
    (contC4.build envC4 (some provNil)).err =
      some (.msg ("injectDependencies: dependency bean \x27workingdir\x27 for " ++
        "\x27servicebeanconfig\x27 receiver bean not instantiated")) ∧
    (contC4.build envC4 (some provNil)).calls = [("workingdir", .stringT)] ∧
    lookupA "workingdir" (contC4.build envC4 (some provNil)).c.registeredBeans = some
      { id := "workingdir", beanType := .stringT, inst := none, singleton := false,
        hasDependencies := false, dependencies := [] } :=
  ⟨by decide, by decide, by decide⟩

/-- C4 (amended): during `build()`, (1) the literal provider is never
queried for an identifier that has a registered bean (and the registered
value wins); (2) for a missing dependency whose expected type is string,
with a provider installed, `resolveDep` queries the provider with
`(identifier, expected type)` and then: a provider error aborts with the
wrapping error, found=false aborts with the missing-dependency error, and
found=true synthesizes an ephemeral descriptor holding the returned value
and registers it into the graph; (3) when the returned value is an actual
string, injection succeeds using it (concrete run), while a nil value fails
the build (see the counterexample). -/
theorem c4_amended :
    (∀ (env : TypeEnv) (lp : Option Provider) (c : Container) (id : String),
      c.built = false → (lookupA id c.registeredBeans).isSome →
      ∀ t, (id, t) ∉ (c.build env lp).calls) ∧
    (∀ (p : Provider) (rd : List (String × GoType)) (rid did : String) (st : InjSt),
      lookupA did st.beans = none → lookupA did rd = some GoType.stringT →
      ((resolveDep (some p) rd rid did st).1.calls = st.calls ++ [(did, GoType.stringT)] ∧
       (∀ e, (p did GoType.stringT).err = some e →
         (resolveDep (some p) rd rid did st).2 = .error (.msg
           ("injectDependencies: literal provider error for \x27" ++ did ++ "\x27: " ++ e))) ∧
       ((p did GoType.stringT).err = none → (p did GoType.stringT).found = false →
         (resolveDep (some p) rd rid did st).2 = .error (.msg
           ("injectDependencies: dependency bean \x27" ++ did ++ "\x27 for \x27" ++ rid ++
             "\x27 receiver bean not found"))) ∧
       ((p did GoType.stringT).err = none → (p did GoType.stringT).found = true →
         (resolveDep (some p) rd rid did st).2 = .ok
           { id := did, beanType := .stringT, inst := (p did GoType.stringT).value,
             singleton := false, hasDependencies := false, dependencies := [] } ∧
         (resolveDep (some p) rd rid did st).1.beans = insertA did
           { id := did, beanType := .stringT, inst := (p did GoType.stringT).value,
             singleton := false, hasDependencies := false, dependencies := [] } st.beans))) ∧
    ((contC4reg.build envC4 (some provGood)).err = none ∧
     (contC4reg.build envC4 (some provGood)).calls = [] ∧
     (contC4reg.build envC4 (some provGood)).c.heap.get? 0 =
       some (Obj.mk "Config" [("WorkingDir", .strV "/var")])) ∧
    ((contC4.build envC4 (some provGood)).err = none ∧
     (contC4.build envC4 (some provGood)).calls = [("workingdir", .stringT)] ∧
     (contC4.build envC4 (some provGood)).c.heap.get? 0 =
       some (Obj.mk "Config" [("WorkingDir", .strV "/ws")]) ∧
     lookupA "workingdir" (contC4.build envC4 (some provGood)).c.registeredBeans = some
       { id := "workingdir", beanType := .stringT, inst := some (.strV "/ws"),
         singleton := false, hasDependencies := false, dependencies := [] }) ∧
    ((contC4.build envC4 (some provFalse)).err = some (.msg
       ("injectDependencies: dependency bean \x27workingdir\x27 for " ++
        "\x27servicebeanconfig\x27 receiver bean not found"))) ∧
    ((contC4.build envC4 (some provErr)).err = some (.msg
       ("injectDependencies: literal provider error for \x27workingdir\x27: boom"))) := by
  refine ⟨?_, ?_, ⟨by decide, by decide, by decide⟩,
    ⟨by decide, by decide, by decide, by decide⟩, by decide, by decide⟩
  · intro env lp c id hb hsome t hmem
    have h2 := buildCalls env lp c hb (id, t) hmem
    have h1 := instantiateAll_presence (c.registeredBeans.map Prod.snd) c.registeredBeans
      c.heap id hsome
    rw [h2] at h1
    exact Bool.noConfusion h1
  · intro p rd rid did st hdb hrd
    unfold resolveDep
    rw [hdb, hrd]
    simp only [if_true]
    cases herr : (p did GoType.stringT).err with
    | some e =>
      exact ⟨rfl, fun e' he' => by cases he'; rfl,
        fun hno _ => Option.noConfusion hno, fun hno _ => Option.noConfusion hno⟩
    | none =>
      cases hf : (p did GoType.stringT).found with
      | true =>
        exact ⟨rfl, fun e' he' => Option.noConfusion he',
          fun _ hfo => Bool.noConfusion hfo, fun _ _ => ⟨rfl, rfl⟩⟩
      | false =>
        exact ⟨rfl, fun e' he' => Option.noConfusion he',
          fun _ _ => rfl, fun _ hfo => Bool.noConfusion hfo⟩

/-- C4 witness: the general parts applied concretely — the registered id
`workingdir` never reaches the provider on the registered-wins build, and
the `resolveDep` characterization on a concrete state. -/
theorem c4_witness :
    (("workingdir", GoType.stringT) ∉ (contC4reg.build envC4 (some provGood)).calls) ∧
    (resolveDep (some provGood) [("workingdir", .stringT)] "servicebeanconfig" "workingdir"
        ⟨[], [], [], [], [], []⟩).1.calls = [("workingdir", GoType.stringT)] := by
  constructor
  · exact c4_amended.1 envC4 (some provGood) contC4reg "workingdir" (by decide)
      (by decide) GoType.stringT
  · have h := c4_amended.2.1 provGood [("workingdir", .stringT)] "servicebeanconfig"
      "workingdir" ⟨[], [], [], [], [], []⟩ (by decide) (by decide)
    simpa using h.1

/-! ### C6: heap helper lemmas -/

theorem get?_some_lt {α : Type} {l : List α} {n : Nat} {x : α} (h : l.get? n = some x) :
    n < l.length := by
  by_contra hge
  rw [List.get?_eq_none.mpr (Nat.le_of_not_lt hge)] at h
  cases h

theorem setObjField_length (h : Heap) (a : Nat) (f : String) (v : GoVal) :
    (setObjField h a f v).length = h.length := by
  unfold setObjField
  cases hg : h.get? a with
  | none => rfl
  | some o => exact List.length_set ..

theorem setObjField_get_ne (h : Heap) (a : Nat) (f : String) (v : GoVal) (b : Nat)
    (hne : b ≠ a) : (setObjField h a f v).get? b = h.get? b := by
  unfold setObjField
  cases hg : h.get? a with
  | none => rfl
  | some o => exact List.get?_set_ne _ _ (fun he => hne he.symm)

theorem setObjField_get_eq (h : Heap) (a : Nat) (f : String) (v : GoVal) (o : Obj)
    (hg : h.get? a = some o) :
    (setObjField h a f v).get? a = some (Obj.mk o.tyName (insertA f v o.flds)) := by
  unfold setObjField
  rw [hg]
  rw [List.get?_set_eq_of_lt _ (get?_some_lt hg)]

/-- A field annotation selects a field for the dependency `dep`: the tag is
present and non-empty, lowercases to the dependency's id, and the field is
exported (settable). -/
def matchedField (dep : Bean) (sf : FieldDecl) : Prop :=
  sf.tag.getD emptyString ≠ emptyString ∧
  goLower (sf.tag.getD emptyString) = dep.id ∧ sf.exported = true

instance (dep : Bean) (sf : FieldDecl) : Decidable (matchedField dep sf) := by
  unfold matchedField
  infer_instance

/-- The observable outcome of the injection cascade on one matched field:
`res` is the field's value after injection, `old` before; a fresh
allocation is visible as a pointer (or struct value) at an address at or
beyond the pre-call heap length `startLen`.  The cases are, in the source's
priority order: exact type equality (with the fresh-allocation special case
for pointers to field-less structs), interface satisfaction, pointer from
value, value from pointer, pointer from pointer, and no match. -/
def RuleValueAt (env : TypeEnv) (dep : Bean) (dv : GoVal) (a : Nat) (sf : FieldDecl)
    (res old : Option GoVal) : Prop :=
  if sf.ftype = dep.beanType then
    match dep.beanType with
    | .ptrT (.structT m) =>
      if (env.fieldsOf m).length = 0 then res = some (.ptrV (.structT m) a)
      else res = some dv
    | _ => res = some dv
  else
    match sf.ftype, dep.beanType with
    | .ifaceT i, _ => if env.impl dv.typeOf i then res = some dv else res = old
    | .ptrT fe, .structT m =>
      if fe = GoType.structT m then res = some (.ptrV (.structT m) a) else res = old
    | .structT m, .ptrT de =>
      if de = GoType.structT m then res = some (.structV m a) else res = old
    | .ptrT fe, .ptrT de => if fe = de then res = some dv else res = old
    | _, _ => res = old

/-- The cascade outcome with the fresh address abstracted: it lies at or
beyond the pre-call heap length `startLen` (it is irrelevant in the
branches that share or skip). -/
def RuleValue (env : TypeEnv) (dep : Bean) (dv : GoVal) (startLen : Nat) (sf : FieldDecl)
    (res old : Option GoVal) : Prop :=
  ∃ a, startLen ≤ a ∧ RuleValueAt env dep dv a sf res old

/-- `RuleValue` only weakens when the baseline length shrinks. -/
theorem ruleValueMono (env : TypeEnv) (dep : Bean) (dv : GoVal) {L L' : Nat}
    (sf : FieldDecl) (res old : Option GoVal) (hL : L' ≤ L)
    (h : RuleValue env dep dv L sf res old) : RuleValue env dep dv L' sf res old := by
  obtain ⟨a, ha, hv⟩ := h
  exact ⟨a, Nat.le_trans hL ha, hv⟩

/-- What one field-loop iteration guarantees, as a predicate on its result:
no error, the heap only grows, other objects are untouched, the receiver
keeps its type name, a matched field follows the cascade, an unmatched
field leaves the whole heap alone, and no other field of the receiver
changes. -/
def FieldConcl (env : TypeEnv) (dep : Bean) (sf : FieldDecl) (dv : GoVal)
    (h : Heap) (ra : Nat) (o : Obj) (r : Except GoError Heap) : Prop :=
  ∃ h₁ o₁, r = .ok h₁ ∧ h.length ≤ h₁.length ∧
    (∀ b, b ≠ ra → b < h.length → h₁.get? b = h.get? b) ∧
    h₁.get? ra = some o₁ ∧ o₁.tyName = o.tyName ∧
    (matchedField dep sf →
      RuleValue env dep dv h.length sf (lookupA sf.fname o₁.flds) (lookupA sf.fname o.flds)) ∧
    (¬ matchedField dep sf → h₁ = h) ∧
    (∀ g, g ≠ sf.fname → lookupA g o₁.flds = lookupA g o.flds)

theorem fieldConcl_old (env : TypeEnv) (dep : Bean) (sf : FieldDecl) (dv : GoVal)
    (h : Heap) (ra : Nat) (o : Obj) (hra : h.get? ra = some o)
    (hrv : matchedField dep sf →
      RuleValueAt env dep dv h.length sf (lookupA sf.fname o.flds) (lookupA sf.fname o.flds)) :
    FieldConcl env dep sf dv h ra o (.ok h) :=
  ⟨h, o, rfl, Nat.le_refl _, fun _ _ _ => rfl, hra, rfl,
   fun hm => ⟨h.length, Nat.le_refl _, hrv hm⟩, fun _ => rfl, fun _ _ => rfl⟩

theorem fieldConcl_shared (env : TypeEnv) (dep : Bean) (sf : FieldDecl) (dv : GoVal)
    (h : Heap) (ra : Nat) (o : Obj) (hra : h.get? ra = some o)
    (hmt : matchedField dep sf)
    (hrv : RuleValueAt env dep dv h.length sf (some dv) (lookupA sf.fname o.flds)) :
    FieldConcl env dep sf dv h ra o (.ok (setObjField h ra sf.fname dv)) := by
  refine ⟨setObjField h ra sf.fname dv, Obj.mk o.tyName (insertA sf.fname dv o.flds),
    rfl, ?_, ?_, setObjField_get_eq h ra sf.fname dv o hra, rfl, ?_, ?_, ?_⟩
  · rw [setObjField_length]
  · exact fun b hb _ => setObjField_get_ne h ra sf.fname dv b hb
  · intro hm
    refine ⟨h.length, Nat.le_refl _, ?_⟩
    simp only []
    rw [lookupA_insertA_self]
    exact hrv
  · exact fun hnm => absurd hmt hnm
  · intro g hg
    simp only []
    exact lookupA_insertA_ne (Ne.symm hg) dv o.flds

theorem fieldConcl_fresh (env : TypeEnv) (dep : Bean) (sf : FieldDecl) (dv : GoVal)
    (h : Heap) (ra : Nat) (o nu : Obj) (v : GoVal) (hra : h.get? ra = some o)
    (hmt : matchedField dep sf)
    (hrv : RuleValueAt env dep dv h.length sf (some v) (lookupA sf.fname o.flds)) :
    FieldConcl env dep sf dv h ra o (.ok (setObjField (h ++ [nu]) ra sf.fname v)) := by
  have hra2 : (h ++ [nu]).get? ra = some o := by
    rw [List.get?_append (get?_some_lt hra)]
    exact hra
  refine ⟨setObjField (h ++ [nu]) ra sf.fname v,
    Obj.mk o.tyName (insertA sf.fname v o.flds),
    rfl, ?_, ?_, setObjField_get_eq _ ra sf.fname v o hra2, rfl, ?_, ?_, ?_⟩
  · rw [setObjField_length, List.length_append]
    exact Nat.le_add_right _ _
  · intro b hb hlt
    rw [setObjField_get_ne _ ra sf.fname v b hb, List.get?_append hlt]
  · intro hm
    refine ⟨h.length, Nat.le_refl _, ?_⟩
    simp only []
    rw [lookupA_insertA_self]
    exact hrv
  · exact fun hnm => absurd hmt hnm
  · intro g hg
    simp only []
    exact lookupA_insertA_ne (Ne.symm hg) v o.flds

/-- The `fv.Set(depVal)` path: with an assignable typed value in hand,
`setShared` succeeds and stores the shared value. -/
theorem injectField_setShared (env : TypeEnv) (dep : Bean) (ra : Nat) (sf : FieldDecl)
    (h : Heap) (dv : GoVal) (o : Obj) (hra : h.get? ra = some o)
    (hdv : dep.inst = some dv) (hass : assignable env dv sf.ftype = true)
    (hmt : matchedField dep sf)
    (hrv : RuleValueAt env dep dv h.length sf (some dv) (lookupA sf.fname o.flds)) :
    FieldConcl env dep sf dv h ra o (setShared env h ra sf.fname sf.ftype dep.inst) := by
  unfold setShared
  rw [hdv]
  simp only []
  rw [if_pos hass]
  exact fieldConcl_shared env dep sf dv h ra o hra hmt hrv

/-- One field-loop iteration satisfies `FieldConcl` whenever the dependency
carries a typed non-nil instance and the receiver address is live — the
invariants `injectDependencies` maintains. -/
theorem injectField_spec (env : TypeEnv) (dep : Bean) (ra : Nat) (sf : FieldDecl)
    (h : Heap) (dv : GoVal) (o : Obj)
    (hdv : dep.inst = some dv) (hty : dv.typeOf = dep.beanType)
    (hnn : ∀ e, dv ≠ .nilPtrV e) (hra : h.get? ra = some o) :
    FieldConcl env dep sf dv h ra o (injectField env dep ra sf h) := by
  unfold injectField
  simp only []
  by_cases h1 : sf.tag.getD emptyString = emptyString
  · rw [if_pos h1]
    exact fieldConcl_old env dep sf dv h ra o hra (fun hm => absurd h1 hm.1)
  · rw [if_neg h1]
    by_cases h2 : goLower (sf.tag.getD emptyString) = dep.id
    · rw [if_neg (not_not_intro h2)]
      by_cases h3 : sf.exported = true
      · rw [if_neg (not_not_intro h3)]
        have hmt : matchedField dep sf := ⟨h1, h2, h3⟩
        by_cases h4 : sf.ftype = dep.beanType
        · rw [if_pos h4]
          have hvt : dv.typeOf = sf.ftype := hty.trans h4.symm
          have hass : assignable env dv sf.ftype = true := by
            unfold assignable
            rw [hvt]
            simp
          rcases hbt : dep.beanType with _ | _ | e | n | i
          · exact injectField_setShared env dep ra sf h dv o hra hdv hass hmt
              (by unfold RuleValueAt; rw [if_pos h4, hbt])
          · exact injectField_setShared env dep ra sf h dv o hra hdv hass hmt
              (by unfold RuleValueAt; rw [if_pos h4, hbt])
          · rcases e with _ | _ | e2 | m | i2
            · exact injectField_setShared env dep ra sf h dv o hra hdv hass hmt
                (by unfold RuleValueAt; rw [if_pos h4, hbt])
            · exact injectField_setShared env dep ra sf h dv o hra hdv hass hmt
                (by unfold RuleValueAt; rw [if_pos h4, hbt])
            · exact injectField_setShared env dep ra sf h dv o hra hdv hass hmt
                (by unfold RuleValueAt; rw [if_pos h4, hbt])
            · simp only []
              by_cases h5 : (env.fieldsOf m).length = 0
              · rw [if_pos h5]
                exact fieldConcl_fresh env dep sf dv h ra o (Obj.mk m [])
                  (.ptrV (.structT m) h.length) hra hmt
                  (by unfold RuleValueAt; rw [if_pos h4, hbt]; simp only []; simp only [if_pos h5])
              · rw [if_neg h5]
                exact injectField_setShared env dep ra sf h dv o hra hdv hass hmt
                  (by unfold RuleValueAt; rw [if_pos h4, hbt]; simp only []; simp only [if_neg h5])
            · exact injectField_setShared env dep ra sf h dv o hra hdv hass hmt
                (by unfold RuleValueAt; rw [if_pos h4, hbt])
          · exact injectField_setShared env dep ra sf h dv o hra hdv hass hmt
              (by unfold RuleValueAt; rw [if_pos h4, hbt])
          · exact injectField_setShared env dep ra sf h dv o hra hdv hass hmt
              (by unfold RuleValueAt; rw [if_pos h4, hbt])
        · rw [if_neg h4]
          rcases hft : sf.ftype with _ | _ | fe | fn | fi
          · -- string field, non-string dependency: no rule applies
            rcases hbt : dep.beanType with _ | _ | e | n | i <;>
              exact fieldConcl_old env dep sf dv h ra o hra
                (fun _ => by unfold RuleValueAt; rw [if_neg h4, hft, hbt])
          · rcases hbt : dep.beanType with _ | _ | e | n | i <;>
              exact fieldConcl_old env dep sf dv h ra o hra
                (fun _ => by unfold RuleValueAt; rw [if_neg h4, hft, hbt])
          · -- pointer field
            rcases hbt : dep.beanType with _ | _ | de | m | i
            · exact fieldConcl_old env dep sf dv h ra o hra
                (fun _ => by unfold RuleValueAt; rw [if_neg h4, hft, hbt])
            · exact fieldConcl_old env dep sf dv h ra o hra
                (fun _ => by unfold RuleValueAt; rw [if_neg h4, hft, hbt])
            · -- *fe field, *de dependency
              simp only []
              by_cases h6 : fe = de
              · rw [if_pos h6]
                have hass : assignable env dv (GoType.ptrT fe) = true := by
                  unfold assignable
                  rw [hty, hbt, h6]
                  simp
                have := injectField_setShared env dep ra sf h dv o hra hdv
                  (by rw [hft]; exact hass) hmt
                  (by unfold RuleValueAt; rw [if_neg h4, hft, hbt]; simp only []; simp only [if_pos h6])
                rw [hft] at this
                exact this
              · rw [if_neg h6]
                exact fieldConcl_old env dep sf dv h ra o hra
                  (fun _ => by
                    unfold RuleValueAt
                    rw [if_neg h4, hft, hbt]
                    simp only []
                    simp only [if_neg h6])
            · -- *fe field, struct-value dependency
              simp only []
              by_cases h6 : fe = GoType.structT m
              · rw [if_pos h6]
                rw [hbt] at hty
                rcases dv with s | n' | ⟨e', a'⟩ | e' | ⟨n', a'⟩
                · exact absurd hty (by simp [GoVal.typeOf])
                · exact absurd hty (by simp [GoVal.typeOf])
                · exact absurd hty (by simp [GoVal.typeOf])
                · exact absurd hty (by simp [GoVal.typeOf])
                · have hn : n' = m := by
                    simpa [GoVal.typeOf] using hty
                  rw [hdv]
                  simp only []
                  rw [if_pos hn]
                  exact fieldConcl_fresh env dep sf (GoVal.structV n' a') h ra o
                    (Obj.mk m ((h.get? a').getD (Obj.mk m [])).flds)
                    (.ptrV (.structT m) h.length) hra hmt
                    (by
                      unfold RuleValueAt
                      rw [if_neg h4, hft, hbt]
                      simp only []
                      simp only [if_pos h6])
              · rw [if_neg h6]
                exact fieldConcl_old env dep sf dv h ra o hra
                  (fun _ => by
                    unfold RuleValueAt
                    rw [if_neg h4, hft, hbt]
                    simp only []
                    simp only [if_neg h6])
            · exact fieldConcl_old env dep sf dv h ra o hra
                (fun _ => by unfold RuleValueAt; rw [if_neg h4, hft, hbt])
          · -- struct-value field
            rcases hbt : dep.beanType with _ | _ | de | m | i
            · exact fieldConcl_old env dep sf dv h ra o hra
                (fun _ => by unfold RuleValueAt; rw [if_neg h4, hft, hbt])
            · exact fieldConcl_old env dep sf dv h ra o hra
                (fun _ => by unfold RuleValueAt; rw [if_neg h4, hft, hbt])
            · -- fn field, *de dependency
              simp only []
              by_cases h6 : de = GoType.structT fn
              · rw [if_pos h6]
                rw [hbt] at hty
                rcases dv with s | n' | ⟨e', a'⟩ | e' | ⟨n', a'⟩
                · exact absurd hty (by simp [GoVal.typeOf])
                · exact absurd hty (by simp [GoVal.typeOf])
                · have he : e' = de := by
                    simpa [GoVal.typeOf] using hty
                  rw [hdv]
                  simp only []
                  rw [if_pos (he.trans h6)]
                  exact fieldConcl_fresh env dep sf (GoVal.ptrV e' a') h ra o
                    (Obj.mk fn ((h.get? a').getD (Obj.mk fn [])).flds)
                    (.structV fn h.length) hra hmt
                    (by
                      unfold RuleValueAt
                      rw [if_neg h4, hft, hbt]
                      simp only []
                      simp only [if_pos h6])
                · exact absurd rfl (hnn e')
                · exact absurd hty (by simp [GoVal.typeOf])
              · rw [if_neg h6]
                exact fieldConcl_old env dep sf dv h ra o hra
                  (fun _ => by
                    unfold RuleValueAt
                    rw [if_neg h4, hft, hbt]
                    simp only []
                    simp only [if_neg h6])
            · exact fieldConcl_old env dep sf dv h ra o hra
                (fun _ => by unfold RuleValueAt; rw [if_neg h4, hft, hbt])
            · exact fieldConcl_old env dep sf dv h ra o hra
                (fun _ => by unfold RuleValueAt; rw [if_neg h4, hft, hbt])
          · -- interface field
            simp only []
            rw [hdv]
            simp only []
            by_cases h6 : env.impl dv.typeOf fi = true
            · rw [if_pos h6]
              exact fieldConcl_shared env dep sf dv h ra o hra hmt
                (by unfold RuleValueAt; rw [if_neg h4, hft]; simp only []; simp only [if_pos h6])
            · rw [if_neg h6]
              exact fieldConcl_old env dep sf dv h ra o hra
                (fun _ => by
                  unfold RuleValueAt
                  rw [if_neg h4, hft]
                  simp only []
                  simp only [if_neg h6])
      · rw [if_pos h3]
        exact fieldConcl_old env dep sf dv h ra o hra (fun hm => absurd hm.2.2 h3)
    · rw [if_pos h2]
      exact fieldConcl_old env dep sf dv h ra o hra (fun hm => absurd hm.2.1 h2)

/-- The guarantee of the whole field loop: no error, heap growth, other
objects untouched, every listed field either resolved per the cascade
(matched) or left alone (unmatched), and fields outside the list alone. -/
def FieldsConcl (env : TypeEnv) (dep : Bean) (fields : List FieldDecl) (dv : GoVal)
    (h : Heap) (ra : Nat) (o : Obj) (r : Except GoError Heap) : Prop :=
  ∃ h₂ o₂, r = .ok h₂ ∧ h.length ≤ h₂.length ∧
    (∀ b, b ≠ ra → b < h.length → h₂.get? b = h.get? b) ∧
    h₂.get? ra = some o₂ ∧ o₂.tyName = o.tyName ∧
    (∀ sf ∈ fields,
      (matchedField dep sf →
        RuleValue env dep dv h.length sf (lookupA sf.fname o₂.flds) (lookupA sf.fname o.flds)) ∧
      (¬ matchedField dep sf →
        lookupA sf.fname o₂.flds = lookupA sf.fname o.flds)) ∧
    (∀ g, (∀ sf ∈ fields, g ≠ sf.fname) → lookupA g o₂.flds = lookupA g o.flds)

/-- The field loop satisfies `FieldsConcl` when the struct type's field
names are distinct (reflection guarantees this: Go struct fields have
unique names). -/
theorem injectFields_spec (env : TypeEnv) (dep : Bean) (ra : Nat)
    (fields : List FieldDecl) (h : Heap) (dv : GoVal) (o : Obj)
    (hdv : dep.inst = some dv) (hty : dv.typeOf = dep.beanType)
    (hnn : ∀ e, dv ≠ .nilPtrV e) (hra : h.get? ra = some o)
    (hnd : (fields.map FieldDecl.fname).Nodup) :
    FieldsConcl env dep fields dv h ra o (injectFields env dep ra fields h) := by
  induction fields generalizing h o with
  | nil =>
    exact ⟨h, o, rfl, Nat.le_refl _, fun _ _ _ => rfl, hra, rfl,
      fun sf hsf => absurd hsf (List.not_mem_nil sf), fun _ _ => rfl⟩
  | cons sf rest ih =>
    obtain ⟨hhd, htl⟩ := List.nodup_cons.mp hnd
    obtain ⟨h₁, o₁, he1, hlen1, hne1, hget1, htn1, hmv1, hum1, hoth1⟩ :=
      injectField_spec env dep ra sf h dv o hdv hty hnn hra
    have step : injectFields env dep ra (sf :: rest) h = injectFields env dep ra rest h₁ := by
      conv_lhs => unfold injectFields
      rw [he1]
    rw [step]
    obtain ⟨h₂, o₂, he2, hlen2, hne2, hget2, htn2, hmv2, hoth2⟩ := ih h₁ o₁ hget1 htl
    refine ⟨h₂, o₂, he2, Nat.le_trans hlen1 hlen2, ?_, hget2, htn2.trans htn1, ?_, ?_⟩
    · intro b hb hlt
      rw [hne2 b hb (Nat.lt_of_lt_of_le hlt hlen1), hne1 b hb hlt]
    · intro sf' hsf'
      rcases List.mem_cons.mp hsf' with heq | hmem
      · subst heq
        constructor
        · intro hm
          have hlk : lookupA sf'.fname o₂.flds = lookupA sf'.fname o₁.flds :=
            hoth2 _ (fun sf2 hsf2 hcon =>
              hhd (hcon ▸ List.mem_map_of_mem FieldDecl.fname hsf2))
          rw [hlk]
          exact hmv1 hm
        · intro hnm
          have h1h : h₁ = h := hum1 hnm
          rw [h1h] at hget1
          have ho1 : o₁ = o := Option.some.inj (hget1.symm.trans hra)
          have hlk : lookupA sf'.fname o₂.flds = lookupA sf'.fname o₁.flds :=
            hoth2 _ (fun sf2 hsf2 hcon =>
              hhd (hcon ▸ List.mem_map_of_mem FieldDecl.fname hsf2))
          rw [hlk, ho1]
      · have hfny : sf'.fname ≠ sf.fname := by
          intro hcon
          exact hhd (hcon ▸ List.mem_map_of_mem FieldDecl.fname hmem)
        have hold : lookupA sf'.fname o₁.flds = lookupA sf'.fname o.flds := hoth1 _ hfny
        constructor
        · intro hm
          have hr2 := (hmv2 sf' hmem).1 hm
          rw [hold] at hr2
          exact ruleValueMono env dep dv sf' _ _ hlen1 hr2
        · intro hnm
          rw [(hmv2 sf' hmem).2 hnm, hold]
    · intro g hg
      have hgr : ∀ sf2 ∈ rest, g ≠ sf2.fname := fun sf2 hs => hg sf2 (List.mem_cons_of_mem _ hs)
      rw [hoth2 g hgr, hoth1 g (hg sf (List.mem_cons_self _ _))]

/-- C6.  Field injection (`injectIntoStruct`, off the cycle guard) never
errs and assigns exactly the exported fields whose lowercased `di.inject`
annotation equals the dependency's identifier; each such field receives its
value by the first applicable rule of the cascade (`RuleValue`): exact type
equality (a fresh allocation instead of sharing when the dependency type is
a pointer to a field-less struct), interface satisfaction by the
dependency's concrete type, pointer field from value dependency via fresh
allocation and copy, value field from pointer dependency via dereference
and copy, pointer-to-pointer with equal element types, and otherwise the
field is untouched; unannotated and unmatched fields, all other fields and
all other heap objects are untouched, and no error arises. -/
theorem c6_injection_cascade (env : TypeEnv) (h : Heap) (receiver dep : Bean)
    (chain : List String) (rn : String) (ra : Nat) (dv : GoVal) (o : Obj)
    (hrec : receiver.inst = some (.ptrV (.structT rn) ra))
    (hra : h.get? ra = some o)
    (hdv : dep.inst = some dv) (hty : dv.typeOf = dep.beanType)
    (hnn : ∀ e, dv ≠ .nilPtrV e)
    (hch : dep.id ∉ chain)
    (hnd : ((env.fieldsOf rn).map FieldDecl.fname).Nodup) :
    ∃ h₂ o₂, injectIntoStruct env h receiver dep chain = .ok h₂ ∧
      h.length ≤ h₂.length ∧
      (∀ b, b ≠ ra → b < h.length → h₂.get? b = h.get? b) ∧
      h₂.get? ra = some o₂ ∧ o₂.tyName = o.tyName ∧
      (∀ sf ∈ env.fieldsOf rn,
        (matchedField dep sf →
          RuleValue env dep dv h.length sf (lookupA sf.fname o₂.flds)
            (lookupA sf.fname o.flds)) ∧
        (¬ matchedField dep sf →
          lookupA sf.fname o₂.flds = lookupA sf.fname o.flds)) ∧
      (∀ g, (∀ sf ∈ env.fieldsOf rn, g ≠ sf.fname) →
        lookupA g o₂.flds = lookupA g o.flds) := by
  have hred : injectIntoStruct env h receiver dep chain
      = injectFields env dep ra (env.fieldsOf rn) h := by
    unfold injectIntoStruct
    rw [if_neg hch, hrec]
  rw [hred]
  exact injectFields_spec env dep ra (env.fieldsOf rn) h dv o hdv hty hnn hra hnd

/-- A one-field scenario exercising the cascade: struct `R` has exported
field `F` of type `string` annotated `di.inject:"d"`, and the dependency
`d` is a registered string instance. -/
def envC6 : TypeEnv :=
  { fieldsOf := fun n => if n = "R" then [⟨"F", true, some "d", .stringT⟩] else []
    impl := fun _ _ => false
    initHook := fun _ => none }

def recC6 : Bean :=
  { id := "r", beanType := .ptrT (.structT "R"), inst := some (.ptrV (.structT "R") 0),
    singleton := true, hasDependencies := true, dependencies := ["d"] }

def depC6 : Bean :=
  { id := "d", beanType := .stringT, inst := some (.strV "v"),
    singleton := true, hasDependencies := false, dependencies := [] }

theorem c6_witness :
    ∃ h₂ o₂, injectIntoStruct envC6 [Obj.mk "R" []] recC6 depC6 [] = .ok h₂ ∧
      ([Obj.mk "R" []] : Heap).length ≤ h₂.length ∧
      (∀ b, b ≠ 0 → b < ([Obj.mk "R" []] : Heap).length →
        h₂.get? b = ([Obj.mk "R" []] : Heap).get? b) ∧
      h₂.get? 0 = some o₂ ∧ o₂.tyName = (Obj.mk "R" []).tyName ∧
      (∀ sf ∈ envC6.fieldsOf "R",
        (matchedField depC6 sf →
          RuleValue envC6 depC6 (.strV "v") ([Obj.mk "R" []] : Heap).length sf
            (lookupA sf.fname o₂.flds) (lookupA sf.fname (Obj.mk "R" []).flds)) ∧
        (¬ matchedField depC6 sf →
          lookupA sf.fname o₂.flds = lookupA sf.fname (Obj.mk "R" []).flds)) ∧
      (∀ g, (∀ sf ∈ envC6.fieldsOf "R", g ≠ sf.fname) →
        lookupA g o₂.flds = lookupA g (Obj.mk "R" []).flds) :=
  c6_injection_cascade envC6 [Obj.mk "R" []] recC6 depC6 [] "R" 0 (.strV "v") (Obj.mk "R" [])
    rfl rfl rfl rfl (fun _ hcon => GoVal.noConfusion hcon) (by simp) (by simp [envC6])

/-! ### C7: the initializer-ordering DFS -/

/-- The dependencies the ordering DFS follows from a node: the declared
list when the bean is registered with `hasDependencies`, nothing
otherwise. -/
def effDeps (beans : List (String × Bean)) (id : String) : List String :=
  let bn := (lookupA id beans).getD zeroBean
  if bn.hasDependencies then bn.dependencies else []

/-- `l` is a topological order: every element's dependencies occur
strictly before it. -/
def TopoSorted (beans : List (String × Bean)) (l : List String) : Prop :=
  ∀ pfx x rest, l = pfx ++ x :: rest → ∀ d ∈ effDeps beans x, d ∈ pfx

theorem topoSorted_nil (beans : List (String × Bean)) : TopoSorted beans [] := by
  intro pfx x rest heq d hd
  simp at heq

theorem topoSorted_append (beans : List (String × Bean)) (l : List String) (id : String)
    (h1 : TopoSorted beans l) (h2 : ∀ d ∈ effDeps beans id, d ∈ l) :
    TopoSorted beans (l ++ [id]) := by
  intro pfx x rest heq
  rcases rest.eq_nil_or_concat with rfl | ⟨rest', last, rfl⟩
  · obtain ⟨hl, hx⟩ := List.append_inj' heq rfl
    obtain rfl : id = x := by simpa using hx
    subst hl
    exact h2
  · have heq2 : l ++ [id] = (pfx ++ x :: rest') ++ [last] := by
      rw [heq]
      simp [List.concat_eq_append]
    obtain ⟨hl, -⟩ := List.append_inj' heq2 rfl
    exact h1 pfx x rest' hl

theorem nodup_snoc {α : Type} (l : List α) (a : α) (h1 : l.Nodup) (h2 : a ∉ l) :
    (l ++ [a]).Nodup := by
  rw [List.nodup_append]
  exact ⟨h1, List.nodup_singleton a,
    fun x hx hxa => h2 ((List.mem_singleton.mp hxa) ▸ hx)⟩

/-- The invariant the ordering DFS maintains on its state: the visited set
and the emitted order are literally the same list, that list has no
duplicates and is topologically sorted, and nothing on the current path has
been emitted yet. -/
def OrdInv (beans : List (String × Bean)) (st : OrdSt) : Prop :=
  st.visited = st.order ∧ st.order.Nodup ∧
  (∀ j ∈ st.onPath, j ∉ st.order) ∧ TopoSorted beans st.order

/-- What a successful `visit` guarantees: the path is restored, the
invariant is preserved, the order only grows, and the visited id was
emitted. -/
def OrdClaim (beans : List (String × Bean)) (st st' : OrdSt) (id : String) : Prop :=
  st'.onPath = st.onPath ∧ OrdInv beans st' ∧
  (∃ Δ, st'.order = st.order ++ Δ) ∧ id ∈ st'.order

theorem visit2Deps_ok (beans : List (String × Bean))
    (recur : String → OrdSt → OrdSt × Option GoError)
    (IH : ∀ i st st', recur i st = (st', none) → OrdInv beans st → OrdClaim beans st st' i) :
    ∀ (ds : List String) (id : String) (st st' : OrdSt),
      visit2Deps beans recur id ds st = (st', none) → OrdInv beans st →
      st'.onPath = st.onPath ∧ OrdInv beans st' ∧
      (∃ Δ, st'.order = st.order ++ Δ) ∧ (∀ d ∈ ds, d ∈ st'.order) := by
  intro ds
  induction ds with
  | nil =>
    intro id st st' hv hinv
    unfold visit2Deps at hv
    obtain rfl : st = st' := congrArg Prod.fst hv
    exact ⟨rfl, hinv, ⟨[], (List.append_nil _).symm⟩, fun d hd => absurd hd (List.not_mem_nil d)⟩
  | cons d rest ihds =>
    intro id st st' hv hinv
    unfold visit2Deps at hv
    cases hlk : lookupA d beans with
    | none =>
      rw [hlk] at hv
      simp at hv
    | some bn =>
      rw [hlk] at hv
      simp only [] at hv
      rcases hrc : recur d st with ⟨stm, e?⟩
      rw [hrc] at hv
      rcases e? with - | e
      · simp only [] at hv
        obtain ⟨hop, hinv2, ⟨d1, hd1⟩, hdin⟩ := IH d st stm hrc hinv
        obtain ⟨hop2, hinv3, ⟨d2, hd2⟩, hall⟩ := ihds id stm st' hv hinv2
        refine ⟨hop2.trans hop, hinv3,
          ⟨d1 ++ d2, by rw [hd2, hd1, List.append_assoc]⟩, ?_⟩
        intro d' hd'
        rcases List.mem_cons.mp hd' with rfl | hmem
        · rw [hd2]
          exact List.mem_append_left _ hdin
        · exact hall d' hmem
      · simp at hv

theorem visit2Step_ok (beans : List (String × Bean))
    (recur : String → OrdSt → OrdSt × Option GoError)
    (IH : ∀ i st st', recur i st = (st', none) → OrdInv beans st → OrdClaim beans st st' i) :
    ∀ (id : String) (st st' : OrdSt),
      visit2Step beans recur id st = (st', none) → OrdInv beans st →
      OrdClaim beans st st' id := by
  intro id st st' hv hinv
  obtain ⟨hvo, hnd, hdisj, htopo⟩ := hinv
  unfold visit2Step at hv
  by_cases h1 : id ∈ st.visited
  · rw [if_pos h1] at hv
    obtain rfl : st = st' := congrArg Prod.fst hv
    exact ⟨rfl, ⟨hvo, hnd, hdisj, htopo⟩, ⟨[], (List.append_nil _).symm⟩, hvo ▸ h1⟩
  · rw [if_neg h1] at hv
    by_cases h2 : id ∈ st.onPath
    · rw [if_pos h2] at hv
      simp at hv
    · rw [if_neg h2] at hv
      simp only [] at hv
      have hinv1 : OrdInv beans { st with onPath := st.onPath ++ [id] } := by
        refine ⟨hvo, hnd, ?_, htopo⟩
        intro j hj
        rcases List.mem_append.mp hj with hj' | hj'
        · exact hdisj j hj'
        · obtain rfl : j = id := List.mem_singleton.mp hj'
          exact hvo ▸ h1
      rcases hrc : (if ((lookupA id beans).getD zeroBean).hasDependencies = true then
          visit2Deps beans recur id ((lookupA id beans).getD zeroBean).dependencies
            { st with onPath := st.onPath ++ [id] }
        else ({ st with onPath := st.onPath ++ [id] }, none)) with ⟨st2, e?⟩
      rw [hrc] at hv
      rcases e? with - | e
      · simp only [] at hv
        obtain rfl := congrArg Prod.fst hv
        have hfacts : st2.onPath = st.onPath ++ [id] ∧ OrdInv beans st2 ∧
            (∃ d0, st2.order = st.order ++ d0) ∧
            (∀ d ∈ effDeps beans id, d ∈ st2.order) := by
          by_cases hdeps : ((lookupA id beans).getD zeroBean).hasDependencies = true
          · rw [if_pos hdeps] at hrc
            obtain ⟨hop, hinv2, hgrow, hall⟩ :=
              visit2Deps_ok beans recur IH _ id _ st2 hrc hinv1
            refine ⟨hop, hinv2, hgrow, ?_⟩
            intro d hd
            apply hall
            unfold effDeps at hd
            rw [if_pos hdeps] at hd
            exact hd
          · rw [if_neg hdeps] at hrc
            obtain rfl : ({ st with onPath := st.onPath ++ [id] } : OrdSt) = st2 :=
              congrArg Prod.fst hrc
            refine ⟨rfl, hinv1, ⟨[], (List.append_nil _).symm⟩, ?_⟩
            intro d hd
            unfold effDeps at hd
            rw [if_neg hdeps] at hd
            exact absurd hd (List.not_mem_nil d)
        obtain ⟨hop, ⟨hvo2, hnd2, hdisj2, htopo2⟩, ⟨d0, hd0⟩, hdeps2⟩ := hfacts
        have hidp : id ∈ st2.onPath := by
          rw [hop]
          exact List.mem_append_right _ (List.mem_singleton.mpr rfl)
        have hido : id ∉ st2.order := hdisj2 id hidp
        have herase : st2.onPath.erase id = st.onPath := by
          rw [hop, List.erase_append_right _ h2, List.erase_cons_head, List.append_nil]
        refine ⟨herase, ⟨?_, ?_, ?_, ?_⟩, ?_, ?_⟩
        · simp only []
          rw [hvo2]
        · exact nodup_snoc _ _ hnd2 hido
        · intro j hj
          simp only [] at hj
          rw [herase] at hj
          simp only []
          intro hcon
          rcases List.mem_append.mp hcon with hc | hc
          · exact hdisj2 j (hop ▸ List.mem_append_left _ hj) hc
          · obtain rfl : j = id := List.mem_singleton.mp hc
            exact h2 hj
        · exact topoSorted_append beans st2.order id htopo2 hdeps2
        · exact ⟨d0 ++ [id], by simp only []; rw [hd0, List.append_assoc]⟩
        · simp only []
          exact List.mem_append_right _ (List.mem_singleton.mpr rfl)
      · simp at hv

theorem visit2_ok (beans : List (String × Bean)) :
    ∀ (fuel : Nat) (id : String) (st st' : OrdSt),
      visit2 beans fuel id st = (st', none) → OrdInv beans st →
      OrdClaim beans st st' id := by
  intro fuel
  induction fuel with
  | zero =>
    intro id st st' hv
    unfold visit2 at hv
    simp at hv
  | succ n ihn =>
    intro id st st' hv hinv
    unfold visit2 at hv
    exact visit2Step_ok beans _ (fun i s s' h hi => ihn i s s' h hi) id st st' hv hinv

theorem orderAll_ok (beans : List (String × Bean)) (fuel : Nat) :
    ∀ (ids : List String) (st st' : OrdSt),
      orderAll beans fuel ids st = (st', none) → OrdInv beans st →
      st'.onPath = st.onPath ∧ OrdInv beans st' ∧
      (∃ Δ, st'.order = st.order ++ Δ) ∧ (∀ i ∈ ids, i ∈ st'.order) := by
  intro ids
  induction ids with
  | nil =>
    intro st st' hv hinv
    unfold orderAll at hv
    obtain rfl : st = st' := congrArg Prod.fst hv
    exact ⟨rfl, hinv, ⟨[], (List.append_nil _).symm⟩, fun i hi => absurd hi (List.not_mem_nil i)⟩
  | cons i ids ihl =>
    intro st st' hv hinv
    unfold orderAll at hv
    rcases hrc : visit2 beans fuel i st with ⟨stm, e?⟩
    rw [hrc] at hv
    rcases e? with - | e
    · simp only [] at hv
      obtain ⟨hop, hinv2, ⟨d1, hd1⟩, hiin⟩ := visit2_ok beans fuel i st stm hrc hinv
      obtain ⟨hop2, hinv3, ⟨d2, hd2⟩, hall⟩ := ihl stm st' hv hinv2
      refine ⟨hop2.trans hop, hinv3,
        ⟨d1 ++ d2, by rw [hd2, hd1, List.append_assoc]⟩, ?_⟩
      intro i' hi'
      rcases List.mem_cons.mp hi' with rfl | hmem
      · rw [hd2]
        exact List.mem_append_left _ hiin
      · exact hall i' hmem
    · simp at hv

/-- The ids whose hook an error-free pass of `runInits` invokes, in order:
those bound to a pointer-to-struct instance whose struct type implements
`Initializer` (and whose hook succeeds). -/
def initsOf (env : TypeEnv) (beans : List (String × Bean)) : List String → List String
  | [] => []
  | id :: rest =>
    match ((lookupA id beans).getD zeroBean).inst with
    | some (.ptrV (.structT n) _) =>
      match env.initHook n with
      | some none => id :: initsOf env beans rest
      | _ => initsOf env beans rest
    | _ => initsOf env beans rest

theorem runInits_ok (env : TypeEnv) (beans : List (String × Bean)) :
    ∀ (ids log log' : List String),
      runInits env beans ids log = (log', none) → log' = log ++ initsOf env beans ids := by
  intro ids
  induction ids with
  | nil =>
    intro log log' hv
    unfold runInits at hv
    obtain rfl : log = log' := congrArg Prod.fst hv
    simp [initsOf]
  | cons id rest ih =>
    intro log log' hv
    unfold runInits at hv
    simp only [] at hv
    simp only [initsOf]
    rcases hinst : ((lookupA id beans).getD zeroBean).inst with - | v
    · rw [hinst] at hv
      simp only [] at hv ⊢
      exact ih _ _ hv
    · rw [hinst] at hv
      rcases v with s | k | ⟨e, a⟩ | e | ⟨n, a⟩
      · simp only [] at hv ⊢
        exact ih _ _ hv
      · simp only [] at hv ⊢
        exact ih _ _ hv
      · rcases e with - | - | e2 | n | i
        · simp only [] at hv ⊢
          exact ih _ _ hv
        · simp only [] at hv ⊢
          exact ih _ _ hv
        · simp only [] at hv ⊢
          exact ih _ _ hv
        · simp only [] at hv ⊢
          rcases hh : env.initHook n with - | oe
          · rw [hh] at hv
            simp only [] at hv ⊢
            exact ih _ _ hv
          · rw [hh] at hv
            rcases oe with - | e2
            · simp only [] at hv ⊢
              rw [ih _ _ hv, List.append_assoc]
              rfl
            · simp at hv
        · simp only [] at hv ⊢
          exact ih _ _ hv
      · simp only [] at hv ⊢
        exact ih _ _ hv
      · simp only [] at hv ⊢
        exact ih _ _ hv

/-- A bean whose hook does not fail (no hook, no instance, or a succeeding
hook). -/
def initOK (env : TypeEnv) (beans : List (String × Bean)) (j : String) : Prop :=
  match ((lookupA j beans).getD zeroBean).inst with
  | some (.ptrV (.structT n) _) => ∀ e, env.initHook n ≠ some (some e)
  | _ => True

theorem runInits_abort (env : TypeEnv) (beans : List (String × Bean))
    (id : String) (bn : Bean) (n : String) (a : Nat) (e : String)
    (hlk : lookupA id beans = some bn)
    (hinst : bn.inst = some (.ptrV (.structT n) a))
    (hhook : env.initHook n = some (some e)) :
    ∀ (pre post log : List String), (∀ j ∈ pre, initOK env beans j) →
      runInits env beans (pre ++ id :: post) log =
        (log ++ initsOf env beans pre ++ [id],
         some (.msg ("initializer for bean \x27" ++ id ++ "\x27 failed: " ++ e))) := by
  intro pre
  induction pre with
  | nil =>
    intro post log _
    simp only [List.nil_append]
    unfold runInits
    simp only []
    rw [hlk]
    simp only [Option.getD]
    rw [hinst]
    simp only []
    rw [hhook]
    simp [initsOf]
  | cons j pre ihp =>
    intro post log hok
    have hj := hok j (List.mem_cons_self _ _)
    unfold initOK at hj
    have htl : ∀ q ∈ pre, initOK env beans q := fun q hq => hok q (List.mem_cons_of_mem _ hq)
    simp only [List.cons_append]
    unfold runInits
    simp only []
    simp only [initsOf]
    rcases hinst2 : ((lookupA j beans).getD zeroBean).inst with - | v
    · simp only []
      exact ihp post log htl
    · rcases v with s | k | ⟨e', a'⟩ | e' | ⟨n', a'⟩
      · simp only []
        exact ihp post log htl
      · simp only []
        exact ihp post log htl
      · rcases e' with - | - | e2 | n2 | i
        · simp only []
          exact ihp post log htl
        · simp only []
          exact ihp post log htl
        · simp only []
          exact ihp post log htl
        · simp only []
          rcases hh : env.initHook n2 with - | oe
          · simp only []
            exact ihp post log htl
          · rcases oe with - | e2
            · simp only []
              rw [ihp post (log ++ [j]) htl]
              simp
            · rw [hinst2] at hj
              exact absurd hh (hj e2)
        · simp only []
          exact ihp post log htl
      · simp only []
        exact ihp post log htl
      · simp only []
        exact ihp post log htl

/-- Three-level chain: `C` depends on `A` (field `FA`), `A` depends on `B`
(field `FB`), `B` has no dependencies; every struct implements a succeeding
`Initialize`. -/
def envC7 : TypeEnv :=
  { fieldsOf := fun n =>
      if n = "C" then [⟨"FA", true, some "a", .ptrT (.structT "A")⟩]
      else if n = "A" then [⟨"FB", true, some "b", .ptrT (.structT "B")⟩]
      else []
    impl := fun _ _ => false
    initHook := fun _ => some none }

/-- Same structure, but `B`'s hook fails with `boom`. -/
def envC7f : TypeEnv :=
  { fieldsOf := envC7.fieldsOf
    impl := fun _ _ => false
    initHook := fun n => if n = "B" then some (some "boom") else some none }

def contC7 : Container :=
  match newContainer.register envC7 "a" (some (.ptrT (.structT "A"))) with
  | .ok c1 =>
    match c1.register envC7 "b" (some (.ptrT (.structT "B"))) with
    | .ok c2 =>
      match c2.register envC7 "c" (some (.ptrT (.structT "C"))) with
      | .ok c3 => c3
      | .error _ => newContainer
    | .error _ => newContainer
  | .error _ => newContainer

/-- C7.  On a successful `build()`, the initializer pass walks a
topological order of the registry: the ordering DFS emits a
duplicate-free list containing every registered id in which every bean's
effective dependencies occur strictly earlier, and the invoked hooks are
exactly that list filtered to the beans whose pointer-to-struct instance
implements `Initializer` — so each hook runs exactly once, after all hooks
of its dependencies.  On the concrete chain where `c` depends on `a` and
`a` depends on `b`, the hooks run in the order `b`, `a`, `c`.  A failing
hook aborts the pass immediately: `runInits` returns the hook's error
wrapped with the offending bean's identifier, having invoked only the
hooks up to and including the offender (the suffix is never reached), and
on the concrete chain with a failing `B` hook, `build()` surfaces that
wrapped error with only `b` invoked. -/
theorem c7_initializer_order (env : TypeEnv) (lp : Option Provider) (c : Container)
    (hb : c.built = false) (hsucc : (c.build env lp).err = none) :
    (∃ st ost,
      injectAll env lp c.requiredDependency
          ((instantiateAll (c.registeredBeans.map Prod.snd) c.registeredBeans c.heap).1.length +
            c.requiredDependency.length + 1)
          ((instantiateAll (c.registeredBeans.map Prod.snd) c.registeredBeans c.heap).1.map
            Prod.fst)
          ⟨(instantiateAll (c.registeredBeans.map Prod.snd) c.registeredBeans c.heap).1,
            (instantiateAll (c.registeredBeans.map Prod.snd) c.registeredBeans c.heap).2,
            [], [], [], []⟩ = (st, none) ∧
      orderAll st.beans (st.beans.length + 1) (st.beans.map Prod.fst) ⟨[], [], []⟩
        = (ost, none) ∧
      ost.order.Nodup ∧
      TopoSorted st.beans ost.order ∧
      (∀ i ∈ st.beans.map Prod.fst, i ∈ ost.order) ∧
      runInits env st.beans ost.order [] = ((c.build env lp).inits, none) ∧
      (c.build env lp).inits = initsOf env st.beans ost.order) ∧
    (∀ (env2 : TypeEnv) (beans : List (String × Bean)) (id : String) (bn : Bean)
        (n : String) (a : Nat) (e : String) (pre post log : List String),
      lookupA id beans = some bn → bn.inst = some (.ptrV (.structT n) a) →
      env2.initHook n = some (some e) → (∀ j ∈ pre, initOK env2 beans j) →
      runInits env2 beans (pre ++ id :: post) log =
        (log ++ initsOf env2 beans pre ++ [id],
         some (.msg ("initializer for bean \x27" ++ id ++ "\x27 failed: " ++ e)))) ∧
    (contC7.build envC7 none).err = none ∧
    (contC7.build envC7 none).inits = ["b", "a", "c"] ∧
    (contC7.build envC7f none).err =
      some (.msg ("initializer for bean \x27b\x27 failed: boom")) ∧
    (contC7.build envC7f none).inits = ["b"] := by
  obtain ⟨hpre, st, ost, log, hinj, hord, hri, hc, hinits, hcalls⟩ :=
    buildSuccInv env lp c hb hsucc
  have hinv0 : OrdInv st.beans ⟨[], [], []⟩ :=
    ⟨rfl, List.nodup_nil, fun j hj => absurd hj (List.not_mem_nil j), topoSorted_nil _⟩
  obtain ⟨-, ⟨-, hnd, -, htopo⟩, -, hall⟩ :=
    orderAll_ok st.beans (st.beans.length + 1) (st.beans.map Prod.fst) _ ost hord hinv0
  refine ⟨⟨st, ost, hinj, hord, hnd, htopo, hall, ?_, ?_⟩, ?_, ?_, ?_, ?_, ?_⟩
  · rw [hinits]
    exact hri
  · rw [hinits]
    have := runInits_ok env st.beans ost.order [] log hri
    simpa using this
  · exact fun env2 beans id bn n a e pre post lg hlk hi hh hok =>
      runInits_abort env2 beans id bn n a e hlk hi hh pre post lg hok
  · decide
  · decide
  · decide
  · decide

theorem c7_witness :
    contC7.built = false ∧ (contC7.build envC7 none).err = none ∧
    (contC7.build envC7 none).inits = ["b", "a", "c"] :=
  ⟨by decide, by decide,
   (c7_initializer_order envC7 none contC7 (by decide) (by decide)).2.2.2.1⟩

/-! ### C1: cycle detection in the injection DFS -/

/-- `x` declares `y` as a dependency. -/
def hasEdge (beans : List (String × Bean)) (x y : String) : Prop :=
  y ∈ effDeps beans x

/-- A dependency cycle among the registered beans: a nonempty node list
whose consecutive elements are declared-dependency edges, wrapping
around. -/
def IsCycle (beans : List (String × Bean)) (cyc : List String) : Prop :=
  ∃ x rest, cyc = x :: rest ∧ List.Chain (hasEdge beans) x (rest ++ [x])

theorem indexOf_split {α : Type} [DecidableEq α] (s t : List α) (x : α) (hx : x ∉ s) :
    (s ++ x :: t).indexOf x = s.length := by
  induction s with
  | nil => simp
  | cons b s ih =>
    have hb : x ≠ b := fun hc => hx (hc ▸ List.mem_cons_self b s)
    simp only [List.cons_append, List.indexOf_cons_ne _ (Ne.symm hb), List.length_cons]
    rw [ih (fun hc => hx (List.mem_cons_of_mem _ hc))]

/-- In a duplicate-free topological order, a dependency sits strictly
earlier than its dependent. -/
theorem topo_edge_lt (beans : List (String × Bean)) (T : List String)
    (hnd : T.Nodup) (htopo : TopoSorted beans T) {x y : String}
    (hedge : hasEdge beans x y) (hx : x ∈ T) : T.indexOf y < T.indexOf x := by
  obtain ⟨s, t, rfl⟩ := List.append_of_mem hx
  have hy : y ∈ s := htopo s x t rfl y hedge
  have hxs : x ∉ s := by
    intro hc
    rw [List.nodup_append] at hnd
    exact hnd.2.2 hc (List.mem_cons_self _ _)
  rw [indexOf_split s t x hxs, List.indexOf_append_of_mem hy]
  exact Nat.lt_of_lt_of_le (List.indexOf_lt_length.mpr hy) (Nat.le_refl _)

/-- A node with an outgoing declared edge is registered. -/
theorem hasEdge_isSome {beans : List (String × Bean)} {x y : String}
    (h : hasEdge beans x y) : (lookupA x beans).isSome := by
  unfold hasEdge effDeps at h
  cases hl : lookupA x beans with
  | some b => rfl
  | none =>
    rw [hl] at h
    simp [zeroBean] at h

/-- Following a chain of dependency edges strictly decreases the position
in a topological order that contains every registered id. -/
theorem chain_indexOf_lt (beans : List (String × Bean)) (T : List String)
    (hnd : T.Nodup) (htopo : TopoSorted beans T)
    (hT : ∀ j, (lookupA j beans).isSome → j ∈ T) :
    ∀ (l : List String) (x : String), List.Chain (hasEdge beans) x l →
      ∀ (hne : l ≠ []), T.indexOf (l.getLast hne) < T.indexOf x := by
  intro l
  induction l with
  | nil =>
    intro x _ hne
    exact absurd rfl hne
  | cons b l' ihl =>
    intro x hch hne
    obtain ⟨hxb, hch'⟩ := List.chain_cons.mp hch
    have hx : x ∈ T := hT x (hasEdge_isSome hxb)
    have hlt1 : T.indexOf b < T.indexOf x := topo_edge_lt beans T hnd htopo hxb hx
    rcases l' with - | ⟨c, l''⟩
    · simpa using hlt1
    · have hlt2 := ihl b hch' (by simp)
      rw [List.getLast_cons (by simp : (c :: l'') ≠ [])]
      exact Nat.lt_trans hlt2 hlt1

/-- No topological order of all registered ids can exist alongside a
dependency cycle. -/
theorem topo_cycle_false (beans : List (String × Bean)) (T : List String)
    (hnd : T.Nodup) (htopo : TopoSorted beans T)
    (hT : ∀ j, (lookupA j beans).isSome → j ∈ T)
    (cyc : List String) (hcyc : IsCycle beans cyc) : False := by
  obtain ⟨x, rest, -, hch⟩ := hcyc
  have h := chain_indexOf_lt beans T hnd htopo hT (rest ++ [x]) x hch (by simp)
  rw [List.getLast_concat] at h
  exact absurd h (Nat.lt_irrefl _)

/-- All declared dependencies of registered beans are themselves
registered. -/
def DepsClosed (beans : List (String × Bean)) : Prop :=
  ∀ k b, lookupA k beans = some b → b.hasDependencies = true →
    ∀ d ∈ b.dependencies, (lookupA d beans).isSome

/-- A dependency found in the registry resolves to it, untouched. -/
theorem resolveDep_found (lp : Option Provider) (rd : List (String × GoType))
    (recvId depId : String) (st : InjSt) (b : Bean)
    (hl : lookupA depId st.beans = some b) :
    resolveDep lp rd recvId depId st = (st, .ok b) := by
  unfold resolveDep
  rw [hl]

/-- The success invariant of the injection DFS: path mirrors `onPath`, the
visited list is a duplicate-free topological order disjoint from the
path. -/
def InjInv (beans : List (String × Bean)) (st : InjSt) : Prop :=
  st.onPath = st.path ∧ st.visited.Nodup ∧
  (∀ j ∈ st.onPath, j ∉ st.visited) ∧ TopoSorted beans st.visited

def InjClaim (beans : List (String × Bean)) (st st' : InjSt) (id : String) : Prop :=
  st'.beans = st.beans ∧ st'.onPath = st.onPath ∧ st'.path = st.path ∧
  InjInv beans st' ∧ (∃ Δ, st'.visited = st.visited ++ Δ) ∧ id ∈ st'.visited

theorem visitDepsI_ok (env : TypeEnv) (lp : Option Provider) (rd : List (String × GoType))
    (beans : List (String × Bean))
    (recur : String → InjSt → InjSt × Option GoError)
    (IH : ∀ i st st', st.beans = beans → recur i st = (st', none) → InjInv beans st →
      InjClaim beans st st' i) :
    ∀ (ds : List String) (id : String) (st st' : InjSt),
      st.beans = beans → (∀ d ∈ ds, (lookupA d beans).isSome) →
      visitDeps env lp rd recur id ds st = (st', none) → InjInv beans st →
      st'.beans = beans ∧ st'.onPath = st.onPath ∧ st'.path = st.path ∧
      InjInv beans st' ∧ (∃ Δ, st'.visited = st.visited ++ Δ) ∧
      (∀ d ∈ ds, d ∈ st'.visited) := by
  intro ds
  induction ds with
  | nil =>
    intro id st st' hsb _ hv hinv
    unfold visitDeps at hv
    obtain rfl : st = st' := congrArg Prod.fst hv
    exact ⟨hsb, rfl, rfl, hinv, ⟨[], (List.append_nil _).symm⟩,
      fun d hd => absurd hd (List.not_mem_nil d)⟩
  | cons d rest ihds =>
    intro id st st' hsb hds hv hinv
    unfold visitDeps at hv
    simp only [] at hv
    obtain ⟨db, hdb⟩ := Option.isSome_iff_exists.mp (hds d (List.mem_cons_self _ _))
    rw [resolveDep_found lp rd ((lookupA id st.beans).getD zeroBean).id d st db
      (by rw [hsb]; exact hdb)] at hv
    simp only [] at hv
    rcases hrc : recur d st with ⟨stm, e?⟩
    rw [hrc] at hv
    rcases e? with - | e
    · simp only [] at hv
      obtain ⟨hsb1, hop1, hpa1, hinv1, ⟨d1, hd1⟩, hdin⟩ := IH d st stm hsb hrc hinv
      by_cases hni : db.inst = none
      · rw [if_pos hni] at hv
        simp at hv
      · rw [if_neg hni] at hv
        rcases hii : injectIntoStruct env stm.heap ((lookupA id st.beans).getD zeroBean) db
            stm.path with e2 | h2
        · rw [hii] at hv
          simp at hv
        · rw [hii] at hv
          simp only [] at hv
          obtain ⟨hsb2, hop2, hpa2, hinv2, ⟨d2, hd2⟩, hall⟩ :=
            ihds id { stm with heap := h2 } st'
              (hsb1.trans hsb) (fun q hq => hds q (List.mem_cons_of_mem _ hq)) hv hinv1
          refine ⟨hsb2, hop2.trans hop1, hpa2.trans hpa1, hinv2,
            ⟨d1 ++ d2, by rw [hd2]; simp only []; rw [hd1, List.append_assoc]⟩, ?_⟩
          intro d' hd'
          rcases List.mem_cons.mp hd' with rfl | hmem
          · rw [hd2]
            simp only []
            exact List.mem_append_left _ hdin
          · exact hall d' hmem
    · simp at hv

theorem visitStepI_ok (env : TypeEnv) (lp : Option Provider) (rd : List (String × GoType))
    (beans : List (String × Bean)) (hdc : DepsClosed beans)
    (recur : String → InjSt → InjSt × Option GoError)
    (IH : ∀ i st st', st.beans = beans → recur i st = (st', none) → InjInv beans st →
      InjClaim beans st st' i) :
    ∀ (id : String) (st st' : InjSt),
      st.beans = beans → visitStep env lp rd recur id st = (st', none) →
      InjInv beans st → InjClaim beans st st' id := by
  intro id st st' hsb hv hinv
  obtain ⟨hvo, hnd, hdisj, htopo⟩ := hinv
  unfold visitStep at hv
  cases hlk : lookupA id st.beans with
  | none =>
    rw [hlk] at hv
    simp at hv
  | some bn =>
    rw [hlk] at hv
    simp only [] at hv
    by_cases h1 : id ∈ st.onPath
    · rw [if_pos h1] at hv
      simp at hv
    · rw [if_neg h1] at hv
      by_cases h2 : id ∈ st.visited
      · rw [if_pos h2] at hv
        obtain rfl : st = st' := congrArg Prod.fst hv
        exact ⟨rfl, rfl, rfl, ⟨hvo, hnd, hdisj, htopo⟩, ⟨[], (List.append_nil _).symm⟩, h2⟩
      · rw [if_neg h2] at hv
        have hinv1 : InjInv beans
            { st with onPath := st.onPath ++ [id], path := st.path ++ [id] } := by
          refine ⟨?_, hnd, ?_, htopo⟩
          · simp only []
            rw [hvo]
          · intro j hj
            simp only [] at hj
            rcases List.mem_append.mp hj with hj' | hj'
            · exact hdisj j hj'
            · obtain rfl : j = id := List.mem_singleton.mp hj'
              exact h2
        by_cases hdeps : bn.hasDependencies = true
        · rw [if_pos hdeps] at hv
          by_cases hni : bn.inst = none
          · rw [if_pos hni] at hv
            simp at hv
          · rw [if_neg hni] at hv
            rcases hrc : visitDeps env lp rd recur id bn.dependencies
                { st with onPath := st.onPath ++ [id], path := st.path ++ [id] }
              with ⟨st2, e?⟩
            rw [hrc] at hv
            rcases e? with - | e
            · simp only [] at hv
              obtain rfl := congrArg Prod.fst hv
              have hds : ∀ d ∈ bn.dependencies, (lookupA d beans).isSome :=
                hdc id bn (hsb ▸ hlk) hdeps
              obtain ⟨hsb2, hop2, hpa2, ⟨hvo2, hnd2, hdisj2, htopo2⟩, ⟨d1, hd1⟩, hall⟩ :=
                visitDepsI_ok env lp rd beans recur IH bn.dependencies id
                  { st with onPath := st.onPath ++ [id], path := st.path ++ [id] } st2
                  hsb hds hrc hinv1
              have hop2' : st2.onPath = st.onPath ++ [id] := hop2
              have hpa2' : st2.path = st.path ++ [id] := hpa2
              have hd1' : st2.visited = st.visited ++ d1 := hd1
              have hido : id ∉ st2.visited := hdisj2 id
                (hop2' ▸ List.mem_append_right _ (List.mem_singleton.mpr rfl))
              refine ⟨hsb2.trans hsb.symm, ?_, ?_, ⟨?_, ?_, ?_, ?_⟩, ?_, ?_⟩
              · simp only []
                rw [hop2', List.erase_append_right _ h1, List.erase_cons_head,
                  List.append_nil]
              · simp only []
                rw [hpa2', List.dropLast_concat]
              · simp only []
                rw [hop2', List.erase_append_right _ h1, List.erase_cons_head,
                  List.append_nil, hpa2', List.dropLast_concat]
                exact hvo
              · exact nodup_snoc _ _ hnd2 hido
              · intro j hj
                simp only [] at hj
                rw [hop2', List.erase_append_right _ h1, List.erase_cons_head,
                  List.append_nil] at hj
                simp only []
                intro hcon
                rcases List.mem_append.mp hcon with hc | hc
                · exact hdisj2 j (hop2' ▸ List.mem_append_left _ hj) hc
                · obtain rfl : j = id := List.mem_singleton.mp hc
                  exact h1 hj
              · simp only []
                apply topoSorted_append beans st2.visited id htopo2
                intro d hd
                apply hall
                unfold effDeps at hd
                rw [hsb] at hlk
                rw [hlk] at hd
                simp only [Option.getD] at hd
                rw [if_pos hdeps] at hd
                exact hd
              · exact ⟨d1 ++ [id], by simp only []; rw [hd1', List.append_assoc]⟩
              · simp only []
                exact List.mem_append_right _ (List.mem_singleton.mpr rfl)
            · simp at hv
        · rw [if_neg hdeps] at hv
          simp only [] at hv
          obtain rfl := congrArg Prod.fst hv
          refine ⟨hsb.trans hsb.symm, ?_, ?_, ⟨?_, ?_, ?_, ?_⟩, ?_, ?_⟩
          · simp only []
            rw [List.erase_append_right _ h1, List.erase_cons_head, List.append_nil]
          · simp only []
            rw [List.dropLast_concat]
          · simp only []
            rw [List.erase_append_right _ h1, List.erase_cons_head, List.append_nil,
              List.dropLast_concat]
            exact hvo
          · exact nodup_snoc _ _ hnd h2
          · intro j hj
            simp only [] at hj
            rw [List.erase_append_right _ h1, List.erase_cons_head, List.append_nil] at hj
            simp only []
            intro hcon
            rcases List.mem_append.mp hcon with hc | hc
            · exact hdisj j hj hc
            · obtain rfl : j = id := List.mem_singleton.mp hc
              exact h1 hj
          · simp only []
            apply topoSorted_append beans st.visited id htopo
            intro d hd
            unfold effDeps at hd
            rw [hsb] at hlk
            rw [hlk] at hd
            simp only [Option.getD] at hd
            rw [if_neg hdeps] at hd
            exact absurd hd (List.not_mem_nil d)
          · exact ⟨[id], rfl⟩
          · simp only []
            exact List.mem_append_right _ (List.mem_singleton.mpr rfl)

theorem visitDI_ok (env : TypeEnv) (lp : Option Provider) (rd : List (String × GoType))
    (beans : List (String × Bean)) (hdc : DepsClosed beans) :
    ∀ (fuel : Nat) (id : String) (st st' : InjSt),
      st.beans = beans → visitD env lp rd fuel id st = (st', none) →
      InjInv beans st → InjClaim beans st st' id := by
  intro fuel
  induction fuel with
  | zero =>
    intro id st st' _ hv
    unfold visitD at hv
    simp at hv
  | succ n ihn =>
    intro id st st' hsb hv hinv
    unfold visitD at hv
    exact visitStepI_ok env lp rd beans hdc _
      (fun i s s' hb h hi => ihn i s s' hb h hi) id st st' hsb hv hinv

theorem injectAllI_ok (env : TypeEnv) (lp : Option Provider) (rd : List (String × GoType))
    (beans : List (String × Bean)) (hdc : DepsClosed beans) (fuel : Nat) :
    ∀ (ids : List String) (st st' : InjSt),
      st.beans = beans → injectAll env lp rd fuel ids st = (st', none) →
      InjInv beans st →
      InjInv beans st' ∧ (∃ Δ, st'.visited = st.visited ++ Δ) ∧
      (∀ i ∈ ids, i ∈ st'.visited) := by
  intro ids
  induction ids with
  | nil =>
    intro st st' _ hv hinv
    unfold injectAll at hv
    obtain rfl : st = st' := congrArg Prod.fst hv
    exact ⟨hinv, ⟨[], (List.append_nil _).symm⟩, fun i hi => absurd hi (List.not_mem_nil i)⟩
  | cons i ids ihl =>
    intro st st' hsb hv hinv
    unfold injectAll at hv
    rcases hrc : visitD env lp rd fuel i st with ⟨stm, e?⟩
    rw [hrc] at hv
    rcases e? with - | e
    · simp only [] at hv
      obtain ⟨hsbm, -, -, hinvm, ⟨d1, hd1⟩, hiin⟩ :=
        visitDI_ok env lp rd beans hdc fuel i st stm hsb hrc hinv
      obtain ⟨hinv3, ⟨d2, hd2⟩, hall⟩ := ihl stm st' (hsbm.trans hsb) hv hinvm
      refine ⟨hinv3, ⟨d1 ++ d2, by rw [hd2, hd1, List.append_assoc]⟩, ?_⟩
      intro i' hi'
      rcases List.mem_cons.mp hi' with rfl | hmem
      · rw [hd2]
        exact List.mem_append_left _ hiin
      · exact hall i' hmem
    · simp at hv

/-- Absent the cycle guard, `injectIntoStruct` cannot fail when the
container's invariants hold (typed non-nil dependency instance, live
receiver, distinct field names). -/
theorem injectIntoStruct_noerr (env : TypeEnv) (h : Heap) (receiver dep : Bean)
    (chain : List String) (rn : String) (ra : Nat) (dv : GoVal)
    (hrec : receiver.inst = some (.ptrV (.structT rn) ra)) (hra : ra < h.length)
    (hdv : dep.inst = some dv) (hty : dv.typeOf = dep.beanType)
    (hnn : ∀ e, dv ≠ .nilPtrV e) (hch : dep.id ∉ chain)
    (hnd : ((env.fieldsOf rn).map FieldDecl.fname).Nodup) :
    ∃ h₂, injectIntoStruct env h receiver dep chain = .ok h₂ ∧ h.length ≤ h₂.length := by
  obtain ⟨o, ho⟩ : ∃ o, h.get? ra = some o := by
    cases hg : h.get? ra with
    | some o => exact ⟨o, rfl⟩
    | none =>
      rw [List.get?_eq_none] at hg
      omega
  have hred : injectIntoStruct env h receiver dep chain
      = injectFields env dep ra (env.fieldsOf rn) h := by
    unfold injectIntoStruct
    rw [if_neg hch, hrec]
  obtain ⟨h₂, o₂, he, hlen, -⟩ :=
    injectFields_spec env dep ra (env.fieldsOf rn) h dv o hdv hty hnn ho hnd
  exact ⟨h₂, hred.trans he, hlen⟩

/-- A genuine cycle error: the rendered message, with the re-entered node
on the recorded path and every consecutive hop a declared dependency
edge. -/
def CycErr (beans : List (String × Bean)) (e : GoError) : Prop :=
  ∃ p z, e = .msg ("dependency cycle detected: " ++ joinPath p z) ∧
    z ∈ p ∧ List.Chain' (hasEdge beans) (p ++ [z]) ∧
    ∀ j ∈ p, (lookupA j beans).isSome

/-- The path-tracking invariant of the injection DFS. -/
def PathSt (beans : List (String × Bean)) (st : InjSt) : Prop :=
  st.onPath = st.path ∧ st.path.Nodup ∧
  (∀ j ∈ st.path, (lookupA j beans).isSome) ∧
  List.Chain' (hasEdge beans) st.path

/-- Everything the container guarantees when `visit` runs: the registry,
path and `onPath` come back unchanged on success (the heap only grows),
and any error is a genuine cycle error. -/
def DichOut (beans : List (String × Bean)) (st : InjSt) (id : String)
    (r : InjSt × Option GoError) : Prop :=
  match r with
  | (st', none) =>
    st'.beans = st.beans ∧ st'.onPath = st.onPath ∧ st'.path = st.path ∧
    st.heap.length ≤ st'.heap.length ∧ id ∉ st.onPath
  | (_, some e) => CycErr beans e

def DichLoopOut (beans : List (String × Bean)) (st : InjSt)
    (r : InjSt × Option GoError) : Prop :=
  match r with
  | (st', none) =>
    st'.beans = st.beans ∧ st'.onPath = st.onPath ∧ st'.path = st.path ∧
    st.heap.length ≤ st'.heap.length
  | (_, some e) => CycErr beans e

theorem dichLoop_mono (beans : List (String × Bean)) (st0 st1 : InjSt)
    (r : InjSt × Option GoError)
    (hbe : st1.beans = st0.beans) (hoe : st1.onPath = st0.onPath)
    (hpe : st1.path = st0.path) (hhe : st0.heap.length ≤ st1.heap.length)
    (h : DichLoopOut beans st1 r) : DichLoopOut beans st0 r := by
  rcases r with ⟨stf, e?⟩
  rcases e? with - | e
  · obtain ⟨h1, h2, h3, h4⟩ := h
    exact ⟨h1.trans hbe, h2.trans hoe, h3.trans hpe, Nat.le_trans hhe h4⟩
  · exact h

/-- The well-formedness `Build` establishes before injection: ids are keys,
every bean holds a typed live pointer-to-struct instance, dependencies are
registered, struct field names are distinct. -/
def InjWF (env : TypeEnv) (beans : List (String × Bean)) (h : Heap) : Prop :=
  (∀ k b, lookupA k beans = some b → b.id = k) ∧
  (∀ k b, lookupA k beans = some b → ∃ n a, b.beanType = .ptrT (.structT n) ∧
    b.inst = some (.ptrV (.structT n) a) ∧ a < h.length) ∧
  DepsClosed beans ∧
  (∀ k b, lookupA k beans = some b → ∀ n, b.beanType = .ptrT (.structT n) →
    ((env.fieldsOf n).map FieldDecl.fname).Nodup)

theorem injWFMono (env : TypeEnv) (beans : List (String × Bean)) {h h' : Heap}
    (hl : h.length ≤ h'.length) (w : InjWF env beans h) : InjWF env beans h' := by
  obtain ⟨w1, w2, w3, w4⟩ := w
  refine ⟨w1, ?_, w3, w4⟩
  intro k b hk
  obtain ⟨n, a, hb1, hb2, hb3⟩ := w2 k b hk
  exact ⟨n, a, hb1, hb2, Nat.lt_of_lt_of_le hb3 hl⟩

theorem visitDeps_dich (env : TypeEnv) (lp : Option Provider) (rd : List (String × GoType))
    (beans : List (String × Bean)) (P : List String)
    (recur : String → InjSt → InjSt × Option GoError)
    (IH : ∀ i stx, stx.beans = beans → InjWF env beans stx.heap → PathSt beans stx →
      stx.path = P → (lookupA i beans).isSome →
      (∀ hne : P ≠ [], hasEdge beans (P.getLast hne) i) →
      DichOut beans stx i (recur i stx)) :
    ∀ (ds : List String) (id : String) (st : InjSt),
      st.beans = beans → InjWF env beans st.heap → PathSt beans st → st.path = P →
      (lookupA id beans).isSome →
      (∀ d ∈ ds, (lookupA d beans).isSome ∧
        (∀ hne : P ≠ [], hasEdge beans (P.getLast hne) d)) →
      DichLoopOut beans st (visitDeps env lp rd recur id ds st) := by
  intro ds
  induction ds with
  | nil =>
    intro id st hsb hwf hps hpP hrecv hds
    exact ⟨rfl, rfl, rfl, Nat.le_refl _⟩
  | cons d rest ihds =>
    intro id st hsb hwf hps hpP hrecv hds
    obtain ⟨hdl, hde⟩ := hds d (List.mem_cons_self _ _)
    obtain ⟨db, hdb⟩ := Option.isSome_iff_exists.mp hdl
    unfold visitDeps
    simp only []
    rw [resolveDep_found lp rd ((lookupA id st.beans).getD zeroBean).id d st db
      (by rw [hsb]; exact hdb)]
    simp only []
    have hD := IH d st hsb hwf hps hpP hdl hde
    rcases hrc : recur d st with ⟨stm, e?⟩
    rw [hrc] at hD
    rcases e? with - | e
    · obtain ⟨hbe, hoe, hpe, hhe, hdnp⟩ := hD
      obtain ⟨n, a, hbt, hbi, hba⟩ := hwf.2.1 d db hdb
      simp only []
      rw [if_neg (by rw [hbi]; exact fun hcon => Option.noConfusion hcon)]
      obtain ⟨bnv, hbnv⟩ := Option.isSome_iff_exists.mp hrecv
      have hbn : (lookupA id st.beans).getD zeroBean = bnv := by
        rw [hsb, hbnv]
        rfl
      obtain ⟨rn, ra, hrt, hri, hraL⟩ := hwf.2.1 id bnv hbnv
      have hdid : db.id = d := hwf.1 d db hdb
      have hdnp2 : db.id ∉ stm.path := by
        rw [hdid, hpe, ← hps.1]
        exact hdnp
      obtain ⟨h₂, hok, hlen2⟩ := injectIntoStruct_noerr env stm.heap
        ((lookupA id st.beans).getD zeroBean) db stm.path rn ra
        (.ptrV (.structT n) a)
        (by rw [hbn]; exact hri)
        (Nat.lt_of_lt_of_le hraL hhe)
        hbi (by rw [hbt]; rfl) (fun _ hcon => GoVal.noConfusion hcon) hdnp2
        (hwf.2.2.2 id bnv hbnv rn hrt)
      rw [hok]
      simp only []
      refine dichLoop_mono beans st { stm with heap := h₂ } _ hbe hoe hpe
        (Nat.le_trans hhe hlen2) ?_
      have hps2 : PathSt beans { stm with heap := h₂ } := by
        refine ⟨?_, ?_, ?_, ?_⟩
        · simp only []
          exact hoe.trans (hps.1.trans hpe.symm)
        · simp only []
          rw [hpe]
          exact hps.2.1
        · simp only []
          rw [hpe]
          exact hps.2.2.1
        · simp only []
          rw [hpe]
          exact hps.2.2.2
      exact ihds id { stm with heap := h₂ }
        (hbe.trans hsb) (injWFMono env beans (Nat.le_trans hhe hlen2) hwf)
        hps2 (by simp only []; rw [hpe]; exact hpP) hrecv
        (fun q hq => hds q (List.mem_cons_of_mem _ hq))
    · exact hD

theorem visitStep_dich (env : TypeEnv) (lp : Option Provider) (rd : List (String × GoType))
    (beans : List (String × Bean))
    (recur : String → InjSt → InjSt × Option GoError) (id : String) (st : InjSt)
    (hsb : st.beans = beans) (hwf : InjWF env beans st.heap) (hps : PathSt beans st)
    (hid : (lookupA id beans).isSome)
    (hedge : ∀ hne : st.path ≠ [], hasEdge beans (st.path.getLast hne) id)
    (IH : ∀ i stx, stx.beans = beans → InjWF env beans stx.heap → PathSt beans stx →
      stx.path = st.path ++ [id] → (lookupA i beans).isSome →
      (∀ hne : st.path ++ [id] ≠ [], hasEdge beans ((st.path ++ [id]).getLast hne) i) →
      DichOut beans stx i (recur i stx)) :
    DichOut beans st id (visitStep env lp rd recur id st) := by
  obtain ⟨hvo, hnd, hlk0, hch0⟩ := hps
  obtain ⟨bn, hbn⟩ := Option.isSome_iff_exists.mp hid
  unfold visitStep
  rw [show lookupA id st.beans = some bn from hsb ▸ hbn]
  simp only []
  by_cases h1 : id ∈ st.onPath
  · rw [if_pos h1]
    refine ⟨st.path, id, rfl, hvo ▸ h1, ?_, hlk0⟩
    rw [List.chain'_append]
    refine ⟨hch0, List.chain'_singleton id, ?_⟩
    intro x hx y hy
    have hne : st.path ≠ [] := by
      intro hcon
      rw [hvo, hcon] at h1
      exact absurd h1 (List.not_mem_nil id)
    rw [List.getLast?_eq_getLast st.path hne] at hx
    obtain rfl : x = st.path.getLast hne := Option.some.inj hx.symm
    obtain rfl : id = y := by simpa using hy
    exact hedge hne
  · rw [if_neg h1]
    by_cases h2 : id ∈ st.visited
    · rw [if_pos h2]
      exact ⟨rfl, rfl, rfl, Nat.le_refl _, h1⟩
    · rw [if_neg h2]
      have hps1 : PathSt beans
          { st with onPath := st.onPath ++ [id], path := st.path ++ [id] } := by
        refine ⟨?_, ?_, ?_, ?_⟩
        · simp only []
          rw [hvo]
        · simp only []
          exact nodup_snoc _ _ hnd (hvo ▸ h1)
        · simp only []
          intro j hj
          rcases List.mem_append.mp hj with hj' | hj'
          · exact hlk0 j hj'
          · obtain rfl : j = id := List.mem_singleton.mp hj'
            exact hid
        · simp only []
          rw [List.chain'_append]
          refine ⟨hch0, List.chain'_singleton id, ?_⟩
          intro x hx y hy
          rcases hpn : st.path with - | ⟨ph, pt⟩
          · rw [hpn] at hx
            simp at hx
          · have hne : st.path ≠ [] := by
              rw [hpn]
              simp
            rw [List.getLast?_eq_getLast st.path hne] at hx
            obtain rfl : x = st.path.getLast hne := Option.some.inj hx.symm
            obtain rfl : id = y := by simpa using hy
            exact hedge hne
      by_cases hdeps : bn.hasDependencies = true
      · rw [if_pos hdeps]
        obtain ⟨n, a, hbt, hbi, hba⟩ := hwf.2.1 id bn hbn
        rw [if_neg (by rw [hbi]; exact fun hcon => Option.noConfusion hcon)]
        have hds : ∀ d ∈ bn.dependencies, (lookupA d beans).isSome ∧
            (∀ hne : st.path ++ [id] ≠ [],
              hasEdge beans ((st.path ++ [id]).getLast hne) d) := by
          intro d hd
          refine ⟨hwf.2.2.1 id bn hbn hdeps d hd, ?_⟩
          intro hne
          rw [List.getLast_concat]
          unfold hasEdge effDeps
          rw [hbn]
          simp only [Option.getD]
          rw [if_pos hdeps]
          exact hd
        have hL := visitDeps_dich env lp rd beans (st.path ++ [id]) recur IH
          bn.dependencies id
          { st with onPath := st.onPath ++ [id], path := st.path ++ [id] }
          hsb hwf hps1 rfl hid hds
        rcases hrc : visitDeps env lp rd recur id bn.dependencies
            { st with onPath := st.onPath ++ [id], path := st.path ++ [id] }
          with ⟨st2, e?⟩
        rw [hrc] at hL
        rcases e? with - | e
        · obtain ⟨hbe, hoe, hpe, hhe⟩ := hL
          have hoe' : st2.onPath = st.onPath ++ [id] := hoe
          have hpe' : st2.path = st.path ++ [id] := hpe
          refine ⟨hbe.trans rfl, ?_, ?_, hhe, h1⟩
          · simp only []
            rw [hoe', List.erase_append_right _ h1, List.erase_cons_head, List.append_nil]
          · simp only []
            rw [hpe', List.dropLast_concat]
        · exact hL
      · rw [if_neg hdeps]
        exact ⟨rfl, by
          simp only []
          rw [List.erase_append_right _ h1, List.erase_cons_head, List.append_nil], by
          simp only []
          rw [List.dropLast_concat], Nat.le_refl _, h1⟩

theorem visitD_dich (env : TypeEnv) (lp : Option Provider) (rd : List (String × GoType))
    (beans : List (String × Bean)) :
    ∀ (fuel : Nat) (id : String) (st : InjSt),
      st.beans = beans → InjWF env beans st.heap → PathSt beans st →
      (lookupA id beans).isSome →
      (∀ hne : st.path ≠ [], hasEdge beans (st.path.getLast hne) id) →
      beans.length < fuel + st.path.length →
      DichOut beans st id (visitD env lp rd fuel id st) := by
  intro fuel
  induction fuel with
  | zero =>
    intro id st hsb hwf hps hid hedge hfl
    have hsub : st.path.Subperm (beans.map Prod.fst) := by
      apply hps.2.1.subperm
      intro j hj
      obtain ⟨v, hv⟩ := Option.isSome_iff_exists.mp (hps.2.2.1 j hj)
      exact List.mem_map.mpr ⟨(j, v), lookupA_mem hv, rfl⟩
    have hle := hsub.length_le
    rw [List.length_map] at hle
    omega
  | succ n ihn =>
    intro id st hsb hwf hps hid hedge hfl
    unfold visitD
    apply visitStep_dich env lp rd beans _ id st hsb hwf hps hid hedge
    intro i stx hxb hxwf hxps hxp hxi hxe
    apply ihn i stx hxb hxwf hxps hxi
    · rw [hxp]
      exact hxe
    · rw [hxp, List.length_append, List.length_singleton]
      omega

theorem injectAll_dich (env : TypeEnv) (lp : Option Provider) (rd : List (String × GoType))
    (beans : List (String × Bean)) (fuel : Nat) (hfuel : beans.length < fuel) :
    ∀ (ids : List String) (st : InjSt),
      st.beans = beans → InjWF env beans st.heap →
      st.onPath = [] → st.path = [] →
      (∀ i ∈ ids, (lookupA i beans).isSome) →
      ∀ st' e, injectAll env lp rd fuel ids st = (st', some e) → CycErr beans e := by
  intro ids
  induction ids with
  | nil =>
    intro st _ _ _ _ _ st' e hv
    unfold injectAll at hv
    have := congrArg Prod.snd hv
    simp at this
  | cons i ids ihl =>
    intro st hsb hwf hop hpa hids st' e hv
    unfold injectAll at hv
    have hps : PathSt beans st :=
      ⟨hop.trans hpa.symm, by rw [hpa]; exact List.nodup_nil, by
        rw [hpa]
        intro j hj
        exact absurd hj (List.not_mem_nil j), by
        rw [hpa]
        exact List.chain'_nil⟩
    have hD := visitD_dich env lp rd beans fuel i st hsb hwf hps
      (hids i (List.mem_cons_self _ _))
      (fun hne => absurd hpa hne) (by rw [hpa]; simpa using hfuel)
    rcases hrc : visitD env lp rd fuel i st with ⟨stm, e1?⟩
    rw [hrc] at hv hD
    rcases e1? with - | e1
    · simp only [] at hv
      obtain ⟨hbe, hoe, hpe, hhe, -⟩ := hD
      exact ihl stm (hbe.trans hsb) (injWFMono env beans hhe hwf)
        (hoe.trans hop) (hpe.trans hpa)
        (fun q hq => hids q (List.mem_cons_of_mem _ hq)) st' e hv
    · simp only [] at hv
      obtain ⟨-, he⟩ : stm = st' ∧ some e1 = some e := Prod.mk.inj hv
      obtain rfl : e1 = e := Option.some.inj he
      exact hD

/-- The part of a descriptor the instantiation pass never touches:
identifier, declared type, dependency flags. -/
def coreView (b : Bean) : String × GoType × Bool × List String :=
  (b.id, b.beanType, b.hasDependencies, b.dependencies)

theorem instantiateAll_coreView :
    ∀ (vs : List Bean) (beans : List (String × Bean)) (h : Heap),
      (∀ b ∈ vs, (lookupA b.id beans).map coreView = some (coreView b)) →
      ∀ k, (lookupA k (instantiateAll vs beans h).1).map coreView
        = (lookupA k beans).map coreView := by
  intro vs
  induction vs with
  | nil =>
    intro beans h _ k
    rfl
  | cons bn rest ih =>
    intro beans h hsnap k
    unfold instantiateAll
    by_cases hbni : bn.inst ≠ none
    · rw [if_pos hbni]
      exact ih beans h (fun b hb => hsnap b (List.mem_cons_of_mem _ hb)) k
    · rw [if_neg hbni]
      cases hbt : bn.beanType with
      | stringT => exact ih beans h (fun b hb => hsnap b (List.mem_cons_of_mem _ hb)) k
      | intT => exact ih beans h (fun b hb => hsnap b (List.mem_cons_of_mem _ hb)) k
      | structT m => exact ih beans h (fun b hb => hsnap b (List.mem_cons_of_mem _ hb)) k
      | ifaceT i => exact ih beans h (fun b hb => hsnap b (List.mem_cons_of_mem _ hb)) k
      | ptrT e =>
        cases e with
        | stringT => exact ih beans h (fun b hb => hsnap b (List.mem_cons_of_mem _ hb)) k
        | intT => exact ih beans h (fun b hb => hsnap b (List.mem_cons_of_mem _ hb)) k
        | ptrT e2 => exact ih beans h (fun b hb => hsnap b (List.mem_cons_of_mem _ hb)) k
        | ifaceT i => exact ih beans h (fun b hb => hsnap b (List.mem_cons_of_mem _ hb)) k
        | structT n =>
          simp only []
          rw [← hbt]
          have hcv : ∀ k', (lookupA k' (insertA bn.id { bn with inst := some (GoVal.ptrV (.structT n) h.length), singleton := true } beans)).map coreView = (lookupA k' beans).map coreView := by
            intro k'
            by_cases hk : k' = bn.id
            · subst hk
              rw [lookupA_insertA_self]
              rw [hsnap bn (List.mem_cons_self _ _)]
              rfl
            · rw [lookupA_insertA_ne (fun hc => hk hc.symm)]
          have hsnap' : ∀ b ∈ rest, (lookupA b.id (insertA bn.id { bn with inst := some (GoVal.ptrV (.structT n) h.length), singleton := true } beans)).map coreView = some (coreView b) := by
            intro b hb
            rw [hcv b.id]
            exact hsnap b (List.mem_cons_of_mem _ hb)
          rw [ih _ (h ++ [Obj.mk n []]) hsnap' k, hcv k]

theorem instantiateAll_W3 :
    ∀ (vs : List Bean) (beans : List (String × Bean)) (h : Heap),
      (∀ k b, lookupA k beans = some b → b.id = k) →
      ((vs.map Bean.id).Nodup) →
      (∀ b ∈ vs, ∃ n, b.beanType = .ptrT (.structT n) ∧
        (b.inst = none ∨ ∃ a, b.inst = some (.ptrV (.structT n) a) ∧ a < h.length)) →
      (∀ k b, lookupA k beans = some b → b ∈ vs ∨ ∃ n a,
        b.beanType = .ptrT (.structT n) ∧ b.inst = some (.ptrV (.structT n) a) ∧
        a < h.length) →
      ∀ k b, lookupA k (instantiateAll vs beans h).1 = some b → ∃ n a,
        b.beanType = .ptrT (.structT n) ∧ b.inst = some (.ptrV (.structT n) a) ∧
        a < (instantiateAll vs beans h).2.length := by
  intro vs
  induction vs with
  | nil =>
    intro beans h _ _ _ hdone k b hk
    rcases hdone k b hk with hmem | hgood
    · exact absurd hmem (List.not_mem_nil b)
    · exact hgood
  | cons bn rest ih =>
    intro beans h hW1 hnd hwfv hdone
    simp only [List.map_cons, List.nodup_cons] at hnd
    obtain ⟨-, hnd'⟩ := hnd
    unfold instantiateAll
    by_cases hbni : bn.inst ≠ none
    · rw [if_pos hbni]
      apply ih beans h hW1 hnd' (fun b hb => hwfv b (List.mem_cons_of_mem _ hb))
      intro k b hk
      rcases hdone k b hk with hmem | hgood
      · rcases List.mem_cons.mp hmem with rfl | hb
        · right
          obtain ⟨n, hbt, hin⟩ := hwfv b (List.mem_cons_self _ _)
          rcases hin with hnone | ⟨a, hsome, hlt⟩
          · exact absurd hnone hbni
          · exact ⟨n, a, hbt, hsome, hlt⟩
        · exact Or.inl hb
      · exact Or.inr hgood
    · rw [if_neg hbni]
      obtain ⟨n0, hbt0, -⟩ := hwfv bn (List.mem_cons_self _ _)
      rw [hbt0]
      simp only []
      rw [← hbt0]
      apply ih (insertA bn.id { bn with inst := some (GoVal.ptrV (.structT n0) h.length), singleton := true } beans) (h ++ [Obj.mk n0 []]) ?w1 hnd' ?wfv ?done
      case w1 =>
        intro k b hk
        by_cases hk' : k = bn.id
        · subst hk'
          rw [lookupA_insertA_self] at hk
          obtain rfl := Option.some.inj hk
          rfl
        · rw [lookupA_insertA_ne (fun hc => hk' hc.symm)] at hk
          exact hW1 k b hk
      case wfv =>
        intro b hb
        obtain ⟨n, hbt, hin⟩ := hwfv b (List.mem_cons_of_mem _ hb)
        refine ⟨n, hbt, ?_⟩
        rcases hin with hnone | ⟨a, hsome, hlt⟩
        · exact Or.inl hnone
        · refine Or.inr ⟨a, hsome, ?_⟩
          rw [List.length_append, List.length_singleton]
          omega
      case done =>
        intro k b hk
        by_cases hk' : k = bn.id
        · subst hk'
          rw [lookupA_insertA_self] at hk
          obtain rfl := Option.some.inj hk
          right
          refine ⟨n0, h.length, hbt0, rfl, ?_⟩
          rw [List.length_append, List.length_singleton]
          omega
        · rw [lookupA_insertA_ne (fun hc => hk' hc.symm)] at hk
          rcases hdone k b hk with hmem | hgood
          · rcases List.mem_cons.mp hmem with rfl | hb
            · exact absurd (hW1 k b hk).symm hk'
            · exact Or.inl hb
          · obtain ⟨n, a, g1, g2, g3⟩ := hgood
            refine Or.inr ⟨n, a, g1, g2, ?_⟩
            rw [List.length_append, List.length_singleton]
            omega

theorem effDeps_congr (b1 b2 : List (String × Bean)) (k : String)
    (h : (lookupA k b1).map coreView = (lookupA k b2).map coreView) :
    effDeps b1 k = effDeps b2 k := by
  unfold effDeps
  cases h1 : lookupA k b1 with
  | none =>
    cases h2 : lookupA k b2 with
    | none => rfl
    | some b =>
      rw [h1, h2] at h
      simp at h
  | some b =>
    cases h2 : lookupA k b2 with
    | none =>
      rw [h1, h2] at h
      simp at h
    | some b' =>
      rw [h1, h2] at h
      simp only [Option.map] at h
      have hc := Option.some.inj h
      simp only [coreView, Prod.mk.injEq] at hc
      simp only [Option.getD]
      rw [hc.2.2.1, hc.2.2.2]

theorem isSome_congr (b1 b2 : List (String × Bean)) (k : String)
    (h : (lookupA k b1).map coreView = (lookupA k b2).map coreView) :
    (lookupA k b1).isSome = (lookupA k b2).isSome := by
  cases h1 : lookupA k b1 with
  | none =>
    cases h2 : lookupA k b2 with
    | none => rfl
    | some b =>
      rw [h1, h2] at h
      simp at h
  | some b =>
    cases h2 : lookupA k b2 with
    | none =>
      rw [h1, h2] at h
      simp at h
    | some b' => rfl

theorem hasEdge_congr (b1 b2 : List (String × Bean))
    (h : ∀ k, (lookupA k b1).map coreView = (lookupA k b2).map coreView)
    (x y : String) : hasEdge b1 x y ↔ hasEdge b2 x y := by
  unfold hasEdge
  rw [effDeps_congr b1 b2 x (h x)]

theorem isCycle_congr (b1 b2 : List (String × Bean))
    (h : ∀ k, (lookupA k b1).map coreView = (lookupA k b2).map coreView)
    (cyc : List String) (hc : IsCycle b1 cyc) : IsCycle b2 cyc := by
  obtain ⟨x, rest, rfl, hch⟩ := hc
  exact ⟨x, rest, rfl, List.Chain.imp (fun a b hab => (hasEdge_congr b1 b2 h a b).mp hab) hch⟩

instance (beans : List (String × Bean)) (x y : String) : Decidable (hasEdge beans x y) :=
  inferInstanceAs (Decidable (y ∈ effDeps beans x))

/-- Decidable rendering of the shape invariant a registered descriptor must
satisfy before `build()` for the cycle theorem: declared as pointer to
struct, and any pre-set instance is a live pointer of that type. -/
def beanWF (h : Heap) (b : Bean) : Bool :=
  match b.beanType, b.inst with
  | .ptrT (.structT _), none => true
  | .ptrT (.structT n), some (.ptrV (.structT n2) a) =>
    decide (n2 = n) && decide (a < h.length)
  | _, _ => false

theorem beanWF_spec (h : Heap) (b : Bean) (hw : beanWF h b = true) :
    ∃ n, b.beanType = .ptrT (.structT n) ∧
      (b.inst = none ∨ ∃ a, b.inst = some (.ptrV (.structT n) a) ∧ a < h.length) := by
  unfold beanWF at hw
  rcases hbt : b.beanType with - | - | e | m | i <;> rw [hbt] at hw
  · simp at hw
  · simp at hw
  · rcases e with - | - | e2 | n | i2
    · simp at hw
    · simp at hw
    · simp at hw
    · rcases hbi : b.inst with - | v <;> rw [hbi] at hw
      · exact ⟨n, rfl, Or.inl rfl⟩
      · rcases v with s | k | ⟨e3, a⟩ | e3 | ⟨n3, a3⟩
        · simp at hw
        · simp at hw
        · rcases e3 with - | - | e4 | n4 | i4
          · simp at hw
          · simp at hw
          · simp at hw
          · simp only [Bool.and_eq_true, decide_eq_true_eq] at hw
            refine ⟨n, rfl, Or.inr ⟨a, ?_, hw.2⟩⟩
            rw [hw.1]
          · simp at hw
        · simp at hw
        · simp at hw
    · simp at hw
  · simp at hw
  · simp at hw

/-- Decidable rendering: the struct type a bean points to has distinct
field names. -/
def fieldsNodup (env : TypeEnv) (b : Bean) : Bool :=
  match b.beanType with
  | .ptrT (.structT n) => decide (((env.fieldsOf n).map FieldDecl.fname).Nodup)
  | _ => true

theorem fieldsNodup_spec (env : TypeEnv) (b : Bean) (hw : fieldsNodup env b = true)
    (n : String) (hbt : b.beanType = .ptrT (.structT n)) :
    ((env.fieldsOf n).map FieldDecl.fname).Nodup := by
  unfold fieldsNodup at hw
  rw [hbt] at hw
  simpa using hw

theorem lookupA_isSome_of_mem_keys {α : Type} {l : List (String × α)} {k : String}
    (h : k ∈ l.map Prod.fst) : (lookupA k l).isSome = true := by
  induction l with
  | nil => simp at h
  | cons p tl ih =>
    obtain ⟨k', v⟩ := p
    unfold lookupA
    by_cases hk : k' = k
    · rw [if_pos hk]
      rfl
    · rw [if_neg hk]
      apply ih
      have h2 : k = k' ∨ ∃ x, (k, x) ∈ tl := by simpa using h
      rcases h2 with rfl | ⟨x, hx⟩
      · exact absurd rfl hk
      · exact List.mem_map.mpr ⟨(k, x), hx, rfl⟩

/-- Self-cycle scenario: struct `X` declares a dependency on `x`, the id
it is itself registered under. -/
def envC1s : TypeEnv :=
  { fieldsOf := fun n => if n = "X" then [⟨"Me", true, some "x", .ptrT (.structT "X")⟩] else []
    impl := fun _ _ => false
    initHook := fun _ => none }

def contC1s : Container :=
  match newContainer.register envC1s "x" (some (.ptrT (.structT "X"))) with
  | .ok c => c
  | .error _ => newContainer

/-- Two-node cycle: `a` depends on `b`, `b` depends on `a`. -/
def envC1two : TypeEnv :=
  { fieldsOf := fun n =>
      if n = "A" then [⟨"FB", true, some "b", .ptrT (.structT "B")⟩]
      else if n = "B" then [⟨"FA", true, some "a", .ptrT (.structT "A")⟩]
      else []
    impl := fun _ _ => false
    initHook := fun _ => none }

def contC1two : Container :=
  match newContainer.register envC1two "a" (some (.ptrT (.structT "A"))) with
  | .ok c1 =>
    match c1.register envC1two "b" (some (.ptrT (.structT "B"))) with
    | .ok c2 => c2
    | .error _ => newContainer
  | .error _ => newContainer

/-- C1 (amended).  For a container whose registered descriptors are
well-formed (ids are keys and duplicate-free, declared types are pointers
to structs with live typed instances if pre-set, declared dependencies
registered, field names distinct) and whose pre-build check passes, a
dependency cycle among the registered beans makes `build()` fail with the
cycle error: its text is exactly `dependency cycle detected: ` followed by
the traversal path joined with ` -> `, the re-entered node occurs on that
path, every hop of the path (including the final re-entry) is a genuine
declared-dependency edge, and the suffix of the path from the first
occurrence of the re-entered node, closed by the re-entry, is itself a
dependency cycle.  In particular a self-dependent `x` yields the text
`x -> x` and the two-node cycle registered as `a` then `b` yields
`a -> b -> a`. -/
theorem c1_cycle_detected (env : TypeEnv) (lp : Option Provider) (c : Container)
    (hb : c.built = false)
    (hwf1 : ∀ p ∈ c.registeredBeans, (Prod.snd p).id = p.1)
    (hwf2 : (c.registeredBeans.map Prod.fst).Nodup)
    (htyp : ∀ p ∈ c.registeredBeans, beanWF c.heap (Prod.snd p) = true)
    (hdcL : ∀ p ∈ c.registeredBeans, (Prod.snd p).hasDependencies = true →
      ∀ d ∈ (Prod.snd p).dependencies, (lookupA d c.registeredBeans).isSome = true)
    (hfld : ∀ p ∈ c.registeredBeans, fieldsNodup env (Prod.snd p) = true)
    (hpre : precheck env lp c.registeredBeans c.requiredDependency = none)
    (cyc : List String) (hcyc : IsCycle c.registeredBeans cyc) :
    (∃ p z, (c.build env lp).err =
        some (.msg ("dependency cycle detected: " ++ joinPath p z)) ∧
      z ∈ p ∧ List.Chain' (hasEdge c.registeredBeans) (p ++ [z]) ∧
      ∃ p1 p2, p = p1 ++ z :: p2 ∧ IsCycle c.registeredBeans (z :: p2)) ∧
    (contC1s.build envC1s none).err =
      some (.msg "dependency cycle detected: x -> x") ∧
    (contC1two.build envC1two none).err =
      some (.msg "dependency cycle detected: a -> b -> a") := by
  refine ⟨?_, by decide, by decide⟩
  have hW1 : ∀ k b, lookupA k c.registeredBeans = some b → b.id = k :=
    fun k b h => hwf1 (k, b) (lookupA_mem h)
  have hty : ∀ k b, lookupA k c.registeredBeans = some b → ∃ n,
      b.beanType = .ptrT (.structT n) ∧
      (b.inst = none ∨ ∃ a, b.inst = some (.ptrV (.structT n) a) ∧ a < c.heap.length) :=
    fun k b h => beanWF_spec c.heap b (htyp (k, b) (lookupA_mem h))
  have hdc0 : DepsClosed c.registeredBeans :=
    fun k b h hd d hdd => hdcL (k, b) (lookupA_mem h) hd d hdd
  have hsnap : ∀ v ∈ c.registeredBeans.map Prod.snd,
      lookupA v.id c.registeredBeans = some v :=
    snapshot_lookup hW1 hwf2
  have hview : ∀ k,
      (lookupA k (instantiateAll (c.registeredBeans.map Prod.snd)
          c.registeredBeans c.heap).1).map coreView
        = (lookupA k c.registeredBeans).map coreView :=
    instantiateAll_coreView _ _ _ (fun b hbm => by rw [hsnap b hbm]; rfl)
  have hW3 := instantiateAll_W3 (c.registeredBeans.map Prod.snd) c.registeredBeans c.heap
    hW1 (snapshot_ids_nodup hW1 hwf2)
    (fun b hbm => hty b.id b (hsnap b hbm))
    (fun k b h => Or.inl (List.mem_map.mpr ⟨(k, b), lookupA_mem h, rfl⟩))
  have hW1' : ∀ k b2, lookupA k (instantiateAll (c.registeredBeans.map Prod.snd)
      c.registeredBeans c.heap).1 = some b2 → b2.id = k := by
    intro k b2 h2
    have hv := hview k
    rw [h2] at hv
    cases ho : lookupA k c.registeredBeans with
    | none =>
      rw [ho] at hv
      simp at hv
    | some b =>
      rw [ho] at hv
      simp only [Option.map] at hv
      have hc := Option.some.inj hv
      simp only [coreView, Prod.mk.injEq] at hc
      rw [hc.1]
      exact hW1 k b ho
  have hDC' : DepsClosed (instantiateAll (c.registeredBeans.map Prod.snd)
      c.registeredBeans c.heap).1 := by
    intro k b2 h2 hd d hdd
    have hv := hview k
    rw [h2] at hv
    cases ho : lookupA k c.registeredBeans with
    | none =>
      rw [ho] at hv
      simp at hv
    | some b =>
      rw [ho] at hv
      simp only [Option.map] at hv
      have hc := Option.some.inj hv
      simp only [coreView, Prod.mk.injEq] at hc
      have hsome := hdc0 k b ho (hc.2.2.1 ▸ hd) d (hc.2.2.2 ▸ hdd)
      rw [isSome_congr _ _ d (hview d)]
      exact hsome
  have hFLD' : ∀ k b2, lookupA k (instantiateAll (c.registeredBeans.map Prod.snd)
      c.registeredBeans c.heap).1 = some b2 →
      ∀ n, b2.beanType = .ptrT (.structT n) →
      ((env.fieldsOf n).map FieldDecl.fname).Nodup := by
    intro k b2 h2 n hbt
    have hv := hview k
    rw [h2] at hv
    cases ho : lookupA k c.registeredBeans with
    | none =>
      rw [ho] at hv
      simp at hv
    | some b =>
      rw [ho] at hv
      simp only [Option.map] at hv
      have hc := Option.some.inj hv
      simp only [coreView, Prod.mk.injEq] at hc
      exact fieldsNodup_spec env b (hfld (k, b) (lookupA_mem ho)) n (hc.2.1 ▸ hbt)
  have hwfI : InjWF env (instantiateAll (c.registeredBeans.map Prod.snd)
      c.registeredBeans c.heap).1
      (instantiateAll (c.registeredBeans.map Prod.snd) c.registeredBeans c.heap).2 :=
    ⟨hW1', hW3, hDC', hFLD'⟩
  have hkeys : ∀ i ∈ (instantiateAll (c.registeredBeans.map Prod.snd)
      c.registeredBeans c.heap).1.map Prod.fst,
      (lookupA i (instantiateAll (c.registeredBeans.map Prod.snd)
        c.registeredBeans c.heap).1).isSome = true :=
    fun i hi => lookupA_isSome_of_mem_keys hi
  have hbb : c.build env lp = c.buildCore env lp := by
    simp [Container.build, hb]
  rw [hbb]
  unfold Container.buildCore
  rw [hpre]
  simp only []
  rcases hinj : injectAll env lp c.requiredDependency
      ((instantiateAll (c.registeredBeans.map Prod.snd) c.registeredBeans c.heap).1.length +
        c.requiredDependency.length + 1)
      ((instantiateAll (c.registeredBeans.map Prod.snd) c.registeredBeans c.heap).1.map
        Prod.fst)
      ⟨(instantiateAll (c.registeredBeans.map Prod.snd) c.registeredBeans c.heap).1,
        (instantiateAll (c.registeredBeans.map Prod.snd) c.registeredBeans c.heap).2,
        [], [], [], []⟩ with ⟨st', e?⟩
  rcases e? with - | e
  · exfalso
    obtain ⟨⟨-, hndv, -, htopoT⟩, -, hallT⟩ :=
      injectAllI_ok env lp c.requiredDependency _ hDC' _ _ _ st' rfl hinj
        ⟨rfl, List.nodup_nil, fun j hj => absurd hj (List.not_mem_nil j), topoSorted_nil _⟩
    apply topo_cycle_false _ st'.visited hndv htopoT ?hT cyc
      (isCycle_congr c.registeredBeans _ (fun k => (hview k).symm) cyc hcyc)
    case hT =>
      intro j hj
      obtain ⟨v, hv⟩ := Option.isSome_iff_exists.mp hj
      exact hallT j (List.mem_map.mpr ⟨(j, v), lookupA_mem hv, rfl⟩)
  · have hC : CycErr (instantiateAll (c.registeredBeans.map Prod.snd)
        c.registeredBeans c.heap).1 e :=
      injectAll_dich env lp c.requiredDependency
        (instantiateAll (c.registeredBeans.map Prod.snd) c.registeredBeans c.heap).1
        _ (by omega) _ _ rfl hwfI rfl rfl hkeys st' e hinj
    obtain ⟨p, z, he, hzp, hchain, -⟩ := hC
    have hchain0 : List.Chain' (hasEdge c.registeredBeans) (p ++ [z]) :=
      List.Chain'.imp (fun a b hab => (hasEdge_congr _ _ hview a b).mp hab) hchain
    refine ⟨p, z, ?_, hzp, hchain0, ?_⟩
    · simp only []
      rw [he]
    · obtain ⟨p1, p2, rfl⟩ := List.append_of_mem hzp
      refine ⟨p1, p2, rfl, z, p2, rfl, ?_⟩
      have hsuf : (z :: (p2 ++ [z])) <:+ ((p1 ++ z :: p2) ++ [z]) := ⟨p1, by simp⟩
      exact hchain0.suffix hsuf

theorem c1_witness :
    contC1two.built = false ∧
    IsCycle contC1two.registeredBeans ["a", "b"] ∧
    ∃ p z, (contC1two.build envC1two none).err =
        some (.msg ("dependency cycle detected: " ++ joinPath p z)) ∧
      z ∈ p ∧ List.Chain' (hasEdge contC1two.registeredBeans) (p ++ [z]) ∧
      ∃ p1 p2, p = p1 ++ z :: p2 ∧ IsCycle contC1two.registeredBeans (z :: p2) :=
  ⟨by decide, ⟨"a", ["b"], rfl, List.Chain.cons (by decide) (List.Chain.cons (by decide) List.Chain.nil)⟩,
   (c1_cycle_detected envC1two none contC1two (by decide) (by decide) (by decide)
     (by decide) (by decide) (by decide) (by decide) ["a", "b"]
     ⟨"a", ["b"], rfl, List.Chain.cons (by decide) (List.Chain.cons (by decide) List.Chain.nil)⟩).1⟩

/-- Counterexample input: `a` and `b` form a declared cycle, but `a` also
declares a dependency on the never-registered `m`. -/
def envC1x : TypeEnv :=
  { fieldsOf := fun n =>
      if n = "A" then [⟨"FB", true, some "b", .ptrT (.structT "B")⟩,
        ⟨"FM", true, some "m", .ptrT (.structT "M")⟩]
      else if n = "B" then [⟨"FA", true, some "a", .ptrT (.structT "A")⟩]
      else []
    impl := fun _ _ => false
    initHook := fun _ => none }

def contC1x : Container :=
  match newContainer.register envC1x "a" (some (.ptrT (.structT "A"))) with
  | .ok c1 =>
    match c1.register envC1x "b" (some (.ptrT (.structT "B"))) with
    | .ok c2 => c2
    | .error _ => newContainer
  | .error _ => newContainer

/-- C1 counterexample: the registered beans' declared dependency
identifiers contain a cycle (`a -> b -> a`), yet `build()` fails with the
pre-build missing-dependency error for the unrelated `m` — a message that
contains no occurrence of the ` -> ` separator at all, let alone the cycle
path.  The claim's universal statement is therefore false on the code: the
pre-build check can preempt cycle detection. -/
theorem c1_counterexample :
    IsCycle contC1x.registeredBeans ["a", "b"] ∧
    (contC1x.build envC1x none).err =
      some (.msg "bean `m` is required but not registered") ∧
    ∀ s1 s2 : String, "bean `m` is required but not registered" ≠ s1 ++ pathSep ++ s2 := by
  refine ⟨⟨"a", ["b"], rfl, List.Chain.cons (by decide) (List.Chain.cons (by decide) List.Chain.nil)⟩, by decide, ?_⟩
  intro s1 s2 hcon
  have hd : ("bean `m` is required but not registered" : String).data
      = (s1 ++ pathSep ++ s2).data := congrArg String.data hcon
  have hmem : '>' ∈ (s1 ++ pathSep ++ s2).data := by
    rw [String.data_append, String.data_append]
    exact List.mem_append_left _ (List.mem_append_right _ (by decide))
  rw [← hd] at hmem
  exact absurd hmem (by decide)

end Iocdi
